import Mathlib

/-!
Verification development for the bpmnMATLAB python port
(`src/python_port/src`).  The Python modules under verification are:

* `api/validation_layer.py`  — `ValidationLayer.validate` and its helpers
  (`_ensure_flow_ids`, `_ensure_element_ids`, `_ensure_pool_ids`,
  `_ensure_lane_ids`, `_validate_type`, `_get_schema`);
* `api/schema_loader.py`     — the static schema catalogue;
* `bridges/bpmn_generator.py` — `BPMNGenerator.generate_from_context` and its
  `_create_*` helpers;
* `api/data_generation_pipeline.py` — `DataGenerationPipeline.run`.

The embedding is shallow: Python dict/list/str/int/float/bool/None values
become the inductive type `Value`; dicts are insertion-ordered association
lists, matching Python dict semantics (updating an existing key keeps its
position, a new key is appended at the end).  Machine-level behaviour of
Python builtins (`str`, `int`, `float`, truthiness, `str.lower`) is modelled
by the `py*` functions below; the decimal rendering of `str` on ints is exact,
the renderings of floats/lists/dicts are stand-ins (they are only ever
compared for emptiness / equality with themselves in the theorems).
-/

/-! ## Character/string helpers (kernel-reducible replacements for the
String library functions, all operating on the underlying `List Char`) -/

def digitChar (d : Nat) : Char := Char.ofNat (48 + d)

def natStrAux : Nat → Nat → List Char
  | 0, _ => []
  | fuel+1, n => if n < 10 then [digitChar n] else natStrAux fuel (n / 10) ++ [digitChar (n % 10)]

/-- Decimal rendering of a natural number (agrees with Python `str` on `int ≥ 0`). -/
def natStr (n : Nat) : String := String.mk (natStrAux (n + 1) n)

/-- Decimal rendering of an integer (agrees with Python `str` on `int`). -/
def intStr (i : Int) : String := if i < 0 then "-" ++ natStr i.natAbs else natStr i.natAbs

/-- Model of the Python format `f"{n:03d}"` for positive `n`. -/
def pad3 (n : Nat) : String :=
  if n < 10 then "00" ++ natStr n else if n < 100 then "0" ++ natStr n else natStr n

/-- Model of Python `s.startswith(p)`. -/
def strStartsWith (s p : String) : Bool := p.data.isPrefixOf s.data

def listInfix : List Char → List Char → Bool
  | needle, [] => needle.isEmpty
  | needle, c :: t => needle.isPrefixOf (c :: t) || listInfix needle t

/-- Model of Python `needle in hay` for strings (substring containment). -/
def strContains (hay needle : String) : Bool := listInfix needle.data hay.data

/-- Model of Python `c in s` for a single character. -/
def strHasChar (s : String) (c : Char) : Bool := s.data.contains c

def lowerChar (c : Char) : Char := if 'A' ≤ c ∧ c ≤ 'Z' then Char.ofNat (c.toNat + 32) else c

/-- Model of Python `s.lower()` (ASCII range, which covers every string the
source compares after lowering). -/
def lowerStr (s : String) : String := String.mk (s.data.map lowerChar)

/-- Model of the Python slice `s[-n:]`: the last `min n (length s)` characters. -/
def lastN (n : Nat) (s : String) : String := String.mk (s.data.drop (s.data.length - n))

/-! ## The value model: Python JSON-like values -/

mutual
/-- A Python value as handled by the port: strings, ints, floats (modelled as
rationals), booleans, `None`, lists and dicts. -/
inductive Value where
  | vStr (s : String)
  | vInt (n : Int)
  | vFloat (q : Rat)
  | vBool (b : Bool)
  | vNull
  | vList (xs : VList)
  | vDict (fs : VFields)
deriving DecidableEq
/-- A list of values (spine of `Value.vList`). -/
inductive VList where
  | nil
  | cons (v : Value) (tl : VList)
deriving DecidableEq
/-- An insertion-ordered Python dict (spine of `Value.vDict`). -/
inductive VFields where
  | nil
  | cons (k : String) (v : Value) (tl : VFields)
deriving DecidableEq
end

/-- A record: an insertion-ordered association list, the working form of a
Python dict inside the validation layer and the generator. -/
abbrev Record := List (String × Value)

def VFields.toRecord : VFields → Record
  | .nil => []
  | .cons k v tl => (k, v) :: tl.toRecord

def VFields.ofRecord : Record → VFields
  | [] => .nil
  | (k, v) :: tl => .cons k v (VFields.ofRecord tl)

def VList.toList : VList → List Value
  | .nil => []
  | .cons v tl => v :: tl.toList

def VList.ofList : List Value → VList
  | [] => .nil
  | v :: tl => .cons v (VList.ofList tl)

/-- Model of Python `d[k]` / `d.get(k)`: the first binding of `k`. -/
def rget (r : Record) (k : String) : Option Value :=
  match r with
  | [] => none
  | (k2, v) :: tl => if k2 = k then some v else rget tl k

/-- Model of Python `k in d`. -/
def rhas (r : Record) (k : String) : Bool := (rget r k).isSome

/-- Model of Python `d[k] = v`: replace in place if the key exists, otherwise
append the new binding at the end (Python dict insertion-order semantics). -/
def rset (r : Record) (k : String) (v : Value) : Record :=
  match r with
  | [] => [(k, v)]
  | (k2, w) :: tl => if k2 = k then (k2, v) :: tl else (k2, w) :: rset tl k v

/-! ## Models of the Python builtins used by the source -/

/-- Model of Python truthiness (`bool(x)` / `if x:`). -/
def truthy : Value → Bool
  | .vStr s => decide (s ≠ "")
  | .vInt n => decide (n ≠ 0)
  | .vFloat q => decide (q ≠ 0)
  | .vBool b => b
  | .vNull => false
  | .vList xs => decide (xs ≠ .nil)
  | .vDict fs => decide (fs ≠ .nil)

/-- Model of Python `str(x)`.  Exact on strings, ints, booleans and `None`;
the float/list/dict renderings are nonempty stand-ins (the source never
inspects their characters, only emptiness/equality). -/
def pyStr : Value → String
  | .vStr s => s
  | .vInt n => intStr n
  | .vFloat q => intStr q.num ++ "/" ++ natStr q.den
  | .vBool b => if b then "True" else "False"
  | .vNull => "None"
  | .vList _ => "<list>"
  | .vDict _ => "<dict>"

def parseDigits (cs : List Char) : Option Nat :=
  if cs.isEmpty then none
  else cs.foldl (fun acc c => acc.bind (fun n => if c.isDigit then some (10 * n + (c.toNat - 48)) else none)) (some 0)

def stripSpaces (cs : List Char) : List Char :=
  ((cs.dropWhile (· = ' ')).reverse.dropWhile (· = ' ')).reverse

/-- Model of Python `int(s)` on strings: optional surrounding spaces, optional
sign, decimal digits; anything else raises `ValueError` (here: `none`). -/
def pyIntOfString (s : String) : Option Int :=
  match stripSpaces s.data with
  | '-' :: rest => (parseDigits rest).map (fun n => -(n : Int))
  | '+' :: rest => (parseDigits rest).map (fun n => (n : Int))
  | cs => (parseDigits cs).map (fun n => (n : Int))

def pyFloatDigits (ip fp : List Char) : Option Rat :=
  if ip.isEmpty ∧ fp.isEmpty then none
  else
    (if ip.isEmpty then some 0 else parseDigits ip).bind (fun i =>
      (if fp.isEmpty then some 0 else parseDigits fp).map (fun f =>
        (i : Rat) + (f : Rat) / ((10 : Rat) ^ fp.length)))

def pyFloatNoSign (cs : List Char) : Option Rat :=
  let ip := cs.takeWhile (fun c => c ≠ '.')
  match cs.dropWhile (fun c => c ≠ '.') with
  | [] => pyFloatDigits ip []
  | _ :: fp => pyFloatDigits ip fp

/-- Model of Python `float(s)` on strings (decimal forms; the exponent forms
accepted by CPython are irrelevant to every theorem below, which only rely on
parse success/failure). -/
def pyFloatOfString (s : String) : Option Rat :=
  match stripSpaces s.data with
  | '-' :: rest => (pyFloatNoSign rest).map (fun q => -q)
  | '+' :: rest => pyFloatNoSign rest
  | cs => pyFloatNoSign cs

def ratTrunc (q : Rat) : Int := if 0 ≤ q then q.floor else q.ceil

/-- Model of Python `int(x)`: `none` models the `ValueError`/`TypeError`
branch that the source catches. -/
def pyToInt : Value → Option Int
  | .vStr s => pyIntOfString s
  | .vInt n => some n
  | .vFloat q => some (ratTrunc q)
  | .vBool b => some (if b then 1 else 0)
  | _ => none

/-- Model of Python `float(x)`: `none` models the `ValueError`/`TypeError`
branch that the source catches. -/
def pyToFloat : Value → Option Rat
  | .vStr s => pyFloatOfString s
  | .vInt n => some (n : Rat)
  | .vFloat q => some q
  | .vBool b => some (if b then 1 else 0)
  | _ => none

/-! ## Schema catalogue (`api/schema_loader.py`)

Each field schema mirrors one entry of the Python dicts returned by
`SchemaLoader`: the optional `'type'` (a single type name or a list of
alternatives), the `'required'` flag (`.get('required', False)` semantics),
the optional `'default'`, and the optional `'format'`.  The `'items'` key of
`lanes.element_refs` is not modelled because the source never reads it. -/

inductive SchemaTy where
  | single (t : String)
  | options (ts : List String)
deriving DecidableEq

structure FieldSchema where
  type? : Option SchemaTy
  required : Bool
  default? : Option Value
  format? : Option String
deriving DecidableEq

abbrev Schema := List (String × FieldSchema)

def fReq (t : String) : FieldSchema := ⟨some (.single t), true, none, none⟩

def fOpt (t : String) : FieldSchema := ⟨some (.single t), false, none, none⟩

def fOptD (t : String) (d : Value) : FieldSchema := ⟨some (.single t), false, some d, none⟩

def fOptAlt (ts : List String) : FieldSchema := ⟨some (.options ts), false, none, none⟩

def fOptAltD (ts : List String) (d : Value) : FieldSchema := ⟨some (.options ts), false, some d, none⟩

def fOptAltF (ts : List String) (fmt : String) : FieldSchema := ⟨some (.options ts), false, none, some fmt⟩

def processDefinitionsSchema : Schema :=
  [("process_id", fReq "string"),
   ("process_name", fReq "string"),
   ("description", fReq "string"),
   ("version", fOptD "string" (.vStr "1.0")),
   ("author", fOptAlt ["string", "null"]),
   ("creation_date", fOptAltF ["string", "null"] "date-time"),
   ("last_modified", fOptAltF ["string", "null"] "date-time"),
   ("status", fOptAltD ["string", "null"] (.vStr "Draft"))]

def bpmnElementsSchema : Schema :=
  [("element_id", fReq "string"),
   ("element_name", fReq "string"),
   ("element_type", fReq "string"),
   ("element_subtype", fOpt "string"),
   ("process_id", fReq "string"),
   ("parent_id", fOpt "string"),
   ("description", fOpt "string"),
   ("position_x", fOpt "number"),
   ("position_y", fOpt "number"),
   ("width", fOpt "number"),
   ("height", fOpt "number")]

def sequenceFlowsSchema : Schema :=
  [("flow_id", fReq "string"),
   ("source_ref", fReq "string"),
   ("target_ref", fReq "string"),
   ("process_id", fReq "string"),
   ("condition_expr", fOpt "string"),
   ("description", fOpt "string")]

def resourcesSchema : Schema :=
  [("resource_id", fReq "string"),
   ("resource_name", fReq "string"),
   ("resource_type", fReq "string"),
   ("element_id", fReq "string"),
   ("process_id", fReq "string"),
   ("capability", fOpt "string"),
   ("availability", fOpt "string")]

def modulesSchema : Schema :=
  [("module_id", fReq "string"),
   ("module_name", fReq "string"),
   ("process_id", fReq "string"),
   ("description", fOpt "string"),
   ("version", fOptD "string" (.vStr "1.0")),
   ("dependencies", fOpt "string")]

def partsSchema : Schema :=
  [("part_id", fReq "string"),
   ("part_name", fReq "string"),
   ("module_id", fReq "string"),
   ("description", fOpt "string"),
   ("quantity", fOptD "number" (.vInt 1)),
   ("material", fOpt "string")]

def subpartsSchema : Schema :=
  [("subpart_id", fReq "string"),
   ("subpart_name", fReq "string"),
   ("part_id", fReq "string"),
   ("description", fOpt "string"),
   ("quantity", fOptD "number" (.vInt 1)),
   ("dimensions", fOpt "string")]

def poolsSchema : Schema :=
  [("pool_id", fReq "string"),
   ("pool_name", fReq "string"),
   ("process_id", fReq "string"),
   ("description", fReq "string"),
   ("participant_type", fOptD "string" (.vStr "organization"))]

def lanesSchema : Schema :=
  [("lane_id", fReq "string"),
   ("lane_name", fReq "string"),
   ("pool_id", fReq "string"),
   ("process_id", fReq "string"),
   ("description", fReq "string"),
   ("role", fOpt "string"),
   ("element_refs", fOpt "array")]

def processPhasesSchema : Schema :=
  [("phase_id", fReq "string"),
   ("phase_name", fReq "string"),
   ("description", fReq "string"),
   ("order", fOpt "integer")]

def lookupStr {α : Type} : List (String × α) → String → Option α
  | [], _ => none
  | (k, v) :: tl, s => if k = s then some v else lookupStr tl s

/-- Model of `SchemaLoader.load()`. -/
def schemasCatalog : List (String × Schema) :=
  [("process_definitions", processDefinitionsSchema),
   ("bpmn_elements", bpmnElementsSchema),
   ("sequence_flows", sequenceFlowsSchema),
   ("resources", resourcesSchema),
   ("pools", poolsSchema),
   ("lanes", lanesSchema),
   ("modules", modulesSchema),
   ("parts", partsSchema),
   ("subparts", subpartsSchema)]

/-- Model of `ValidationLayer._get_schema`. -/
def getSchema (level : String) : Option Schema :=
  if level = "process_phases" then some processPhasesSchema
  else lookupStr schemasCatalog level

/-! ## Type coercion (`ValidationLayer._validate_type`) -/

def dtSentinel : String := "2025-04-26T12:00:00Z"

/-- The trailing `date-time` format check of `_validate_type`: reached only by
the code paths that do not return early. -/
def dtCheck (fmt : Option String) (v : Value) : Value :=
  match v with
  | .vStr s =>
      if fmt = some "date-time" ∧ ¬(strHasChar s 'T' ∧ strHasChar s ':') then .vStr dtSentinel
      else v
  | _ => v

/-- Model of `_validate_type` for a single expected type.  The branches that
convert the value return immediately in the Python source and therefore skip
the `date-time` check; the pass-through branches fall into it. -/
def validateTypeSingle (v : Value) (t : String) (fmt : Option String) : Value :=
  if t = "string" then
    match v with
    | .vStr _ => dtCheck fmt v
    | _ => .vStr (pyStr v)
  else if t = "number" then
    match v with
    | .vInt _ => dtCheck fmt v
    | .vFloat _ => dtCheck fmt v
    | .vBool _ => dtCheck fmt v
    | _ => match pyToFloat v with
           | some q => .vFloat q
           | none => .vInt 0
  else if t = "integer" then
    match v with
    | .vInt _ => dtCheck fmt v
    | .vBool _ => dtCheck fmt v
    | _ => match pyToInt v with
           | some n => .vInt n
           | none => .vInt 0
  else if t = "boolean" then
    match v with
    | .vBool _ => dtCheck fmt v
    | .vStr s => .vBool (lowerStr s == "true" || lowerStr s == "yes" || lowerStr s == "1")
    | _ => .vBool (truthy v)
  else if t = "null" then .vNull
  else dtCheck fmt v

/-- Model of the list-of-alternatives loop of `_validate_type`: a `"null"`
alternative is skipped when the value is not `None`; the first alternative
tried returns (the single-type branches catch their own conversion errors, so
the `except ValueError: continue` arm is dead). -/
def validateTypeList (v : Value) (ts : List String) (fmt : Option String) : Value :=
  match ts with
  | [] => v
  | t :: rest =>
      if t = "null" ∧ v ≠ .vNull then validateTypeList v rest fmt
      else validateTypeSingle v t fmt

def validateType (v : Value) (ty : SchemaTy) (fmt : Option String) : Value :=
  match ty with
  | .single t => validateTypeSingle v t fmt
  | .options ts => validateTypeList v ts fmt

/-! ## Per-record reconciliation (the field loop of `ValidationLayer.validate`) -/

/-- One iteration of the `for field, field_schema in schema.items()` loop:
missing field → inject default, else flag invalid when required; present
field → coerce when the schema declares a type.  The boolean is the
contribution to `is_valid`. -/
def applyField (r : Record) (fname : String) (fs : FieldSchema) : Record × Bool :=
  match rget r fname with
  | none =>
      match fs.default? with
      | some d => (rset r fname d, true)
      | none => (r, !fs.required)
  | some v =>
      match fs.type? with
      | some ty => (rset r fname (validateType v ty fs.format?), true)
      | none => (r, true)

def applySchema : Schema → Record → Record × Bool
  | [], r => (r, true)
  | (f, fs) :: tl, r =>
      let q := applyField r f fs
      let rest := applySchema tl q.1
      (rest.1, q.2 && rest.2)

/-- The `process_definitions` special case: rewrite a `process_id` that does
not start with `PROC_`.  When present the field has already been coerced to a
string by the field loop, so the non-string arm is unreachable (in Python it
would raise `AttributeError`). -/
def fixProcessId (level : String) (r : Record) : Record :=
  if level = "process_definitions" then
    match rget r "process_id" with
    | some (.vStr s) =>
        if strStartsWith s "PROC_" then r
        else rset r "process_id" (.vStr ("PROC_" ++ lastN 3 s))
    | _ => r
  else r

/-- The whole per-item body of the validation loop: non-dicts are skipped with
a diagnostic, dicts are copied, reconciled field by field, given the
`process_id` fix, and kept only when valid. -/
def processItem (level : String) (schema : Schema) (item : Value) : Option Record :=
  match item with
  | .vDict fs =>
      let q := applySchema schema fs.toRecord
      let r2 := fixProcessId level q.1
      if q.2 then some r2 else none
  | _ => none

/-! ## Context back-fill (the level-specific blocks at the top of `validate`) -/

/-- Python `'k' not in d or not d[k]`. -/
def missingOrFalsey (d : Record) (k : String) : Bool :=
  match rget d k with
  | none => true
  | some v => !truthy v

/-- Extraction of `process_id` from `context['process_definitions']` as done
for `sequence_flows` and `bpmn_elements`: first entry of a non-empty list, or
a dict containing the key.  A non-dict first entry would raise
`AttributeError` in Python; it is modelled as no process id (unreachable for
pipeline-produced contexts). -/
def procIdFromDefs (c : Record) : Option Value :=
  match rget c "process_definitions" with
  | some (.vList (.cons (.vDict d) _)) => rget d.toRecord "process_id"
  | some (.vDict d) => rget d.toRecord "process_id"
  | _ => none

/-- Extraction of `process_id` for `pools` and `lanes`: only the non-empty
list branch exists in the source. -/
def procIdFromDefsListOnly (c : Record) : Option Value :=
  match rget c "process_definitions" with
  | some (.vList (.cons (.vDict d) _)) => rget d.toRecord "process_id"
  | _ => none

def poolIdFromCtx (c : Record) : Option Value :=
  match rget c "pool" with
  | some (.vDict d) => rget d.toRecord "pool_id"
  | _ => none

/-- Apply `d[k] = pv` to every dict record whose `k` is absent or falsey. -/
def backfillKey (k : String) (pv : Value) : List Value → List Value :=
  List.map (fun item => match item with
    | .vDict fs =>
        let d := fs.toRecord
        if missingOrFalsey d k then Value.vDict (VFields.ofRecord (rset d k pv)) else item
    | _ => item)

def backfillFromDefs (pv? : Option Value) (data : List Value) : List Value :=
  match pv? with
  | some pv => if truthy pv then backfillKey "process_id" pv data else data
  | none => data

/-- The `lanes` back-fill block: `pool_id` from `context['pool']`, then
`process_id` from the process definitions. -/
def lanesEnrich (c : Record) (data : List Value) : List Value :=
  let pid? := poolIdFromCtx c
  let prid? := procIdFromDefsListOnly c
  data.map (fun item => match item with
    | .vDict fs =>
        let d := fs.toRecord
        let d1 := match pid? with
          | some pv => if truthy pv ∧ missingOrFalsey d "pool_id" then rset d "pool_id" pv else d
          | none => d
        let d2 := match prid? with
          | some pv => if truthy pv ∧ missingOrFalsey d1 "process_id" then rset d1 "process_id" pv else d1
          | none => d1
        Value.vDict (VFields.ofRecord d2)
    | _ => item)

def enrich (level : String) (data : List Value) (ctx : Option Record) : List Value :=
  match ctx with
  | none => data
  | some c =>
      if c = [] then data
      else if level = "sequence_flows" ∧ rhas c "process_definitions" then
        backfillFromDefs (procIdFromDefs c) data
      else if level = "bpmn_elements" ∧ rhas c "process_definitions" then
        backfillFromDefs (procIdFromDefs c) data
      else if level = "pools" ∧ rhas c "process_definitions" then
        backfillFromDefs (procIdFromDefsListOnly c) data
      else if level = "lanes" then
        lanesEnrich c data
      else data

/-! ## Identifier assignment (`_ensure_flow_ids` / `_ensure_element_ids` /
`_ensure_pool_ids` / `_ensure_lane_ids`) -/

/-- The Python guard `'k' not in d or not d[k] or not isinstance(d[k], str)`:
`some s` when the present value is a non-empty string (kept), `none` when the
id must be synthesized. -/
def keepableId (v? : Option Value) : Option String :=
  match v? with
  | some (.vStr s) => if s = "" then none else some s
  | _ => none

/-- Synthesize-or-rewrite used by flows, pools and lanes: missing/falsey/
non-string id → `<pfx><position:03d>`; present but unprefixed → `<pfx>` + last
three characters. -/
def fixIdWith (pfx : String) (i : Nat) (d : Record) (k : String) : Record :=
  match keepableId (rget d k) with
  | none => rset d k (.vStr (pfx ++ pad3 (i + 1)))
  | some s => if strStartsWith s pfx then d else rset d k (.vStr (pfx ++ lastN 3 s))

def ensureFlowIds (flows : List Value) : List Value :=
  flows.enum.map (fun p => match p.2 with
    | .vDict fs => Value.vDict (VFields.ofRecord (fixIdWith "FLOW_" p.1 fs.toRecord "flow_id"))
    | _ => p.2)

def ensurePoolIds (pools : List Value) : List Value :=
  pools.enum.map (fun p => match p.2 with
    | .vDict fs => Value.vDict (VFields.ofRecord (fixIdWith "POOL_" p.1 fs.toRecord "pool_id"))
    | _ => p.2)

def getStrLower (d : Record) (k : String) : String :=
  match rget d k with
  | some (.vStr s) => lowerStr s
  | _ => ""

/-- The element-id prefix table of `_ensure_element_ids`. -/
def elementIdPfx (d : Record) : String :=
  let et := getStrLower d "element_type"
  if et = "event" then
    let st := getStrLower d "element_subtype"
    if strContains st "start" then "START_"
    else if strContains st "end" then "END_"
    else "EVEN_"
  else if et = "task" then "TASK_"
  else if et = "gateway" then "GATE_"
  else "ELEM_"

/-- Model of `_ensure_element_ids`: unlike the flow/pool/lane variants this
function only synthesizes missing/falsey/non-string ids — it has no
"correct format" branch, so a present non-empty string id is kept verbatim. -/
def ensureElementIds (elements : List Value) : List Value :=
  elements.enum.map (fun p => match p.2 with
    | .vDict fs =>
        let d := fs.toRecord
        match keepableId (rget d "element_id") with
        | none => Value.vDict (VFields.ofRecord (rset d "element_id" (.vStr (elementIdPfx d ++ pad3 (p.1 + 1)))))
        | some _ => p.2
    | _ => p.2)

def ensureLaneIds (lanes : List Value) (poolId? : Option Value) : List Value :=
  lanes.enum.map (fun p => match p.2 with
    | .vDict fs =>
        let d := fs.toRecord
        let d1 := fixIdWith "LANE_" p.1 d "lane_id"
        let d2 := match poolId? with
          | some pv => if truthy pv ∧ missingOrFalsey d1 "pool_id" then rset d1 "pool_id" pv else d1
          | none => d1
        Value.vDict (VFields.ofRecord d2)
    | _ => p.2)

/-- The `pool_id` handed to `_ensure_lane_ids` by `validate`. -/
def lanePoolIdParam (ctx : Option Record) : Option Value :=
  match ctx with
  | some c => if c = [] then none else poolIdFromCtx c
  | none => none

def ensureIds (level : String) (data : List Value) (ctx : Option Record) : List Value :=
  if level = "sequence_flows" then ensureFlowIds data
  else if level = "bpmn_elements" then ensureElementIds data
  else if level = "pools" then ensurePoolIds data
  else if level = "lanes" then ensureLaneIds data (lanePoolIdParam ctx)
  else data

/-! ## `ValidationLayer.validate` -/

/-- Model of `ValidationLayer.validate(level, data, context)`: empty input
short-circuits, a missing schema passes the batch through unchanged, otherwise
the batch is context-back-filled, id-repaired, and filtered/coerced record by
record in input order. -/
def validate (level : String) (data : List Value) (ctx : Option Record) : List Value :=
  if data = [] then []
  else
    match getSchema level with
    | none => data
    | some schema =>
        (ensureIds level (enrich level data ctx) ctx).filterMap
          (fun it => (processItem level schema it).map (fun r => Value.vDict (VFields.ofRecord r)))

/-! ## The BPMN generator (`bridges/bpmn_generator.py`)

XML is modelled as a tree of nodes carrying a tag, ordered attributes, child
nodes and (for the condition-expression text node) text content.  Attribute
values are the `str` rendering of the Python value that `setAttribute`
receives.  `uuid.uuid4().hex[:8]` is modelled by a per-document fresh counter
(`uuidHex`): the source only uses these strings as default identifiers, never
inspecting them.  `_save_to_file` (filesystem I/O and pretty-printing) is not
modelled; the compiled tree is the output contract. -/

inductive XNode where
  | mk (tag : String) (attrs : List (String × String)) (kids : List XNode) (txt : String)

def XNode.tag : XNode → String
  | .mk t _ _ _ => t

def XNode.attrs : XNode → List (String × String)
  | .mk _ a _ _ => a

def XNode.kids : XNode → List XNode
  | .mk _ _ k _ => k

def attrOf (n : XNode) (k : String) : Option String := lookupStr n.attrs k

def uuidHex (n : Nat) : String := "u" ++ natStr n

/-- The mutable generator state: children accumulated under the `process`
node, children accumulated under the `BPMNPlane` node, the `self.elements`
dict (raw id value → node, insertion ordered) and the uuid counter. -/
structure GenState where
  procKids : List XNode
  planeKids : List XNode
  elems : List (Value × XNode)
  fresh : Nat

def dHas (l : List (Value × XNode)) (k : Value) : Bool := l.any (fun p => decide (p.1 = k))

def dSet (l : List (Value × XNode)) (k : Value) (n : XNode) : List (Value × XNode) :=
  match l with
  | [] => [(k, n)]
  | (k2, m) :: tl => if k2 = k then (k2, n) :: tl else (k2, m) :: dSet tl k n

def nameAttrs (eid : String) (nm : Value) : List (String × String) :=
  if truthy nm then [("id", eid), ("name", pyStr nm)] else [("id", eid)]

/-- Model of `_create_start_event`. -/
def startEventNode (eid : String) (nm : Value) : XNode :=
  XNode.mk "startEvent" (nameAttrs eid nm) [] ""

/-- Model of `_create_end_event`. -/
def endEventNode (eid : String) (nm : Value) : XNode :=
  XNode.mk "endEvent" (nameAttrs eid nm) [] ""

/-- Model of `_create_intermediate_event`; the substring tests run on the raw
subtype, which is a string on every non-crashing Python path. -/
def intermediateEventNode (eid : String) (nm : Value) (sub : Value) : XNode :=
  let subS := pyStr sub
  let tag := if strContains subS "Catch" then "intermediateCatchEvent" else "intermediateThrowEvent"
  let kids :=
    if strContains subS "Message" then
      [XNode.mk "messageEventDefinition" [("id", "MessageEventDefinition_" ++ eid)] [] ""]
    else if strContains subS "Timer" then
      [XNode.mk "timerEventDefinition" [("id", "TimerEventDefinition_" ++ eid)] [] ""]
    else if strContains subS "Error" then
      [XNode.mk "errorEventDefinition" [("id", "ErrorEventDefinition_" ++ eid)] [] ""]
    else []
  XNode.mk tag (nameAttrs eid nm) kids ""

/-- Model of `_create_task`. -/
def taskNode (eid : String) (nm : Value) (sub : Value) : XNode :=
  let tag :=
    if sub = .vStr "userTask" ∨ sub = .vStr "user" then "userTask"
    else if sub = .vStr "serviceTask" ∨ sub = .vStr "service" then "serviceTask"
    else if sub = .vStr "scriptTask" ∨ sub = .vStr "script" then "scriptTask"
    else if sub = .vStr "businessRuleTask" ∨ sub = .vStr "business-rule" then "businessRuleTask"
    else if sub = .vStr "manualTask" ∨ sub = .vStr "manual" then "manualTask"
    else if sub = .vStr "receiveTask" ∨ sub = .vStr "receive" then "receiveTask"
    else if sub = .vStr "sendTask" ∨ sub = .vStr "send" then "sendTask"
    else "task"
  XNode.mk tag (nameAttrs eid nm) [] ""

/-- Model of `_create_gateway`. -/
def gatewayNode (eid : String) (nm : Value) (sub : Value) : XNode :=
  let tag :=
    if sub = .vStr "parallelGateway" ∨ sub = .vStr "parallel" then "parallelGateway"
    else if sub = .vStr "inclusiveGateway" ∨ sub = .vStr "inclusive" then "inclusiveGateway"
    else if sub = .vStr "eventBasedGateway" ∨ sub = .vStr "event-based" then "eventBasedGateway"
    else if sub = .vStr "complexGateway" ∨ sub = .vStr "complex" then "complexGateway"
    else "exclusiveGateway"
  XNode.mk tag (nameAttrs eid nm) [] ""

/-- The `(element_type, element_subtype)` dispatch of `_create_elements`:
`some` node for event/task/gateway records, `none` (no node, no shape) for
any other type. -/
def elemNode (d : Record) (eid : String) : Option XNode :=
  let nm := (rget d "element_name").getD (.vStr "")
  let ty := (rget d "element_type").getD (.vStr "")
  let sub := (rget d "element_subtype").getD (.vStr "")
  if ty = .vStr "event" then
    if sub = .vStr "startEvent" then some (startEventNode eid nm)
    else if sub = .vStr "endEvent" then some (endEventNode eid nm)
    else some (intermediateEventNode eid nm sub)
  else if ty = .vStr "task" then some (taskNode eid nm sub)
  else if ty = .vStr "gateway" then some (gatewayNode eid nm sub)
  else none

/-- Model of `_create_shape`. -/
def shapeNode (eid x y w h : String) : XNode :=
  XNode.mk "bpmndi:BPMNShape" [("id", "BPMNShape_" ++ eid), ("bpmnElement", eid)]
    [XNode.mk "dc:Bounds" [("x", x), ("y", y), ("width", w), ("height", h)] [] ""] ""

def attrOfOpt (v? : Option Value) (dflt : Nat) : String :=
  match v? with
  | some v => pyStr v
  | none => natStr dflt

/-- One iteration of the `_create_elements` loop. -/
def createElementsStep (st : GenState) (d : Record) : GenState :=
  let key := (rget d "element_id").getD (.vStr ("Element_" ++ uuidHex st.fresh))
  let fresh2 := if rhas d "element_id" then st.fresh else st.fresh + 1
  let eid := pyStr key
  match elemNode d eid with
  | none => ⟨st.procKids, st.planeKids, st.elems, fresh2⟩
  | some node =>
      let elems2 := dSet st.elems key node
      let n := elems2.length
      let x := attrOfOpt (rget d "position_x") ((n * 150) % 800)
      let y := attrOfOpt (rget d "position_y") (100 + ((n * 150) / 800) * 150)
      let w := attrOfOpt (rget d "width") 100
      let h := attrOfOpt (rget d "height") 80
      ⟨st.procKids ++ [node], st.planeKids ++ [shapeNode eid x y w h], elems2, fresh2⟩

/-- Model of `_create_edge`. -/
def edgeNode (fid : String) : XNode :=
  XNode.mk "bpmndi:BPMNEdge" [("id", "BPMNEdge_" ++ fid), ("bpmnElement", fid)]
    [XNode.mk "di:waypoint" [("x", "0"), ("y", "0")] [] "",
     XNode.mk "di:waypoint" [("x", "100"), ("y", "100")] [] ""] ""

/-- Model of `sequenceFlow` node construction including the optional
condition sub-node. -/
def flowNodeOf (fid src tgt : String) (cond? : Option Value) : XNode :=
  let kids := match cond? with
    | some cv => if truthy cv then [XNode.mk "conditionExpression" [] [] (pyStr cv)] else []
    | none => []
  XNode.mk "sequenceFlow" [("id", fid), ("sourceRef", src), ("targetRef", tgt)] kids ""

/-- The skip guard of `_create_flows`: both endpoints truthy and resolving to
compiled element keys. -/
def resolvedFlow (elems : List (Value × XNode)) (d : Record) : Bool :=
  let src := (rget d "source_ref").getD (.vStr "")
  let tgt := (rget d "target_ref").getD (.vStr "")
  truthy src && truthy tgt && dHas elems src && dHas elems tgt

/-- One iteration of the `_create_flows` loop. -/
def createFlowsStep (st : GenState) (d : Record) : GenState :=
  let fid := pyStr ((rget d "flow_id").getD (.vStr ("Flow_" ++ uuidHex st.fresh)))
  let fresh2 := if rhas d "flow_id" then st.fresh else st.fresh + 1
  let src := (rget d "source_ref").getD (.vStr "")
  let tgt := (rget d "target_ref").getD (.vStr "")
  if truthy src && truthy tgt && dHas st.elems src && dHas st.elems tgt then
    ⟨st.procKids ++ [flowNodeOf fid (pyStr src) (pyStr tgt) (rget d "condition_expr")],
     st.planeKids ++ [edgeNode fid], st.elems, fresh2⟩
  else ⟨st.procKids, st.planeKids, st.elems, fresh2⟩

/-- The slice of the pipeline context that `generate_from_context` reads.
Shapes on which the Python code would raise (a non-list
`process_definitions`, non-dict elements or flows) are outside the state
space of the embedding. -/
structure GenContext where
  processDefs : Option (List Value)
  bpmnElements : Option (List Record)
  seqFlows : Option (List Record)

/-- Model of the process id/name extraction in `_create_process`. -/
def processIdName (c : GenContext) : String × String :=
  match c.processDefs with
  | some (Value.vDict d :: _) =>
      ((match rget d.toRecord "process_id" with
        | some v => pyStr v
        | none => "Process_1"),
       (match rget d.toRecord "process_name" with
        | some v => pyStr v
        | none => "Default Process"))
  | some (_ :: _) => ("Process_1", "Default Process")
  | _ => ("Process_1", "Default Process")

def createElements (es : List Record) (st : GenState) : GenState := es.foldl createElementsStep st

def createFlows (fl : List Record) (st : GenState) : GenState := fl.foldl createFlowsStep st

def definitionsAttrs : List (String × String) :=
  [("xmlns", "http://www.omg.org/spec/BPMN/20100524/MODEL"),
   ("xmlns:bpmndi", "http://www.omg.org/spec/BPMN/20100524/DI"),
   ("xmlns:dc", "http://www.omg.org/spec/DD/20100524/DC"),
   ("xmlns:di", "http://www.omg.org/spec/DD/20100524/DI"),
   ("id", "Definitions_" ++ uuidHex 0),
   ("targetNamespace", "http://www.omg.org/spec/BPMN/20100524/MODEL")]

/-- Model of `BPMNGenerator.generate_from_context` (document construction;
the trailing file write is not part of the embedding).  The returned node is
the `definitions` root, whose children are the diagram (appended during
initialization) and the process node. -/
def generateFromContext (c : GenContext) : XNode :=
  let pn := processIdName c
  let st1 := createElements (c.bpmnElements.getD []) ⟨[], [], [], 0⟩
  let st2 := createFlows (c.seqFlows.getD []) st1
  let procNode := XNode.mk "process" [("id", pn.1), ("name", pn.2)] st2.procKids ""
  let plane := XNode.mk "bpmndi:BPMNPlane"
    [("id", "BPMNPlane_" ++ pn.1), ("bpmnElement", pn.1)] st2.planeKids ""
  let diagram := XNode.mk "bpmndi:BPMNDiagram" [("id", "BPMNDiagram_1")] [plane] ""
  XNode.mk "definitions" definitionsAttrs [diagram, procNode] ""

/-! ## The pipeline orchestrator (`api/data_generation_pipeline.py`)

`DataGenerationPipeline.run` is modelled as a pure function over an oracle
supplying, for each stage, either the parsed JSON array returned by
`DataGenerator.call_llm` or an error standing for any exception raised inside
that stage's `try` block (transport failures, malformed replies, and the
crashes a non-array reply can cause downstream all land in this error case).
`time.time()` is modelled by an oracle clock sampled at an incrementing tick;
`_save_json` is modelled by appending `(filename, data)` to a log (the Python
function swallows its own I/O errors, so it never changes control flow).
Wall-clock strings from `datetime.now()` are modelled by a fixed stand-in. -/

structure BatchSizes where
  phases : Nat
  processes : Nat
  elements : Nat
  maxElementBatches : Nat
  flows : Nat
  resources : Nat
  pools : Nat
  lanesPerPool : Nat

/-- The default `batch_sizes` dict of `run`. -/
def defaultBatchSizes : BatchSizes := ⟨5, 1, 10, 3, 15, 5, 2, 3⟩

structure Oracle where
  phasesR : Except Unit (List Value)
  procDefsR : Except Unit (List Value)
  elementBatchR : Nat → Except Unit (List Value)
  poolsR : Except Unit (List Value)
  lanesR : Nat → Except Unit (List Value)
  flowsR : Except Unit (List Value)
  resourcesR : Except Unit (List Value)
  integrityR : Except Unit Value
  specsR : Except Unit Value
  clock : Nat → Int

/-- The orchestrator state: the accumulating context, the timing table, the
log of `_save_json` calls, and the clock tick. -/
structure PipeState where
  ctx : Record
  timings : Record
  saved : List (String × Value)
  tick : Nat

def bump (st : PipeState) : PipeState := ⟨st.ctx, st.timings, st.saved, st.tick + 1⟩

def save (st : PipeState) (name : String) (data : Value) : PipeState :=
  ⟨st.ctx, st.timings, st.saved ++ [(name, data)], st.tick⟩

def setCtx (st : PipeState) (k : String) (v : Value) : PipeState :=
  ⟨rset st.ctx k v, st.timings, st.saved, st.tick⟩

def ctxTruthy (st : PipeState) (k : String) : Bool :=
  match rget st.ctx k with
  | some v => truthy v
  | none => false

/-- The list stored at a context key (every key read this way is only ever
written with a `vList`). -/
def ctxList (st : PipeState) (k : String) : List Value :=
  match rget st.ctx k with
  | some (.vList l) => l.toList
  | _ => []

/-- Python `len(self.context.get(k, []))` for the summary counts. -/
def ctxLen (st : PipeState) (k : String) : Int :=
  match rget st.ctx k with
  | some (.vList l) => (l.toList.length : Int)
  | some _ => 0
  | none => 0

def stampTiming (o : Oracle) (name : String) (t0 : Int) (st : PipeState) : PipeState :=
  let t1 := o.clock st.tick
  ⟨st.ctx, rset st.timings name (.vInt (t1 - t0)), st.saved, st.tick + 1⟩

def vListOf (l : List Value) : Value := .vList (VList.ofList l)

/-- Model of `_generate_phases` (the boolean is false when the stage raised). -/
def stagePhases (o : Oracle) (st0 : PipeState) : PipeState × Bool :=
  let t0 := o.clock st0.tick
  let st := bump st0
  match o.phasesR with
  | .error _ => (st, false)
  | .ok raw =>
      let st1 := save st "raw_phases.json" (vListOf raw)
      let st2 :=
        if raw = [] then st1
        else setCtx st1 "process_phases" (vListOf (validate "process_phases" raw none))
      (stampTiming o "phases" t0 st2, true)

/-- Model of `_generate_process_definitions`. -/
def stageProcDefs (o : Oracle) (st0 : PipeState) : PipeState × Bool :=
  let t0 := o.clock st0.tick
  let st := bump st0
  match o.procDefsR with
  | .error _ => (st, false)
  | .ok raw =>
      let st1 := save st "raw_process_definitions.json" (vListOf raw)
      let st2 := setCtx st1 "process_definitions" (vListOf (validate "process_definitions" raw none))
      (stampTiming o "process_definitions" t0 st2, true)

/-- The batch loop of `_generate_bpmn_elements_recursive`; an error result
models an exception escaping the loop (state mutated so far is kept). -/
def elemLoop (o : Oracle) (bs maxB : Nat) : Nat → Nat → List Value → PipeState → PipeState × Except Unit (List Value)
  | 0, _, all, st => (st, .ok all)
  | fuel+1, i, all, st =>
      match o.elementBatchR i with
      | .error _ => (st, .error ())
      | .ok raw =>
          let st1 := save st ("raw_bpmn_elements_batch_" ++ natStr i ++ ".json") (vListOf raw)
          if raw = [] then (st1, .ok all)
          else
            let vctx : Record :=
              [("process_definitions", (rget st1.ctx "process_definitions").getD .vNull),
               ("existing_elements", (rget st1.ctx "bpmn_elements").getD (vListOf []))]
            let valid := validate "bpmn_elements" raw (some vctx)
            if valid = [] then (st1, .ok all)
            else
              let all2 := all ++ valid
              let st2 := setCtx (setCtx st1 "bpmn_elements" (vListOf all2)) "allElementRows" (vListOf all2)
              let st3 := save st2 "bpmn_elements.json" (vListOf all2)
              if all2.length ≥ bs * maxB ∨ valid.length < bs then (st3, .ok all2)
              else elemLoop o bs maxB fuel (i + 1) all2 st3

/-- Model of `_generate_bpmn_elements_recursive`.  The early return on
missing process definitions skips the timing store, like the source. -/
def stageElementsRec (o : Oracle) (bs maxB : Nat) (st0 : PipeState) : PipeState × Except Unit (List Value) :=
  let t0 := o.clock st0.tick
  let st := bump st0
  if ¬ctxTruthy st "process_definitions" then (st, .ok [])
  else
    let st1 := if rhas st.ctx "bpmn_elements" then st else setCtx st "bpmn_elements" (vListOf [])
    match elemLoop o bs maxB maxB 1 [] st1 with
    | (st2, .ok all) => (stampTiming o "bpmn_elements" t0 st2, .ok all)
    | (st2, .error e) => (st2, .error e)

/-- The per-pool lane loop of `_generate_pools_and_lanes`; an error models an
exception escaping the loop. -/
def lanesLoop (o : Oracle) : List Value → Nat → PipeState → PipeState × Bool
  | [], _, st => (st, true)
  | pool :: rest, i, st =>
      match o.lanesR i with
      | .error _ => (st, false)
      | .ok lanes =>
          let poolIdS := pyStr ((match pool with
            | .vDict d => rget d.toRecord "pool_id"
            | _ => none).getD .vNull)
          let st1 := save st ("raw_lanes_pool_" ++ poolIdS ++ ".json") (vListOf lanes)
          let st2 :=
            if lanes = [] then st1
            else
              let validLanes := validate "lanes" lanes (some (("pool", pool) :: st1.ctx))
              setCtx st1 "lanes" (vListOf (ctxList st1 "lanes" ++ validLanes))
          lanesLoop o rest (i + 1) st2

/-- Model of `_generate_pools_and_lanes` (a soft stage: its caller swallows
the exception that the boolean-false result stands for). -/
def stagePoolsLanes (o : Oracle) (st0 : PipeState) : PipeState :=
  let t0 := o.clock st0.tick
  let st := bump st0
  if ¬ctxTruthy st "bpmn_elements" then st
  else
    let st1 := if rhas st.ctx "pools" then st else setCtx st "pools" (vListOf [])
    let st2 := if rhas st1.ctx "lanes" then st1 else setCtx st1 "lanes" (vListOf [])
    match o.poolsR with
    | .error _ => st2
    | .ok pools =>
        let st3 := save st2 "raw_pools.json" (vListOf pools)
        if pools = [] then stampTiming o "pools_and_lanes" t0 st3
        else
          let validPools := validate "pools" pools (some st3.ctx)
          let st4 := setCtx st3 "pools" (vListOf (ctxList st3 "pools" ++ validPools))
          let st5 := save st4 "pools.json" ((rget st4.ctx "pools").getD .vNull)
          match lanesLoop o validPools 0 st5 with
          | (st6, false) => st6
          | (st6, true) =>
              let st7 := save st6 "lanes.json" ((rget st6.ctx "lanes").getD .vNull)
              stampTiming o "pools_and_lanes" t0 st7

/-- Model of `_generate_sequence_flows`. -/
def stageFlows (o : Oracle) (st0 : PipeState) : PipeState × Bool :=
  let t0 := o.clock st0.tick
  let st := bump st0
  if ¬ctxTruthy st "bpmn_elements" then (st, true)
  else
    match o.flowsR with
    | .error _ => (st, false)
    | .ok flows =>
        let st1 := save st "raw_sequence_flows.json" (vListOf flows)
        let valid := validate "sequence_flows" flows (some st1.ctx)
        let st2 := setCtx (setCtx st1 "sequence_flows" (vListOf valid)) "allFlowRows" (vListOf valid)
        (stampTiming o "sequence_flows" t0 st2, true)

/-- Model of `_generate_resources` (soft). -/
def stageResources (o : Oracle) (st0 : PipeState) : PipeState :=
  let t0 := o.clock st0.tick
  let st := bump st0
  if ¬ctxTruthy st "bpmn_elements" then st
  else
    match o.resourcesR with
    | .error _ => st
    | .ok res =>
        let st1 := save st "raw_resources.json" (vListOf res)
        let valid := validate "resources" res (some st1.ctx)
        let st2 := setCtx st1 "resources" (vListOf valid)
        stampTiming o "resources" t0 st2

/-- Model of `_validate_integrity` (soft). -/
def stageIntegrity (o : Oracle) (st0 : PipeState) : PipeState :=
  let t0 := o.clock st0.tick
  let st := bump st0
  if ¬(ctxTruthy st "bpmn_elements" && ctxTruthy st "sequence_flows") then st
  else
    match o.integrityR with
    | .error _ => st
    | .ok issues =>
        let st1 := save st "integrity_issues.json" issues
        let st2 := setCtx st1 "integrity_issues" issues
        stampTiming o "integrity_validation" t0 st2

/-- Model of `_add_product_specifications` (exceptions swallowed locally). -/
def addProductSpecs (o : Oracle) (desc : String) (st : PipeState) : PipeState :=
  if desc = "" then st
  else
    match o.specsR with
    | .error _ => st
    | .ok specs0 =>
        let specs := match specs0 with
          | .vList (.cons x _) => x
          | v => v
        match specs with
        | .vDict d =>
            if rhas d.toRecord "product_name" then
              save (setCtx st "product_specifications" specs) "product_specifications.json" specs
            else st
        | _ => st

/-- Pipeline flags: the state together with `success` and `data_generated`. -/
abbrev PipeFlags := PipeState × Bool × Bool

/-- Step 1: generate process phases (hard). -/
def step1 (o : Oracle) (st : PipeState) : PipeFlags :=
  match stagePhases o st with
  | (st1, true) => (st1, true, ctxTruthy st1 "process_phases")
  | (st1, false) => (st1, false, false)

/-- Step 2: generate process definitions (hard, gated). -/
def step2 (o : Oracle) (x : PipeFlags) : PipeFlags :=
  match x with
  | (st, success, dg) =>
      if success && dg then
        match stageProcDefs o st with
        | (st2, true) => (st2, success, ctxTruthy st2 "process_definitions")
        | (st2, false) => (st2, false, false)
      else x

/-- Step 3: generate BPMN elements recursively (hard, gated). -/
def step3 (o : Oracle) (bs : BatchSizes) (x : PipeFlags) : PipeFlags :=
  match x with
  | (st, success, dg) =>
      if success && dg then
        match stageElementsRec o bs.elements bs.maxElementBatches st with
        | (st2, .ok elems) => (st2, success, if elems = [] then false else dg)
        | (st2, .error _) => (st2, false, false)
      else x

/-- Step 4: pools and lanes (soft, gated on elements). -/
def step4 (o : Oracle) (x : PipeFlags) : PipeFlags :=
  match x with
  | (st, success, dg) =>
      if success && dg && ctxTruthy st "bpmn_elements" then
        (stagePoolsLanes o st, success, dg)
      else x

/-- Step 5: sequence flows (hard, gated on elements). -/
def step5 (o : Oracle) (x : PipeFlags) : PipeFlags :=
  match x with
  | (st, success, dg) =>
      if success && dg && ctxTruthy st "bpmn_elements" then
        match stageFlows o st with
        | (st2, true) => (st2, success, if ctxTruthy st2 "sequence_flows" then dg else false)
        | (st2, false) => (st2, false, false)
      else x

/-- Step 6: resources (soft, gated on elements and a positive request). -/
def step6 (o : Oracle) (bs : BatchSizes) (x : PipeFlags) : PipeFlags :=
  match x with
  | (st, success, dg) =>
      if success && dg && ctxTruthy st "bpmn_elements" && decide (0 < bs.resources) then
        (stageResources o st, success, dg)
      else x

/-- Step 7: integrity audit (soft, gated on elements and flows). -/
def step7 (o : Oracle) (x : PipeFlags) : PipeFlags :=
  match x with
  | (st, success, dg) =>
      if success && dg && ctxTruthy st "bpmn_elements" && ctxTruthy st "sequence_flows" then
        (stageIntegrity o st, success, dg)
      else x

/-- The `finally` block of `run`: persist the context, the timing report and
the summary, then return the context. -/
def finalize (o : Oracle) (desc : String) (t0 : Int) (x : PipeFlags) : PipeState × Record :=
  match x with
  | (st, success, dg) =>
      let st1 := save st "complete_context.json" (.vDict (VFields.ofRecord st.ctx))
      let t1 := o.clock st1.tick
      let st2 := bump st1
      let totalTime := t1 - t0
      let st3 : PipeState := ⟨st2.ctx, rset st2.timings "total" (.vInt totalTime), st2.saved, st2.tick⟩
      let st4 := save st3 "performance_metrics.json" (.vDict (VFields.ofRecord st3.timings))
      let st5 := addProductSpecs o desc st4
      let summary : Record :=
        [("timestamp", .vStr "<now>"),
         ("product_description", .vStr desc),
         ("success", .vBool (success && dg)),
         ("phases_count", .vInt (ctxLen st5 "process_phases")),
         ("processes_count", .vInt (ctxLen st5 "process_definitions")),
         ("elements_count", .vInt (ctxLen st5 "bpmn_elements")),
         ("flows_count", .vInt (ctxLen st5 "sequence_flows")),
         ("resources_count", .vInt (ctxLen st5 "resources")),
         ("pools_count", .vInt (ctxLen st5 "pools")),
         ("lanes_count", .vInt (ctxLen st5 "lanes")),
         ("total_runtime_seconds", .vInt totalTime)]
      let st6 := save st5 "generation_summary.json" (.vDict (VFields.ofRecord summary))
      (st6, st6.ctx)

/-- Model of `DataGenerationPipeline.run` minus the initial
product-description check: the stage cascade followed by the unconditional
`finally` block. -/
def runBody (o : Oracle) (bs : BatchSizes) (desc : String) : PipeState × Record :=
  let st0 : PipeState := ⟨[], [], [], 0⟩
  let t0 := o.clock st0.tick
  let stA := bump st0
  finalize o desc t0
    (step7 o (step6 o bs (step5 o (step4 o (step3 o bs (step2 o (step1 o stA)))))))

/-- Model of `DataGenerationPipeline.run`: a missing/empty product
description raises `ValueError` before any stage executes; otherwise the run
always reaches finalization and returns the context. -/
def run (o : Oracle) (bs : BatchSizes) (desc : String) : Except Unit (PipeState × Record) :=
  if desc = "" then .error () else .ok (runBody o bs desc)

/-! ## Basic lemmas: records, list helpers, string helpers -/

theorem VFields.toRecord_ofRecord (r : Record) : (VFields.ofRecord r).toRecord = r := by
  induction r with
  | nil => rfl
  | cons p tl ih => cases p; simp [VFields.ofRecord, VFields.toRecord, ih]

theorem VFields.ofRecord_toRecord : (fs : VFields) → VFields.ofRecord fs.toRecord = fs
  | .nil => rfl
  | .cons _ _ tl => by simp [VFields.toRecord, VFields.ofRecord, ofRecord_toRecord tl]

theorem rget_rset_self (r : Record) (k : String) (v : Value) : rget (rset r k v) k = some v := by
  induction r with
  | nil => simp [rset, rget]
  | cons p tl ih =>
      cases p with
      | mk k2 w =>
          by_cases h : k2 = k
          · simp [rset, rget, h]
          · simp [rset, rget, h, ih]

theorem rget_rset_ne (r : Record) (k k2 : String) (v : Value) (h : k ≠ k2) :
    rget (rset r k v) k2 = rget r k2 := by
  induction r with
  | nil => simp [rset, rget, h]
  | cons p tl ih =>
      cases p with
      | mk k3 w =>
          by_cases h3 : k3 = k
          · subst h3
            simp [rset, rget, h]
          · simp only [rset, if_neg h3, rget]
            by_cases h4 : k3 = k2
            · simp [h4]
            · simp [h4, ih]

theorem rset_eq_of_rget (r : Record) (k : String) (v : Value) (h : rget r k = some v) :
    rset r k v = r := by
  induction r with
  | nil => simp [rget] at h
  | cons p tl ih =>
      cases p with
      | mk k2 w =>
          by_cases h2 : k2 = k
          · subst h2
            simp [rget] at h
            simp [rset, h]
          · simp [rget, h2] at h
            simp [rset, h2, ih h]

theorem list_map_self {α : Type} (l : List α) (f : α → α) (h : ∀ x ∈ l, f x = x) :
    l.map f = l := by
  induction l with
  | nil => rfl
  | cons x tl ih =>
      simp only [List.map_cons, h x (by simp)]
      rw [ih (fun y hy => h y (by simp [hy]))]

theorem list_filterMap_self {α : Type} (l : List α) (f : α → Option α) (h : ∀ x ∈ l, f x = some x) :
    l.filterMap f = l := by
  induction l with
  | nil => rfl
  | cons x tl ih =>
      rw [List.filterMap_cons, h x (by simp)]
      rw [ih (fun y hy => h y (by simp [hy]))]

theorem list_filterMap_eq_map_filter {α β : Type} (l : List α) (f : α → Option β)
    (p : α → Bool) (g : α → β) (h : ∀ a, f a = if p a then some (g a) else none) :
    l.filterMap f = (l.filter p).map g := by
  induction l with
  | nil => rfl
  | cons x tl ih =>
      rw [List.filterMap_cons, h x, List.filter_cons]
      by_cases hp : p x
      · simp [hp, ih]
      · simp [hp, ih]

theorem natStrAux_ne_nil (fuel n : Nat) : natStrAux (fuel + 1) n ≠ [] := by
  unfold natStrAux
  by_cases h : n < 10
  · simp [h]
  · simp [h]

theorem natStr_ne_empty (n : Nat) : natStr n ≠ "" := by
  unfold natStr
  intro h
  have : natStrAux (n + 1) n = [] := by
    have := congrArg String.data h
    simpa using this
  exact natStrAux_ne_nil n n this

theorem string_append_data (a b : String) : (a ++ b).data = a.data ++ b.data := rfl

theorem append_ne_empty_left (a b : String) (h : a ≠ "") : a ++ b ≠ "" := by
  intro hc
  have := congrArg String.data hc
  rw [string_append_data] at this
  simp at this
  exact h (by cases a with | mk d => simp at this; simp [this.1])

theorem pyStr_ne_empty_of_not_str (v : Value) (h : ∀ s, v ≠ .vStr s) : pyStr v ≠ "" := by
  cases v with
  | vStr s => exact absurd rfl (h s)
  | vInt n =>
      show intStr n ≠ ""
      unfold intStr
      by_cases hn : n < 0
      · simp only [hn, if_true]
        exact append_ne_empty_left _ _ (by decide)
      · simp only [hn, if_false]
        exact natStr_ne_empty _
  | vFloat q =>
      show intStr q.num ++ "/" ++ natStr q.den ≠ ""
      exact append_ne_empty_left _ _ (append_ne_empty_left _ _ (by
        unfold intStr
        by_cases hn : q.num < 0
        · simp only [hn, if_true]; exact append_ne_empty_left _ _ (by decide)
        · simp only [hn, if_false]; exact natStr_ne_empty _))
  | vBool b =>
      cases b
      · exact (by decide : ("False" : String) ≠ "")
      · exact (by decide : ("True" : String) ≠ "")
  | vNull => exact (by decide : ("None" : String) ≠ "")
  | vList xs => exact (by decide : ("<list>" : String) ≠ "")
  | vDict fs => exact (by decide : ("<dict>" : String) ≠ "")

theorem strStartsWith_append (a b : String) : strStartsWith (a ++ b) a = true := by
  show (a.data.isPrefixOf ((a ++ b).data)) = true
  rw [string_append_data]
  rw [List.isPrefixOf_iff_prefix]
  exact List.prefix_append a.data b.data

theorem ne_empty_of_startsWith (s p : String) (hp : p ≠ "") (h : strStartsWith s p = true) :
    s ≠ "" := by
  intro hs
  subst hs
  rw [strStartsWith, List.isPrefixOf_iff_prefix] at h
  have : p.data = [] := List.prefix_nil.mp h
  exact hp (by cases p with | mk d => simp at this; simp [this])

theorem truthy_coerce_string (v : Value) (h : truthy v = true) :
    truthy (validateTypeSingle v "string" none) = true := by
  cases v with
  | vStr s =>
      show truthy (dtCheck none (.vStr s)) = true
      simpa [dtCheck] using h
  | vInt n =>
      show truthy (.vStr (pyStr (.vInt n))) = true
      simpa [truthy] using pyStr_ne_empty_of_not_str (.vInt n) (by intro s hc; cases hc)
  | vFloat q =>
      show truthy (.vStr (pyStr (.vFloat q))) = true
      simpa [truthy] using pyStr_ne_empty_of_not_str (.vFloat q) (by intro s hc; cases hc)
  | vBool b =>
      show truthy (.vStr (pyStr (.vBool b))) = true
      simpa [truthy] using pyStr_ne_empty_of_not_str (.vBool b) (by intro s hc; cases hc)
  | vNull => simp [truthy] at h
  | vList xs =>
      show truthy (.vStr (pyStr (.vList xs))) = true
      simpa [truthy] using pyStr_ne_empty_of_not_str (.vList xs) (by intro s hc; cases hc)
  | vDict fs =>
      show truthy (.vStr (pyStr (.vDict fs))) = true
      simpa [truthy] using pyStr_ne_empty_of_not_str (.vDict fs) (by intro s hc; cases hc)

/-! ## Claim C8 — date-time coercion -/

/-- C8 counterexample: the claim says a string "not lacking both" the
separator and the colon is left unchanged, but the source substitutes the
sentinel whenever the string lacks the separator OR the colon: the concrete
input "12:00" contains a colon (so it does not lack both) and is still
replaced by the sentinel timestamp. -/
theorem C8_counterexample :
    validateTypeSingle (.vStr "12:00") "string" (some "date-time") = .vStr dtSentinel ∧
    strHasChar "12:00" ':' = true ∧ ("12:00" : String) ≠ dtSentinel := by
  refine ⟨by decide, by decide, by decide⟩

/-- C8 (amended): during type coercion of a string value in a field whose
schema declares format date-time, `_validate_type` substitutes the fixed
sentinel timestamp exactly when the string lacks the 'T' separator or lacks
the colon; strings containing both are left unchanged.  Stated both for the
single declared type `"string"` and for the `["string","null"]` alternative
list that the repository schemas use for their date-time fields. -/
theorem C8_dateTimeCoercion (s : String) :
    validateTypeSingle (.vStr s) "string" (some "date-time") =
      (if strHasChar s 'T' ∧ strHasChar s ':' then .vStr s else .vStr dtSentinel) ∧
    validateTypeList (.vStr s) ["string", "null"] (some "date-time") =
      (if strHasChar s 'T' ∧ strHasChar s ':' then .vStr s else .vStr dtSentinel) := by
  have h1 : validateTypeSingle (.vStr s) "string" (some "date-time") =
      (if strHasChar s 'T' ∧ strHasChar s ':' then .vStr s else .vStr dtSentinel) := by
    show dtCheck (some "date-time") (.vStr s) = _
    by_cases h : strHasChar s 'T' ∧ strHasChar s ':'
    · simp [dtCheck, h]
    · simp [dtCheck, h]
  refine ⟨h1, ?_⟩
  show validateTypeSingle (.vStr s) "string" (some "date-time") = _
  exact h1

/-! ## Lemmas about the field-reconciliation loop -/

/-- The coercion applied to a present field. -/
def coerceField (fs : FieldSchema) (v : Value) : Value :=
  match fs.type? with
  | some ty => validateType v ty fs.format?
  | none => v

theorem applyField_eq (r : Record) (f : String) (fs : FieldSchema) :
    applyField r f fs = (match rget r f with
      | none => match fs.default? with
                | some d => (rset r f d, true)
                | none => (r, !fs.required)
      | some v => (rset r f (coerceField fs v), true)) := by
  unfold applyField coerceField
  cases hf : rget r f with
  | none => rfl
  | some v =>
      cases ht : fs.type? with
      | some ty => rfl
      | none => simp [rset_eq_of_rget r f v hf]

theorem applyField_rget_ne (r : Record) (f : String) (fs : FieldSchema) (k : String) (h : f ≠ k) :
    rget (applyField r f fs).1 k = rget r k := by
  rw [applyField_eq]
  cases rget r f with
  | none =>
      cases fs.default? with
      | some d => simp [rget_rset_ne _ _ _ _ h]
      | none => simp
  | some v => simp [rget_rset_ne _ _ _ _ h]

theorem applyField_ok (r : Record) (f : String) (fs : FieldSchema) :
    (applyField r f fs).2 = !(fs.required && fs.default?.isNone && !rhas r f) := by
  rw [applyField_eq]
  unfold rhas
  cases rget r f with
  | none =>
      cases fs.default? with
      | some d => simp
      | none => simp
  | some v => simp

theorem applySchema_rget_not_mem (schema : Schema) (r : Record) (k : String)
    (h : ∀ p ∈ schema, p.1 ≠ k) :
    rget (applySchema schema r).1 k = rget r k := by
  induction schema generalizing r with
  | nil => rfl
  | cons p tl ih =>
      cases p with
      | mk f fs =>
          show rget (applySchema tl (applyField r f fs).1).1 k = rget r k
          rw [ih _ (fun q hq => h q (List.mem_cons_of_mem _ hq))]
          exact applyField_rget_ne r f fs k (h (f, fs) (List.mem_cons_self _ _))

theorem applySchema_rget_mem (schema : Schema) (hnd : (schema.map Prod.fst).Nodup)
    (r : Record) (f : String) (fs : FieldSchema) (hmem : (f, fs) ∈ schema) :
    rget (applySchema schema r).1 f =
      (match rget r f with
       | some v => some (coerceField fs v)
       | none => fs.default?) := by
  induction schema generalizing r with
  | nil => cases hmem
  | cons p tl ih =>
      cases p with
      | mk g gs =>
          simp only [List.map_cons, List.nodup_cons] at hnd
          show rget (applySchema tl (applyField r g gs).1).1 f = _
          rcases List.mem_cons.mp hmem with heq | htl
          · have hg : f = g := congrArg Prod.fst heq
            have hgs : fs = gs := congrArg Prod.snd heq
            subst hg
            subst hgs
            rw [applySchema_rget_not_mem tl _ f
              (fun q hq => by
                intro hc
                exact hnd.1 (hc ▸ List.mem_map_of_mem Prod.fst hq))]
            rw [applyField_eq]
            cases hr : rget r f with
            | none =>
                cases hd : fs.default? with
                | some d => simp [rget_rset_self]
                | none => simpa using hr
            | some v => simp [rget_rset_self]
          · have hg : g ≠ f := by
              intro hc
              subst hc
              exact hnd.1 (List.mem_map_of_mem Prod.fst htl)
            rw [ih hnd.2 _ htl, applyField_rget_ne _ _ _ _ hg]

/-- The Python `is_valid` outcome: a record fails exactly when some schema
field is required, has no default, and is absent from the record. -/
def missingReq (schema : Schema) (r : Record) : Bool :=
  schema.any (fun p => p.2.required && p.2.default?.isNone && !rhas r p.1)

theorem missingReq_congr (tl : Schema) (r r2 : Record)
    (h : ∀ p ∈ tl, rget r2 p.1 = rget r p.1) : missingReq tl r2 = missingReq tl r := by
  unfold missingReq
  induction tl with
  | nil => rfl
  | cons p tl2 ih =>
      simp only [List.any_cons]
      rw [ih (fun q hq => h q (List.mem_cons_of_mem _ hq))]
      unfold rhas
      rw [h p (List.mem_cons_self _ _)]

theorem applySchema_ok (schema : Schema) (hnd : (schema.map Prod.fst).Nodup) (r : Record) :
    (applySchema schema r).2 = !missingReq schema r := by
  induction schema generalizing r with
  | nil => rfl
  | cons p tl ih =>
      cases p with
      | mk f fs =>
          simp only [List.map_cons, List.nodup_cons] at hnd
          show ((applyField r f fs).2 && (applySchema tl (applyField r f fs).1).2) = _
          rw [ih hnd.2, applyField_ok]
          have hc : missingReq tl (applyField r f fs).1 = missingReq tl r := by
            apply missingReq_congr
            intro q hq
            apply applyField_rget_ne
            intro hcne
            exact hnd.1 (hcne ▸ List.mem_map_of_mem Prod.fst hq)
          rw [hc]
          unfold missingReq
          simp [List.any_cons, Bool.not_or]

theorem lookupStr_mem {α : Type} (l : List (String × α)) (s : String) (a : α)
    (h : lookupStr l s = some a) : (s, a) ∈ l := by
  induction l with
  | nil => cases h
  | cons p tl ih =>
      cases p with
      | mk k v =>
          unfold lookupStr at h
          by_cases hk : k = s
          · rw [if_pos hk] at h
            cases h
            subst hk
            exact List.mem_cons_self _ _
          · rw [if_neg hk] at h
            exact List.mem_cons_of_mem _ (ih h)

theorem getSchema_nodup (level : String) (schema : Schema) (h : getSchema level = some schema) :
    (schema.map Prod.fst).Nodup := by
  unfold getSchema at h
  by_cases hp : level = "process_phases"
  · rw [if_pos hp] at h
    cases h
    decide
  · rw [if_neg hp] at h
    have hm := lookupStr_mem _ _ _ h
    have : ∀ p ∈ schemasCatalog, ((p.2.map Prod.fst).Nodup) := by decide
    exact this _ hm

/-! ## Lemmas about identifier assignment and validate membership -/

theorem append_ne_empty_right (a b : String) (h : b ≠ "") : a ++ b ≠ "" := by
  intro hc
  have := congrArg String.data hc
  rw [string_append_data] at this
  simp at this
  exact h (by cases b with | mk d => simp at this; simp [this.2])

theorem pad3_ne_empty (n : Nat) : pad3 n ≠ "" := by
  unfold pad3
  by_cases h1 : n < 10
  · simp only [h1, if_true]
    exact append_ne_empty_left _ _ (by decide)
  · simp only [h1, if_false]
    by_cases h2 : n < 100
    · simp only [h2, if_true]
      exact append_ne_empty_left _ _ (by decide)
    · simp only [h2, if_false]
      exact natStr_ne_empty n

theorem keepableId_some (o : Option Value) (s : String) (h : keepableId o = some s) :
    o = some (.vStr s) ∧ s ≠ "" := by
  cases o with
  | none => cases h
  | some v =>
      cases v with
      | vStr t =>
          have h2 : (if t = "" then (none : Option String) else some t) = some s := h
          by_cases ht : t = ""
          · rw [if_pos ht] at h2; cases h2
          · rw [if_neg ht] at h2
            cases h2
            exact ⟨rfl, ht⟩
      | vInt n => cases h
      | vFloat q => cases h
      | vBool b => cases h
      | vNull => cases h
      | vList xs => cases h
      | vDict fs => cases h

theorem fixIdWith_rget (pfx : String) (hp : pfx ≠ "") (i : Nat) (d : Record) (k : String) :
    ∃ s, rget (fixIdWith pfx i d k) k = some (.vStr s) ∧ s ≠ "" ∧ strStartsWith s pfx = true := by
  unfold fixIdWith
  cases hk : keepableId (rget d k) with
  | none =>
      refine ⟨pfx ++ pad3 (i + 1), rget_rset_self _ _ _, ?_, strStartsWith_append _ _⟩
      exact ne_empty_of_startsWith _ _ hp (strStartsWith_append _ _)
  | some s =>
      show ∃ s2, rget (if strStartsWith s pfx = true then d
          else rset d k (.vStr (pfx ++ lastN 3 s))) k = some (.vStr s2) ∧ s2 ≠ "" ∧
          strStartsWith s2 pfx = true
      by_cases hs : strStartsWith s pfx = true
      · rw [if_pos hs]
        obtain ⟨hget, hne⟩ := keepableId_some _ _ hk
        exact ⟨s, hget, hne, hs⟩
      · rw [if_neg hs]
        refine ⟨pfx ++ lastN 3 s, rget_rset_self _ _ _, ?_, strStartsWith_append _ _⟩
        exact ne_empty_of_startsWith _ _ hp (strStartsWith_append _ _)

/-- The common shape of `_ensure_flow_ids` / `_ensure_pool_ids`. -/
def fixIdMap (pfx k : String) (l : List Value) : List Value :=
  l.enum.map (fun p => match p.2 with
    | Value.vDict fs => Value.vDict (VFields.ofRecord (fixIdWith pfx p.1 fs.toRecord k))
    | _ => p.2)

theorem ensureFlowIds_eq_fixIdMap (l : List Value) : ensureFlowIds l = fixIdMap "FLOW_" "flow_id" l := rfl

theorem ensurePoolIds_eq_fixIdMap (l : List Value) : ensurePoolIds l = fixIdMap "POOL_" "pool_id" l := rfl

theorem fixIdMap_mem (pfx k : String) (hp : pfx ≠ "") (l : List Value) (it : Value)
    (h : it ∈ fixIdMap pfx k l) :
    (∀ fs, it ≠ .vDict fs) ∨
    ∃ fs, it = .vDict fs ∧ ∃ s, rget fs.toRecord k = some (.vStr s) ∧ s ≠ "" ∧
      strStartsWith s pfx = true := by
  unfold fixIdMap at h
  obtain ⟨p, hp2, he⟩ := List.mem_map.mp h
  cases hv : p.2 with
  | vDict fs1 =>
      right
      rw [hv] at he
      refine ⟨VFields.ofRecord (fixIdWith pfx p.1 fs1.toRecord k), he.symm, ?_⟩
      rw [VFields.toRecord_ofRecord]
      exact fixIdWith_rget pfx hp p.1 fs1.toRecord k
  | vStr s => left; intro fs hc; rw [hv] at he; rw [← he] at hc; cases hc
  | vInt n => left; intro fs hc; rw [hv] at he; rw [← he] at hc; cases hc
  | vFloat q => left; intro fs hc; rw [hv] at he; rw [← he] at hc; cases hc
  | vBool b => left; intro fs hc; rw [hv] at he; rw [← he] at hc; cases hc
  | vNull => left; intro fs hc; rw [hv] at he; rw [← he] at hc; cases hc
  | vList xs => left; intro fs hc; rw [hv] at he; rw [← he] at hc; cases hc

theorem rget_laneSet (d1 : Record) (poolId? : Option Value) :
    rget (match poolId? with
      | some pv => if truthy pv = true ∧ missingOrFalsey d1 "pool_id" = true
                   then rset d1 "pool_id" pv else d1
      | none => d1) "lane_id" = rget d1 "lane_id" := by
  cases poolId? with
  | none => rfl
  | some pv =>
      show rget (if truthy pv = true ∧ missingOrFalsey d1 "pool_id" = true
          then rset d1 "pool_id" pv else d1) "lane_id" = rget d1 "lane_id"
      by_cases hc : truthy pv = true ∧ missingOrFalsey d1 "pool_id" = true
      · rw [if_pos hc, rget_rset_ne _ _ _ _ (by decide)]
      · rw [if_neg hc]

theorem ensureLaneIds_mem (l : List Value) (poolId? : Option Value) (it : Value)
    (h : it ∈ ensureLaneIds l poolId?) :
    (∀ fs, it ≠ .vDict fs) ∨
    ∃ fs, it = .vDict fs ∧ ∃ s, rget fs.toRecord "lane_id" = some (.vStr s) ∧ s ≠ "" ∧
      strStartsWith s "LANE_" = true := by
  unfold ensureLaneIds at h
  obtain ⟨p, hp2, he⟩ := List.mem_map.mp h
  cases hv : p.2 with
  | vDict fs1 =>
      right
      rw [hv] at he
      simp only [] at he
      refine ⟨_, he.symm, ?_⟩
      rw [VFields.toRecord_ofRecord]
      obtain ⟨s, hs, hne, hsw⟩ := fixIdWith_rget "LANE_" (by decide) p.1 fs1.toRecord "lane_id"
      refine ⟨s, ?_, hne, hsw⟩
      rw [rget_laneSet]
      exact hs
  | vStr s => left; intro fs hc; rw [hv] at he; rw [← he] at hc; cases hc
  | vInt n => left; intro fs hc; rw [hv] at he; rw [← he] at hc; cases hc
  | vFloat q => left; intro fs hc; rw [hv] at he; rw [← he] at hc; cases hc
  | vBool b => left; intro fs hc; rw [hv] at he; rw [← he] at hc; cases hc
  | vNull => left; intro fs hc; rw [hv] at he; rw [← he] at hc; cases hc
  | vList xs => left; intro fs hc; rw [hv] at he; rw [← he] at hc; cases hc

theorem ensureElementIds_mem (l : List Value) (it : Value)
    (h : it ∈ ensureElementIds l) :
    (∀ fs, it ≠ .vDict fs) ∨
    ∃ fs, it = .vDict fs ∧ ∃ s, rget fs.toRecord "element_id" = some (.vStr s) ∧ s ≠ "" := by
  unfold ensureElementIds at h
  obtain ⟨p, hp2, he⟩ := List.mem_map.mp h
  cases hv : p.2 with
  | vDict fs1 =>
      right
      rw [hv] at he
      simp only [] at he
      cases hk : keepableId (rget fs1.toRecord "element_id") with
      | none =>
          rw [hk] at he
          refine ⟨_, he.symm, ?_⟩
          rw [VFields.toRecord_ofRecord]
          refine ⟨elementIdPfx fs1.toRecord ++ pad3 (p.1 + 1), rget_rset_self _ _ _, ?_⟩
          exact append_ne_empty_right _ _ (pad3_ne_empty _)
      | some s =>
          rw [hk] at he
          have he2 : Value.vDict fs1 = it := he
          obtain ⟨hget, hne⟩ := keepableId_some _ _ hk
          exact ⟨fs1, he2.symm, s, hget, hne⟩
  | vStr s => left; intro fs hc; rw [hv] at he; rw [← he] at hc; cases hc
  | vInt n => left; intro fs hc; rw [hv] at he; rw [← he] at hc; cases hc
  | vFloat q => left; intro fs hc; rw [hv] at he; rw [← he] at hc; cases hc
  | vBool b => left; intro fs hc; rw [hv] at he; rw [← he] at hc; cases hc
  | vNull => left; intro fs hc; rw [hv] at he; rw [← he] at hc; cases hc
  | vList xs => left; intro fs hc; rw [hv] at he; rw [← he] at hc; cases hc

theorem processItem_eq_some (level : String) (schema : Schema) (it : Value) (r : Record)
    (h : processItem level schema it = some r) :
    ∃ fs, it = .vDict fs ∧ (applySchema schema fs.toRecord).2 = true ∧
      r = fixProcessId level (applySchema schema fs.toRecord).1 := by
  cases it with
  | vDict fs =>
      refine ⟨fs, rfl, ?_, ?_⟩
      · unfold processItem at h
        by_cases hq : (applySchema schema fs.toRecord).2 = true
        · exact hq
        · simp [hq] at h
      · unfold processItem at h
        by_cases hq : (applySchema schema fs.toRecord).2 = true
        · simp [hq] at h
          exact h.symm
        · simp [hq] at h
  | vStr s => simp [processItem] at h
  | vInt n => simp [processItem] at h
  | vFloat q => simp [processItem] at h
  | vBool b => simp [processItem] at h
  | vNull => simp [processItem] at h
  | vList xs => simp [processItem] at h

theorem mem_validate (level : String) (schema : Schema) (data : List Value) (ctx : Option Record)
    (v : Value) (hsc : getSchema level = some schema) (hv : v ∈ validate level data ctx) :
    ∃ it ∈ ensureIds level (enrich level data ctx) ctx, ∃ r,
      processItem level schema it = some r ∧ v = .vDict (VFields.ofRecord r) := by
  unfold validate at hv
  by_cases hd : data = []
  · rw [if_pos hd] at hv; cases hv
  · rw [if_neg hd, hsc] at hv
    obtain ⟨it, hit, hg⟩ := List.mem_filterMap.mp hv
    cases hpi : processItem level schema it with
    | none => rw [hpi] at hg; cases hg
    | some r =>
        rw [hpi] at hg
        simp at hg
        exact ⟨it, hit, r, hpi, hg.symm⟩

theorem fixProcessId_ne (level : String) (r : Record) (h : level ≠ "process_definitions") :
    fixProcessId level r = r := by
  unfold fixProcessId
  rw [if_neg h]

theorem applySchema_keeps_str (schema : Schema) (hnd : (schema.map Prod.fst).Nodup)
    (r : Record) (k : String) (s : String)
    (hfact : ∀ p ∈ schema, p.1 = k → p.2.type? = some (.single "string") ∧ p.2.format? = none)
    (h : rget r k = some (.vStr s)) :
    rget (applySchema schema r).1 k = some (.vStr s) := by
  by_cases hmem : ∃ fs, (k, fs) ∈ schema
  · obtain ⟨fs, hfs⟩ := hmem
    have hf := hfact (k, fs) hfs rfl
    rw [applySchema_rget_mem schema hnd r k fs hfs, h]
    show some (coerceField fs (.vStr s)) = _
    unfold coerceField
    rw [hf.1]
    show some (validateTypeSingle (.vStr s) "string" fs.format?) = _
    rw [hf.2]
    show some (dtCheck none (.vStr s)) = _
    simp [dtCheck]
  · rw [applySchema_rget_not_mem]
    · exact h
    · intro p hp hc
      exact hmem ⟨p.2, by rw [← hc]; exact hp⟩

/-! ## Per-kind identifier invariants of `validate` (shared helpers) -/

theorem validate_flows_ids (data : List Value) (ctx : Option Record) (v : Value)
    (hv : v ∈ validate "sequence_flows" data ctx) :
    ∃ fs s, v = .vDict fs ∧ rget fs.toRecord "flow_id" = some (.vStr s) ∧ s ≠ "" ∧
      strStartsWith s "FLOW_" = true := by
  obtain ⟨it, hit, r, hpi, hveq⟩ := mem_validate "sequence_flows" sequenceFlowsSchema data ctx v rfl hv
  obtain ⟨fs0, hfs0, hok, hr⟩ := processItem_eq_some _ _ _ _ hpi
  have hit2 : it ∈ ensureFlowIds (enrich "sequence_flows" data ctx) := hit
  rw [ensureFlowIds_eq_fixIdMap] at hit2
  rcases fixIdMap_mem _ _ (by decide) _ _ hit2 with hnd | ⟨fs1, hfs1, s, hs, hne, hsw⟩
  · exact absurd hfs0 (hnd fs0)
  · rw [hfs0] at hfs1
    injection hfs1 with hfs
    rw [← hfs] at hs
    refine ⟨VFields.ofRecord r, s, hveq, ?_, hne, hsw⟩
    rw [VFields.toRecord_ofRecord, hr, fixProcessId_ne _ _ (by decide)]
    exact applySchema_keeps_str _ (getSchema_nodup "sequence_flows" _ rfl) _ _ _ (by decide) hs

theorem validate_pools_ids (data : List Value) (ctx : Option Record) (v : Value)
    (hv : v ∈ validate "pools" data ctx) :
    ∃ fs s, v = .vDict fs ∧ rget fs.toRecord "pool_id" = some (.vStr s) ∧ s ≠ "" ∧
      strStartsWith s "POOL_" = true := by
  obtain ⟨it, hit, r, hpi, hveq⟩ := mem_validate "pools" poolsSchema data ctx v rfl hv
  obtain ⟨fs0, hfs0, hok, hr⟩ := processItem_eq_some _ _ _ _ hpi
  have hit2 : it ∈ ensurePoolIds (enrich "pools" data ctx) := hit
  rw [ensurePoolIds_eq_fixIdMap] at hit2
  rcases fixIdMap_mem _ _ (by decide) _ _ hit2 with hnd | ⟨fs1, hfs1, s, hs, hne, hsw⟩
  · exact absurd hfs0 (hnd fs0)
  · rw [hfs0] at hfs1
    injection hfs1 with hfs
    rw [← hfs] at hs
    refine ⟨VFields.ofRecord r, s, hveq, ?_, hne, hsw⟩
    rw [VFields.toRecord_ofRecord, hr, fixProcessId_ne _ _ (by decide)]
    exact applySchema_keeps_str _ (getSchema_nodup "pools" _ rfl) _ _ _ (by decide) hs

theorem validate_lanes_ids (data : List Value) (ctx : Option Record) (v : Value)
    (hv : v ∈ validate "lanes" data ctx) :
    ∃ fs s, v = .vDict fs ∧ rget fs.toRecord "lane_id" = some (.vStr s) ∧ s ≠ "" ∧
      strStartsWith s "LANE_" = true := by
  obtain ⟨it, hit, r, hpi, hveq⟩ := mem_validate "lanes" lanesSchema data ctx v rfl hv
  obtain ⟨fs0, hfs0, hok, hr⟩ := processItem_eq_some _ _ _ _ hpi
  have hit2 : it ∈ ensureLaneIds (enrich "lanes" data ctx) (lanePoolIdParam ctx) := hit
  rcases ensureLaneIds_mem _ _ _ hit2 with hnd | ⟨fs1, hfs1, s, hs, hne, hsw⟩
  · exact absurd hfs0 (hnd fs0)
  · rw [hfs0] at hfs1
    injection hfs1 with hfs
    rw [← hfs] at hs
    refine ⟨VFields.ofRecord r, s, hveq, ?_, hne, hsw⟩
    rw [VFields.toRecord_ofRecord, hr, fixProcessId_ne _ _ (by decide)]
    exact applySchema_keeps_str _ (getSchema_nodup "lanes" _ rfl) _ _ _ (by decide) hs

theorem validate_elements_ids (data : List Value) (ctx : Option Record) (v : Value)
    (hv : v ∈ validate "bpmn_elements" data ctx) :
    ∃ fs s, v = .vDict fs ∧ rget fs.toRecord "element_id" = some (.vStr s) ∧ s ≠ "" := by
  obtain ⟨it, hit, r, hpi, hveq⟩ := mem_validate "bpmn_elements" bpmnElementsSchema data ctx v rfl hv
  obtain ⟨fs0, hfs0, hok, hr⟩ := processItem_eq_some _ _ _ _ hpi
  have hit2 : it ∈ ensureElementIds (enrich "bpmn_elements" data ctx) := hit
  rcases ensureElementIds_mem _ _ hit2 with hnd | ⟨fs1, hfs1, s, hs, hne⟩
  · exact absurd hfs0 (hnd fs0)
  · rw [hfs0] at hfs1
    injection hfs1 with hfs
    rw [← hfs] at hs
    refine ⟨VFields.ofRecord r, s, hveq, ?_, hne⟩
    rw [VFields.toRecord_ofRecord, hr, fixProcessId_ne _ _ (by decide)]
    exact applySchema_keeps_str _ (getSchema_nodup "bpmn_elements" _ rfl) _ _ _ (by decide) hs

theorem ensureElementIds_keep (l : List Value) (i : Nat) (fs : VFields) (s : String)
    (hl : l.get? i = some (.vDict fs))
    (hk : keepableId (rget fs.toRecord "element_id") = some s) :
    (ensureElementIds l).get? i = some (.vDict fs) := by
  unfold ensureElementIds
  rw [List.get?_map, List.get?_enum, hl]
  simp only [Option.map_some']
  show some (match keepableId (rget fs.toRecord "element_id") with
    | none => Value.vDict (VFields.ofRecord (rset fs.toRecord "element_id"
        (.vStr (elementIdPfx fs.toRecord ++ pad3 (i + 1)))))
    | some _ => Value.vDict fs) = some (Value.vDict fs)
  rw [hk]

theorem ensureElementIds_synth (l : List Value) (i : Nat) (fs : VFields)
    (hl : l.get? i = some (.vDict fs))
    (hk : keepableId (rget fs.toRecord "element_id") = none) :
    (ensureElementIds l).get? i = some (.vDict (VFields.ofRecord
      (rset fs.toRecord "element_id" (.vStr (elementIdPfx fs.toRecord ++ pad3 (i + 1)))))) := by
  unfold ensureElementIds
  rw [List.get?_map, List.get?_enum, hl]
  simp only [Option.map_some']
  show some (match keepableId (rget fs.toRecord "element_id") with
    | none => Value.vDict (VFields.ofRecord (rset fs.toRecord "element_id"
        (.vStr (elementIdPfx fs.toRecord ++ pad3 (i + 1)))))
    | some _ => Value.vDict fs) = some (Value.vDict (VFields.ofRecord
      (rset fs.toRecord "element_id" (.vStr (elementIdPfx fs.toRecord ++ pad3 (i + 1))))))
  rw [hk]

/-! ## Claim C1 — identifier invariant after validation -/

def c1task : Value := Value.vDict (VFields.ofRecord
  [("element_id", .vStr "X1"), ("element_name", .vStr "T"),
   ("element_type", .vStr "task"), ("process_id", .vStr "P1")])

/-- C1 counterexample: a batch of two task records, both with element id
"X1".  After `ValidationLayer.validate('bpmn_elements', ...)` both records
are retained and both still carry the id "X1": the id is kept unprefixed
(`_ensure_element_ids` has no rewrite branch, unlike the flow/pool/lane
variants) and the two ids are not unique within the batch. -/
theorem C1_counterexample :
    (validate "bpmn_elements" [c1task, c1task] none).map
        (fun v => match v with | .vDict fs => rget fs.toRecord "element_id" | _ => none) =
      [some (.vStr "X1"), some (.vStr "X1")] ∧
    strStartsWith "X1" "TASK_" = false := by
  exact ⟨by decide, by decide⟩

/-- C1 (amended): after `ValidationLayer.validate`, every flow/pool/lane
record carries a non-empty string id with the kind's canonical prefix
(missing, non-string or empty ids are synthesized as `<prefix><3-digit
1-based position>`, present unprefixed ids are rewritten to `<prefix>` plus
the last up-to-3 characters); every element record carries a non-empty
string id, but element ids are only synthesized (`<prefix><position>`) when
missing, non-string or empty — a present non-empty string id is kept
verbatim even without the canonical prefix, and uniqueness within the batch
is not enforced for any kind. -/
theorem C1_idRepair :
    (∀ data ctx v, v ∈ validate "sequence_flows" data ctx →
      ∃ fs s, v = .vDict fs ∧ rget fs.toRecord "flow_id" = some (.vStr s) ∧ s ≠ "" ∧
        strStartsWith s "FLOW_" = true) ∧
    (∀ data ctx v, v ∈ validate "pools" data ctx →
      ∃ fs s, v = .vDict fs ∧ rget fs.toRecord "pool_id" = some (.vStr s) ∧ s ≠ "" ∧
        strStartsWith s "POOL_" = true) ∧
    (∀ data ctx v, v ∈ validate "lanes" data ctx →
      ∃ fs s, v = .vDict fs ∧ rget fs.toRecord "lane_id" = some (.vStr s) ∧ s ≠ "" ∧
        strStartsWith s "LANE_" = true) ∧
    (∀ data ctx v, v ∈ validate "bpmn_elements" data ctx →
      ∃ fs s, v = .vDict fs ∧ rget fs.toRecord "element_id" = some (.vStr s) ∧ s ≠ "") ∧
    (∀ (l : List Value) i fs s, l.get? i = some (.vDict fs) →
      keepableId (rget fs.toRecord "element_id") = some s →
      (ensureElementIds l).get? i = some (.vDict fs)) ∧
    (∀ (l : List Value) i fs, l.get? i = some (.vDict fs) →
      keepableId (rget fs.toRecord "element_id") = none →
      (ensureElementIds l).get? i = some (.vDict (VFields.ofRecord
        (rset fs.toRecord "element_id" (.vStr (elementIdPfx fs.toRecord ++ pad3 (i + 1))))))) :=
  ⟨validate_flows_ids, validate_pools_ids, validate_lanes_ids, validate_elements_ids,
   ensureElementIds_keep, ensureElementIds_synth⟩

def c1flow : Value := Value.vDict (VFields.ofRecord
  [("flow_id", .vStr "X1"), ("source_ref", .vStr "A"),
   ("target_ref", .vStr "B"), ("process_id", .vStr "P1")])

def c1flowOut : Value := Value.vDict (VFields.ofRecord
  [("flow_id", .vStr "FLOW_X1"), ("source_ref", .vStr "A"),
   ("target_ref", .vStr "B"), ("process_id", .vStr "P1")])

/-- C1 witness: the amended invariant applied to a concrete flow batch whose
single record has the unprefixed id "X1". -/
theorem C1_idRepair_witness :
    ∃ fs s, c1flowOut = .vDict fs ∧ rget fs.toRecord "flow_id" = some (.vStr s) ∧ s ≠ "" ∧
      strStartsWith s "FLOW_" = true :=
  C1_idRepair.1 [c1flow] none c1flowOut (by decide)

/-! ## Claim C6 — per-record schema enforcement -/

theorem backfillFromDefs_nil (pv? : Option Value) : backfillFromDefs pv? [] = [] := by
  unfold backfillFromDefs
  split
  · split
    · rfl
    · rfl
  · rfl

theorem enrich_nil (level : String) (ctx : Option Record) : enrich level [] ctx = [] := by
  unfold enrich
  split
  · rfl
  · split
    · rfl
    · split
      · exact backfillFromDefs_nil _
      · split
        · exact backfillFromDefs_nil _
        · split
          · exact backfillFromDefs_nil _
          · split
            · rfl
            · rfl

theorem ensureIds_nil (level : String) (ctx : Option Record) : ensureIds level [] ctx = [] := by
  unfold ensureIds
  by_cases h1 : level = "sequence_flows"
  · rw [if_pos h1]; rfl
  · rw [if_neg h1]
    by_cases h2 : level = "bpmn_elements"
    · rw [if_pos h2]; rfl
    · rw [if_neg h2]
      by_cases h3 : level = "pools"
      · rw [if_pos h3]; rfl
      · rw [if_neg h3]
        by_cases h4 : level = "lanes"
        · rw [if_pos h4]; rfl
        · rw [if_neg h4]

/-- Whether the per-record loop keeps a batch item: it must be a dict and no
required-without-default field may be absent. -/
def goodItem (schema : Schema) (it : Value) : Bool :=
  match it with
  | .vDict fs => !missingReq schema fs.toRecord
  | _ => false

/-- The per-record normalization applied to a kept item: defaults injected,
present fields coerced, the `process_definitions` id fix applied. -/
def normItem (level : String) (schema : Schema) (it : Value) : Value :=
  match it with
  | .vDict fs => .vDict (VFields.ofRecord (fixProcessId level (applySchema schema fs.toRecord).1))
  | _ => it

theorem processItem_char (level : String) (schema : Schema) (it : Value)
    (hnd : (schema.map Prod.fst).Nodup) :
    (processItem level schema it).map (fun r => Value.vDict (VFields.ofRecord r)) =
      (if goodItem schema it = true then some (normItem level schema it) else none) := by
  cases it with
  | vDict fs =>
      show (if (applySchema schema fs.toRecord).2 = true
        then some (fixProcessId level (applySchema schema fs.toRecord).1) else none).map _ = _
      rw [applySchema_ok _ hnd]
      show _ = (if (!missingReq schema fs.toRecord) = true then some (normItem level schema (.vDict fs)) else none)
      by_cases hm : missingReq schema fs.toRecord = true
      · rw [hm]
        simp
      · rw [(Bool.not_eq_true _).mp hm]
        simp [normItem]
  | vStr s => rfl
  | vInt n => rfl
  | vFloat q => rfl
  | vBool b => rfl
  | vNull => rfl
  | vList xs => rfl

/-- C6 counterexample: a flow record missing the required, default-free
`flow_id` field is not excluded — `_ensure_flow_ids` synthesizes the id
before the requirement check, so the record is retained. -/
theorem C6_counterexample :
    rget [("source_ref", Value.vStr "A"), ("target_ref", .vStr "B"), ("process_id", .vStr "P1")]
        "flow_id" = none ∧
    lookupStr sequenceFlowsSchema "flow_id" = some (fReq "string") ∧
    (fReq "string").required = true ∧ (fReq "string").default? = none ∧
    (validate "sequence_flows"
      [Value.vDict (VFields.ofRecord
        [("source_ref", .vStr "A"), ("target_ref", .vStr "B"), ("process_id", .vStr "P1")])]
      none).length = 1 := by
  refine ⟨by decide, by decide, by decide, by decide, by decide⟩

/-- C6 (amended): with a schema present, `validate` is an order-preserving
per-record filter-and-normalize over the context-back-filled, id-repaired
batch: a record still missing a required no-default field after back-fill and
id synthesis is excluded, every other record is kept (normalized) in input
order, and non-dict items are dropped; no batch-wide failure exists. -/
theorem C6_perRecord (level : String) (schema : Schema) (data : List Value) (ctx : Option Record)
    (hsc : getSchema level = some schema) :
    validate level data ctx =
      ((ensureIds level (enrich level data ctx) ctx).filter (goodItem schema)).map
        (normItem level schema) ∧
    (∀ fs, goodItem schema (.vDict fs) =
      !schema.any (fun p => p.2.required && p.2.default?.isNone && !rhas fs.toRecord p.1)) ∧
    (∀ it, (∀ fs, it ≠ .vDict fs) → goodItem schema it = false) := by
  refine ⟨?_, fun fs => rfl, ?_⟩
  · unfold validate
    by_cases hd : data = []
    · rw [if_pos hd, hd, enrich_nil, ensureIds_nil]
      rfl
    · rw [if_neg hd, hsc]
      exact list_filterMap_eq_map_filter _ _ _ _
        (fun it => processItem_char level schema it (getSchema_nodup level schema hsc))
  · intro it hne
    cases it with
    | vDict fs => exact absurd rfl (hne fs)
    | vStr s => rfl
    | vInt n => rfl
    | vFloat q => rfl
    | vBool b => rfl
    | vNull => rfl
    | vList xs => rfl

/-- C6 witness: the amended per-record contract instantiated on a concrete
flow batch (one valid record, one record missing `source_ref`, one non-dict
item). -/
theorem C6_perRecord_witness :
    validate "sequence_flows"
        [Value.vDict (VFields.ofRecord
          [("flow_id", .vStr "FLOW_001"), ("source_ref", .vStr "A"),
           ("target_ref", .vStr "B"), ("process_id", .vStr "P1")]),
         Value.vDict (VFields.ofRecord
          [("flow_id", .vStr "FLOW_002"), ("target_ref", .vStr "B"),
           ("process_id", .vStr "P1")]),
         Value.vInt 7] none =
      ((ensureIds "sequence_flows"
          (enrich "sequence_flows"
            [Value.vDict (VFields.ofRecord
              [("flow_id", .vStr "FLOW_001"), ("source_ref", .vStr "A"),
               ("target_ref", .vStr "B"), ("process_id", .vStr "P1")]),
             Value.vDict (VFields.ofRecord
              [("flow_id", .vStr "FLOW_002"), ("target_ref", .vStr "B"),
               ("process_id", .vStr "P1")]),
             Value.vInt 7] none) none).filter (goodItem sequenceFlowsSchema)).map
        (normItem "sequence_flows" sequenceFlowsSchema) :=
  (C6_perRecord "sequence_flows" sequenceFlowsSchema _ none rfl).1

/-! ## Observations on the generated document -/

mutual
/-- Number of nodes with the given tag in a subtree. -/
def countTagN (t : String) : XNode → Nat
  | .mk tag _ kids _ => (if tag = t then 1 else 0) + countTagL t kids
/-- Number of nodes with the given tag in a forest. -/
def countTagL (t : String) : List XNode → Nat
  | [] => 0
  | n :: rest => countTagN t n + countTagL t rest
end

def isFlowNode (n : XNode) : Bool := n.tag = "sequenceFlow"

def isShapeNode (n : XNode) : Bool := n.tag = "bpmndi:BPMNShape"

def isEdgeNode (n : XNode) : Bool := n.tag = "bpmndi:BPMNEdge"

def bpmnRef (n : XNode) : Option String := attrOf n "bpmnElement"

def idAttr (n : XNode) : Option String := attrOf n "id"

/-- A record produces a node exactly when its raw `element_type` is one of
the three dispatched strings. -/
def elemValid (d : Record) : Bool :=
  let ty := (rget d "element_type").getD (.vStr "")
  ty = .vStr "event" || ty = .vStr "task" || ty = .vStr "gateway"

theorem countTagL_append (t : String) (a b : List XNode) :
    countTagL t (a ++ b) = countTagL t a + countTagL t b := by
  induction a with
  | nil => simp [countTagL]
  | cons n rest ih => simp [countTagL, ih]; omega

theorem attrOf_nameAttrs_id (eid : String) (nm : Value) (tag : String) (kids : List XNode)
    (txt : String) : idAttr (XNode.mk tag (nameAttrs eid nm) kids txt) = some eid := by
  unfold idAttr attrOf nameAttrs XNode.attrs
  by_cases h : truthy nm = true
  · rw [if_pos h]; rfl
  · rw [if_neg h]; rfl

theorem elemNode_isSome (d : Record) (a b : String) :
    (elemNode d a).isSome = (elemNode d b).isSome := by
  unfold elemNode
  by_cases h1 : (rget d "element_type").getD (.vStr "") = .vStr "event"
  · rw [if_pos h1, if_pos h1]
    by_cases h2 : (rget d "element_subtype").getD (.vStr "") = .vStr "startEvent"
    · rw [if_pos h2, if_pos h2]
      rfl
    · rw [if_neg h2, if_neg h2]
      by_cases h3 : (rget d "element_subtype").getD (.vStr "") = .vStr "endEvent"
      · rw [if_pos h3, if_pos h3]
        rfl
      · rw [if_neg h3, if_neg h3]
        rfl
  · rw [if_neg h1, if_neg h1]
    by_cases h2 : (rget d "element_type").getD (.vStr "") = .vStr "task"
    · rw [if_pos h2, if_pos h2]
      rfl
    · rw [if_neg h2, if_neg h2]
      by_cases h3 : (rget d "element_type").getD (.vStr "") = .vStr "gateway"
      · rw [if_pos h3, if_pos h3]
        rfl
      · rw [if_neg h3, if_neg h3]

theorem elemNode_isSome_iff (d : Record) (eid : String) :
    (elemNode d eid).isSome = elemValid d := by
  unfold elemNode elemValid
  by_cases h1 : (rget d "element_type").getD (.vStr "") = .vStr "event"
  · rw [if_pos h1]
    simp only [h1]
    by_cases h2 : (rget d "element_subtype").getD (.vStr "") = .vStr "startEvent"
    · rw [if_pos h2]; simp
    · rw [if_neg h2]
      by_cases h3 : (rget d "element_subtype").getD (.vStr "") = .vStr "endEvent"
      · rw [if_pos h3]; simp
      · rw [if_neg h3]; simp
  · rw [if_neg h1]
    by_cases h2 : (rget d "element_type").getD (.vStr "") = .vStr "task"
    · rw [if_pos h2]; simp [h2]
    · rw [if_neg h2]
      by_cases h3 : (rget d "element_type").getD (.vStr "") = .vStr "gateway"
      · rw [if_pos h3]; simp [h1, h2, h3]
      · rw [if_neg h3]; simp [h1, h2, h3]

theorem countTagN_leafish (t tag : String) (attrs : List (String × String)) (txt : String)
    (h : tag ≠ t) : countTagN t (XNode.mk tag attrs [] txt) = 0 := by
  simp [countTagN, countTagL, h]

theorem startEventNode_char (eid : String) (nm : Value) :
    idAttr (startEventNode eid nm) = some eid ∧ isFlowNode (startEventNode eid nm) = false ∧
    countTagN "process" (startEventNode eid nm) = 0 :=
  ⟨attrOf_nameAttrs_id _ _ _ _ _, rfl, countTagN_leafish _ _ _ _ (by decide)⟩

theorem endEventNode_char (eid : String) (nm : Value) :
    idAttr (endEventNode eid nm) = some eid ∧ isFlowNode (endEventNode eid nm) = false ∧
    countTagN "process" (endEventNode eid nm) = 0 :=
  ⟨attrOf_nameAttrs_id _ _ _ _ _, rfl, countTagN_leafish _ _ _ _ (by decide)⟩

theorem intermediateEventNode_char (eid : String) (nm sub : Value) :
    idAttr (intermediateEventNode eid nm sub) = some eid ∧
    isFlowNode (intermediateEventNode eid nm sub) = false ∧
    countTagN "process" (intermediateEventNode eid nm sub) = 0 := by
  refine ⟨?_, ?_, ?_⟩
  · simp only [intermediateEventNode]
    exact attrOf_nameAttrs_id _ _ _ _ _
  · simp only [intermediateEventNode, isFlowNode, XNode.tag]
    split_ifs <;> decide
  · simp only [intermediateEventNode]
    split_ifs <;> simp [countTagN, countTagL]

theorem taskNode_char (eid : String) (nm sub : Value) :
    idAttr (taskNode eid nm sub) = some eid ∧ isFlowNode (taskNode eid nm sub) = false ∧
    countTagN "process" (taskNode eid nm sub) = 0 := by
  refine ⟨?_, ?_, ?_⟩
  · simp only [taskNode]
    exact attrOf_nameAttrs_id _ _ _ _ _
  · simp only [taskNode, isFlowNode, XNode.tag]
    split_ifs <;> decide
  · simp only [taskNode]
    split_ifs <;> simp [countTagN, countTagL]

theorem gatewayNode_char (eid : String) (nm sub : Value) :
    idAttr (gatewayNode eid nm sub) = some eid ∧ isFlowNode (gatewayNode eid nm sub) = false ∧
    countTagN "process" (gatewayNode eid nm sub) = 0 := by
  refine ⟨?_, ?_, ?_⟩
  · simp only [gatewayNode]
    exact attrOf_nameAttrs_id _ _ _ _ _
  · simp only [gatewayNode, isFlowNode, XNode.tag]
    split_ifs <;> decide
  · simp only [gatewayNode]
    split_ifs <;> simp [countTagN, countTagL]

theorem elemNode_char (d : Record) (eid : String) (node : XNode)
    (h : elemNode d eid = some node) :
    idAttr node = some eid ∧ isFlowNode node = false ∧ countTagN "process" node = 0 := by
  unfold elemNode at h
  by_cases h1 : (rget d "element_type").getD (.vStr "") = .vStr "event"
  · rw [if_pos h1] at h
    by_cases h2 : (rget d "element_subtype").getD (.vStr "") = .vStr "startEvent"
    · rw [if_pos h2] at h
      cases h
      exact startEventNode_char _ _
    · rw [if_neg h2] at h
      by_cases h3 : (rget d "element_subtype").getD (.vStr "") = .vStr "endEvent"
      · rw [if_pos h3] at h
        cases h
        exact endEventNode_char _ _
      · rw [if_neg h3] at h
        cases h
        exact intermediateEventNode_char _ _ _
  · rw [if_neg h1] at h
    by_cases h2 : (rget d "element_type").getD (.vStr "") = .vStr "task"
    · rw [if_pos h2] at h
      cases h
      exact taskNode_char _ _ _
    · rw [if_neg h2] at h
      by_cases h3 : (rget d "element_type").getD (.vStr "") = .vStr "gateway"
      · rw [if_pos h3] at h
        cases h
        exact gatewayNode_char _ _ _
      · rw [if_neg h3] at h
        cases h

theorem shapeNode_char (eid x y w h : String) :
    bpmnRef (shapeNode eid x y w h) = some eid ∧ isShapeNode (shapeNode eid x y w h) = true ∧
    countTagN "process" (shapeNode eid x y w h) = 0 := by
  refine ⟨rfl, rfl, ?_⟩
  simp [shapeNode, countTagN, countTagL]

theorem edgeNode_char (fid : String) :
    bpmnRef (edgeNode fid) = some fid ∧ isEdgeNode (edgeNode fid) = true ∧
    countTagN "process" (edgeNode fid) = 0 := by
  refine ⟨rfl, rfl, ?_⟩
  simp [edgeNode, countTagN, countTagL]

theorem flowNodeOf_char (fid src tgt : String) (cond? : Option Value) :
    idAttr (flowNodeOf fid src tgt cond?) = some fid ∧
    isFlowNode (flowNodeOf fid src tgt cond?) = true ∧
    countTagN "process" (flowNodeOf fid src tgt cond?) = 0 := by
  unfold flowNodeOf
  refine ⟨rfl, rfl, ?_⟩
  cases cond? with
  | none => simp [countTagN, countTagL]
  | some cv =>
      by_cases h : truthy cv = true <;> simp [countTagN, countTagL, h]

theorem createElementsStep_invalid (st : GenState) (d : Record) (hv : elemValid d = false) :
    (createElementsStep st d).procKids = st.procKids ∧
    (createElementsStep st d).planeKids = st.planeKids ∧
    (createElementsStep st d).elems = st.elems := by
  have hn : elemNode d (pyStr ((rget d "element_id").getD
      (.vStr ("Element_" ++ uuidHex st.fresh)))) = none := by
    cases he : elemNode d (pyStr ((rget d "element_id").getD
        (.vStr ("Element_" ++ uuidHex st.fresh)))) with
    | none => rfl
    | some n =>
        have hiff := elemNode_isSome_iff d (pyStr ((rget d "element_id").getD
          (.vStr ("Element_" ++ uuidHex st.fresh))))
        rw [he, hv] at hiff
        cases hiff
  simp only [createElementsStep]
  rw [hn]
  exact ⟨rfl, rfl, rfl⟩

theorem createElementsStep_valid (st : GenState) (d : Record) (hv : elemValid d = true) :
    ∃ node shape, (createElementsStep st d).procKids = st.procKids ++ [node] ∧
      (createElementsStep st d).planeKids = st.planeKids ++ [shape] ∧
      isFlowNode node = false ∧ countTagN "process" node = 0 ∧
      isShapeNode shape = true ∧ countTagN "process" shape = 0 ∧
      bpmnRef shape = idAttr node := by
  cases he : elemNode d (pyStr ((rget d "element_id").getD
      (.vStr ("Element_" ++ uuidHex st.fresh)))) with
  | none =>
      have hiff := elemNode_isSome_iff d (pyStr ((rget d "element_id").getD
        (.vStr ("Element_" ++ uuidHex st.fresh))))
      rw [he, hv] at hiff
      cases hiff
  | some node =>
      obtain ⟨hid, hfl, hcnt⟩ := elemNode_char _ _ _ he
      refine ⟨node, shapeNode
          (pyStr ((rget d "element_id").getD (.vStr ("Element_" ++ uuidHex st.fresh))))
          (attrOfOpt (rget d "position_x")
            (((dSet st.elems ((rget d "element_id").getD
              (.vStr ("Element_" ++ uuidHex st.fresh))) node).length * 150) % 800))
          (attrOfOpt (rget d "position_y")
            (100 + (((dSet st.elems ((rget d "element_id").getD
              (.vStr ("Element_" ++ uuidHex st.fresh))) node).length * 150) / 800) * 150))
          (attrOfOpt (rget d "width") 100)
          (attrOfOpt (rget d "height") 80), ?_, ?_, hfl, hcnt, ?_, ?_, ?_⟩
      · show (createElementsStep st d).procKids = st.procKids ++ [node]
        simp only [createElementsStep]
        rw [he]
      · simp only [createElementsStep]
        rw [he]
      · exact (shapeNode_char _ _ _ _ _).2.1
      · exact (shapeNode_char _ _ _ _ _).2.2
      · rw [(shapeNode_char _ _ _ _ _).1, hid]

theorem createElements_invariant (es : List Record) (st : GenState) :
    ∃ ns ss, (createElements es st).procKids = st.procKids ++ ns ∧
      (createElements es st).planeKids = st.planeKids ++ ss ∧
      ns.length = (es.filter elemValid).length ∧
      ss.map bpmnRef = ns.map idAttr ∧
      (∀ n ∈ ns, isFlowNode n = false ∧ countTagN "process" n = 0) ∧
      (∀ n ∈ ss, isShapeNode n = true ∧ countTagN "process" n = 0) := by
  induction es generalizing st with
  | nil =>
      refine ⟨[], [], by simp [createElements], by simp [createElements], rfl, rfl, ?_, ?_⟩
      · intro n hn; cases hn
      · intro n hn; cases hn
  | cons d es ih =>
      have hstep : createElements (d :: es) st = createElements es (createElementsStep st d) := rfl
      by_cases hv : elemValid d = true
      · obtain ⟨node, shape, hpk, hlk, hnf, hnc, hss, hsc, href⟩ := createElementsStep_valid st d hv
        obtain ⟨ns, ss, hp2, hl2, hlen, hmap, hns, hsss⟩ := ih (createElementsStep st d)
        refine ⟨node :: ns, shape :: ss, ?_, ?_, ?_, ?_, ?_, ?_⟩
        · rw [hstep, hp2, hpk]
          simp
        · rw [hstep, hl2, hlk]
          simp
        · simp [List.filter, hv, hlen]
        · simp [hmap, href]
        · intro n hn
          rcases List.mem_cons.mp hn with h | h
          · subst h; exact ⟨hnf, hnc⟩
          · exact hns n h
        · intro n hn
          rcases List.mem_cons.mp hn with h | h
          · subst h; exact ⟨hss, hsc⟩
          · exact hsss n h
      · have hv2 : elemValid d = false := by
          cases hvv : elemValid d
          · rfl
          · exact absurd hvv hv
        obtain ⟨hpk, hlk, hel⟩ := createElementsStep_invalid st d hv2
        obtain ⟨ns, ss, hp2, hl2, hlen, hmap, hns, hsss⟩ := ih (createElementsStep st d)
        refine ⟨ns, ss, ?_, ?_, ?_, hmap, hns, hsss⟩
        · rw [hstep, hp2, hpk]
        · rw [hstep, hl2, hlk]
        · simp [List.filter, hv2, hlen]

theorem createFlowsStep_cond (st : GenState) (d : Record) :
    createFlowsStep st d =
      (if resolvedFlow st.elems d = true then
        ⟨st.procKids ++ [flowNodeOf
            (pyStr ((rget d "flow_id").getD (.vStr ("Flow_" ++ uuidHex st.fresh))))
            (pyStr ((rget d "source_ref").getD (.vStr "")))
            (pyStr ((rget d "target_ref").getD (.vStr "")))
            (rget d "condition_expr")],
         st.planeKids ++ [edgeNode
            (pyStr ((rget d "flow_id").getD (.vStr ("Flow_" ++ uuidHex st.fresh))))],
         st.elems,
         if rhas d "flow_id" = true then st.fresh else st.fresh + 1⟩
       else ⟨st.procKids, st.planeKids, st.elems,
         if rhas d "flow_id" = true then st.fresh else st.fresh + 1⟩) := by
  show createFlowsStep st d = _
  unfold createFlowsStep resolvedFlow
  rfl

theorem createFlows_invariant (fl : List Record) (st : GenState) :
    ∃ fns es, (createFlows fl st).procKids = st.procKids ++ fns ∧
      (createFlows fl st).planeKids = st.planeKids ++ es ∧
      (createFlows fl st).elems = st.elems ∧
      fns.length = (fl.filter (fun d => resolvedFlow st.elems d)).length ∧
      es.map bpmnRef = fns.map idAttr ∧
      (∀ n ∈ fns, isFlowNode n = true ∧ countTagN "process" n = 0) ∧
      (∀ n ∈ es, isEdgeNode n = true ∧ countTagN "process" n = 0) := by
  induction fl generalizing st with
  | nil =>
      refine ⟨[], [], by simp [createFlows], by simp [createFlows], rfl, rfl, rfl, ?_, ?_⟩
      · intro n hn; cases hn
      · intro n hn; cases hn
  | cons d fl ih =>
      have hstep : createFlows (d :: fl) st = createFlows fl (createFlowsStep st d) := rfl
      obtain ⟨fns, es, hp2, hl2, hel2, hlen, hmap, hfns, hes⟩ := ih (createFlowsStep st d)
      by_cases hr : resolvedFlow st.elems d = true
      · have hs := createFlowsStep_cond st d
        rw [if_pos hr] at hs
        have hpk : (createFlowsStep st d).procKids = st.procKids ++ [flowNodeOf
            (pyStr ((rget d "flow_id").getD (.vStr ("Flow_" ++ uuidHex st.fresh))))
            (pyStr ((rget d "source_ref").getD (.vStr "")))
            (pyStr ((rget d "target_ref").getD (.vStr "")))
            (rget d "condition_expr")] := by rw [hs]
        have hlk : (createFlowsStep st d).planeKids = st.planeKids ++ [edgeNode
            (pyStr ((rget d "flow_id").getD (.vStr ("Flow_" ++ uuidHex st.fresh))))] := by rw [hs]
        have helm : (createFlowsStep st d).elems = st.elems := by rw [hs]
        obtain ⟨hfid, hfl, hfc⟩ := flowNodeOf_char
          (pyStr ((rget d "flow_id").getD (.vStr ("Flow_" ++ uuidHex st.fresh))))
          (pyStr ((rget d "source_ref").getD (.vStr "")))
          (pyStr ((rget d "target_ref").getD (.vStr "")))
          (rget d "condition_expr")
        obtain ⟨heid, hee, hec⟩ := edgeNode_char
          (pyStr ((rget d "flow_id").getD (.vStr ("Flow_" ++ uuidHex st.fresh))))
        rw [helm] at hel2 hlen
        refine ⟨flowNodeOf
            (pyStr ((rget d "flow_id").getD (.vStr ("Flow_" ++ uuidHex st.fresh))))
            (pyStr ((rget d "source_ref").getD (.vStr "")))
            (pyStr ((rget d "target_ref").getD (.vStr "")))
            (rget d "condition_expr") :: fns,
          edgeNode (pyStr ((rget d "flow_id").getD (.vStr ("Flow_" ++ uuidHex st.fresh)))) :: es,
          ?_, ?_, hel2, ?_, ?_, ?_, ?_⟩
        · rw [hstep, hp2, hpk]
          simp
        · rw [hstep, hl2, hlk]
          simp
        · simp [List.filter, hr, hlen]
        · simp [hmap, heid, hfid]
        · intro n hn
          rcases List.mem_cons.mp hn with h | h
          · subst h; exact ⟨hfl, hfc⟩
          · exact hfns n h
        · intro n hn
          rcases List.mem_cons.mp hn with h | h
          · subst h; exact ⟨hee, hec⟩
          · exact hes n h
      · have hr2 : resolvedFlow st.elems d = false := by
          cases hrr : resolvedFlow st.elems d
          · rfl
          · exact absurd hrr hr
        have hs := createFlowsStep_cond st d
        rw [hr2] at hs
        simp only [Bool.false_eq_true, if_false] at hs
        have hpk : (createFlowsStep st d).procKids = st.procKids := by rw [hs]
        have hlk : (createFlowsStep st d).planeKids = st.planeKids := by rw [hs]
        have helm : (createFlowsStep st d).elems = st.elems := by rw [hs]
        rw [helm] at hel2 hlen
        refine ⟨fns, es, ?_, ?_, hel2, ?_, hmap, hfns, hes⟩
        · rw [hstep, hp2, hpk]
        · rw [hstep, hl2, hlk]
        · simp [List.filter, hr2, hlen]

/-- The generator state after elements and flows are compiled. -/
def elemStateOf (c : GenContext) : GenState :=
  createElements (c.bpmnElements.getD []) ⟨[], [], [], 0⟩

def genStateOf (c : GenContext) : GenState :=
  createFlows (c.seqFlows.getD []) (elemStateOf c)

theorem generateFromContext_eq (c : GenContext) :
    generateFromContext c = XNode.mk "definitions" definitionsAttrs
      [XNode.mk "bpmndi:BPMNDiagram" [("id", "BPMNDiagram_1")]
        [XNode.mk "bpmndi:BPMNPlane"
          [("id", "BPMNPlane_" ++ (processIdName c).1), ("bpmnElement", (processIdName c).1)]
          (genStateOf c).planeKids ""] "",
       XNode.mk "process" [("id", (processIdName c).1), ("name", (processIdName c).2)]
         (genStateOf c).procKids ""] "" := rfl

theorem countTagL_zero (t : String) (l : List XNode) (h : ∀ n ∈ l, countTagN t n = 0) :
    countTagL t l = 0 := by
  induction l with
  | nil => rfl
  | cons n rest ih =>
      show countTagN t n + countTagL t rest = 0
      rw [h n (List.mem_cons_self _ _), ih (fun m hm => h m (List.mem_cons_of_mem _ hm))]

/-! ## Claim C7 — empty-input safety -/

/-- C7: compiling a context with zero elements and zero flows never throws
(the compiler is a total function on this state space) and yields a document
with exactly one process container and no element nodes, connectors, shapes
or edges: the full document shape is pinned, with empty process and plane
children. -/
theorem C7_emptyInputSafety (c : GenContext)
    (he : c.bpmnElements = none ∨ c.bpmnElements = some [])
    (hf : c.seqFlows = none ∨ c.seqFlows = some []) :
    countTagN "process" (generateFromContext c) = 1 ∧
    generateFromContext c = XNode.mk "definitions" definitionsAttrs
      [XNode.mk "bpmndi:BPMNDiagram" [("id", "BPMNDiagram_1")]
        [XNode.mk "bpmndi:BPMNPlane"
          [("id", "BPMNPlane_" ++ (processIdName c).1), ("bpmnElement", (processIdName c).1)]
          [] ""] "",
       XNode.mk "process" [("id", (processIdName c).1), ("name", (processIdName c).2)] [] ""] "" := by
  have hge : c.bpmnElements.getD [] = [] := by rcases he with h | h <;> rw [h] <;> rfl
  have hgf : c.seqFlows.getD [] = [] := by rcases hf with h | h <;> rw [h] <;> rfl
  have hst : genStateOf c = ⟨[], [], [], 0⟩ := by
    unfold genStateOf elemStateOf
    rw [hge, hgf]
    rfl
  constructor
  · rw [generateFromContext_eq, hst]
    simp [countTagN, countTagL]
  · rw [generateFromContext_eq, hst]

/-- C7 witness: the empty context compiles to the pinned empty document. -/
theorem C7_emptyInputSafety_witness :
    countTagN "process" (generateFromContext ⟨none, none, none⟩) = 1 ∧
    generateFromContext ⟨none, none, none⟩ = XNode.mk "definitions" definitionsAttrs
      [XNode.mk "bpmndi:BPMNDiagram" [("id", "BPMNDiagram_1")]
        [XNode.mk "bpmndi:BPMNPlane"
          [("id", "BPMNPlane_" ++ (processIdName ⟨none, none, none⟩).1),
           ("bpmnElement", (processIdName ⟨none, none, none⟩).1)]
          [] ""] "",
       XNode.mk "process"
         [("id", (processIdName ⟨none, none, none⟩).1),
          ("name", (processIdName ⟨none, none, none⟩).2)] [] ""] "" :=
  C7_emptyInputSafety ⟨none, none, none⟩ (Or.inl rfl) (Or.inl rfl)

/-! ## Claim C10 — default process fallback -/

/-- C10: when `process_definitions` is absent, empty, or headed by a
non-record, the compiled document's single process container has id
"Process_1" and name "Default Process", and the diagram plane references
that same id. -/
theorem C10_defaultProcess (c : GenContext)
    (h : c.processDefs = none ∨ c.processDefs = some [] ∨
      ∃ v vs, c.processDefs = some (v :: vs) ∧ ∀ fs, v ≠ Value.vDict fs) :
    processIdName c = ("Process_1", "Default Process") ∧
    generateFromContext c = XNode.mk "definitions" definitionsAttrs
      [XNode.mk "bpmndi:BPMNDiagram" [("id", "BPMNDiagram_1")]
        [XNode.mk "bpmndi:BPMNPlane"
          [("id", "BPMNPlane_Process_1"), ("bpmnElement", "Process_1")]
          (genStateOf c).planeKids ""] "",
       XNode.mk "process" [("id", "Process_1"), ("name", "Default Process")]
         (genStateOf c).procKids ""] "" := by
  have hpn : processIdName c = ("Process_1", "Default Process") := by
    unfold processIdName
    rcases h with h | h | ⟨v, vs, h, hnd⟩
    · rw [h]
    · rw [h]
    · rw [h]
      cases v with
      | vDict fs => exact absurd rfl (hnd fs)
      | vStr s => rfl
      | vInt n => rfl
      | vFloat q => rfl
      | vBool b => rfl
      | vNull => rfl
      | vList xs => rfl
  refine ⟨hpn, ?_⟩
  rw [generateFromContext_eq, hpn]
  rfl

/-- C10 witness: a context whose process definitions list is headed by a
plain string. -/
theorem C10_defaultProcess_witness :
    processIdName ⟨some [Value.vStr "oops"], none, none⟩ = ("Process_1", "Default Process") ∧
    generateFromContext ⟨some [Value.vStr "oops"], none, none⟩ =
      XNode.mk "definitions" definitionsAttrs
        [XNode.mk "bpmndi:BPMNDiagram" [("id", "BPMNDiagram_1")]
          [XNode.mk "bpmndi:BPMNPlane"
            [("id", "BPMNPlane_Process_1"), ("bpmnElement", "Process_1")]
            (genStateOf ⟨some [Value.vStr "oops"], none, none⟩).planeKids ""] "",
         XNode.mk "process" [("id", "Process_1"), ("name", "Default Process")]
           (genStateOf ⟨some [Value.vStr "oops"], none, none⟩).procKids ""] "" :=
  C10_defaultProcess ⟨some [Value.vStr "oops"], none, none⟩
    (Or.inr (Or.inr ⟨Value.vStr "oops", [], rfl, fun fs hc => by cases hc⟩))

/-! ## Claim C3 — dangling flows are skipped silently and independently -/

theorem createFlows_flowCount (fl : List Record) (st : GenState) :
    ((createFlows fl st).procKids.filter isFlowNode).length =
      (st.procKids.filter isFlowNode).length +
        (fl.filter (fun d => resolvedFlow st.elems d)).length := by
  obtain ⟨fns, es, hp, hl, he, hlen, hmap, hfns, hes⟩ := createFlows_invariant fl st
  rw [hp, List.filter_append, List.length_append]
  congr 1
  rw [List.filter_eq_self.mpr (fun n hn => (hfns n hn).1)]
  exact hlen

theorem createFlows_edgeCount (fl : List Record) (st : GenState) :
    ((createFlows fl st).planeKids.filter isEdgeNode).length =
      (st.planeKids.filter isEdgeNode).length +
        (fl.filter (fun d => resolvedFlow st.elems d)).length := by
  obtain ⟨fns, es, hp, hl, he, hlen, hmap, hfns, hes⟩ := createFlows_invariant fl st
  rw [hl, List.filter_append, List.length_append]
  congr 1
  have hlen2 : es.length = fns.length := by
    have := congrArg List.length hmap
    simpa using this
  rw [List.filter_eq_self.mpr (fun n hn => (hes n hn).1), hlen2]
  exact hlen

/-- C3: a flow whose endpoints do not both resolve against the compiled
element map produces neither a connector nor a visual edge (the step leaves
the document state unchanged; the compiler is total, so no error is raised),
and its presence in a batch does not change the number of connectors or
edges compiled from the remaining flows. -/
theorem C3_danglingFlows (st : GenState) (xs ys : List Record) (f : Record)
    (hd : resolvedFlow st.elems f = false) :
    (createFlowsStep st f).procKids = st.procKids ∧
    (createFlowsStep st f).planeKids = st.planeKids ∧
    (createFlowsStep st f).elems = st.elems ∧
    ((createFlows (xs ++ f :: ys) st).procKids.filter isFlowNode).length =
      ((createFlows (xs ++ ys) st).procKids.filter isFlowNode).length ∧
    ((createFlows (xs ++ f :: ys) st).planeKids.filter isEdgeNode).length =
      ((createFlows (xs ++ ys) st).planeKids.filter isEdgeNode).length := by
  have hs := createFlowsStep_cond st f
  rw [hd] at hs
  simp only [Bool.false_eq_true, if_false] at hs
  refine ⟨by rw [hs], by rw [hs], by rw [hs], ?_, ?_⟩
  · rw [createFlows_flowCount, createFlows_flowCount]
    congr 1
    simp [List.filter_append, List.filter, hd]
  · rw [createFlows_edgeCount, createFlows_edgeCount]
    congr 1
    simp [List.filter_append, List.filter, hd]

def c3flow : Record := [("flow_id", .vStr "FLOW_001"), ("source_ref", .vStr "TASK_001"),
  ("target_ref", .vStr "GHOST_999"), ("process_id", .vStr "P1")]

/-- C3 witness: a flow whose target does not resolve, against an empty
element map. -/
theorem C3_danglingFlows_witness :
    (createFlowsStep ⟨[], [], [], 0⟩ c3flow).procKids = [] ∧
    (createFlowsStep ⟨[], [], [], 0⟩ c3flow).planeKids = [] ∧
    (createFlowsStep ⟨[], [], [], 0⟩ c3flow).elems = [] ∧
    ((createFlows ([] ++ c3flow :: []) ⟨[], [], [], 0⟩).procKids.filter isFlowNode).length =
      ((createFlows ([] ++ []) ⟨[], [], [], 0⟩).procKids.filter isFlowNode).length ∧
    ((createFlows ([] ++ c3flow :: []) ⟨[], [], [], 0⟩).planeKids.filter isEdgeNode).length =
      ((createFlows ([] ++ []) ⟨[], [], [], 0⟩).planeKids.filter isEdgeNode).length :=
  C3_danglingFlows ⟨[], [], [], 0⟩ [] [] c3flow (by decide)

/-! ## Claim C2 — document contract of the generator -/

theorem edge_not_shape (n : XNode) (h : isEdgeNode n = true) : isShapeNode n = false := by
  unfold isEdgeNode at h
  unfold isShapeNode
  rw [of_decide_eq_true h]
  rfl

theorem shape_not_flow (n : XNode) (h : isShapeNode n = true) : isEdgeNode n = false := by
  unfold isShapeNode at h
  unfold isEdgeNode
  rw [of_decide_eq_true h]
  rfl

/-- C2: for every context, the compiled document has exactly one process
container; the process node's children contain one non-connector node per
valid element record and one connector per flow whose endpoints both resolve
against the compiled element map; the visual plane mirrors them one-to-one —
its shapes' `bpmnElement` references equal, in order, the element nodes' ids
and its edges' references equal the connectors' ids — and every identifier
referenced by the visual sub-document is the process id or the id of a node
inside the process container. -/
theorem C2_documentContract (c : GenContext) :
    countTagN "process" (generateFromContext c) = 1 ∧
    ((genStateOf c).procKids.filter (fun n => !isFlowNode n)).length =
      ((c.bpmnElements.getD []).filter elemValid).length ∧
    ((genStateOf c).procKids.filter isFlowNode).length =
      ((c.seqFlows.getD []).filter (fun d => resolvedFlow (elemStateOf c).elems d)).length ∧
    ((genStateOf c).planeKids.filter isShapeNode).map bpmnRef =
      ((genStateOf c).procKids.filter (fun n => !isFlowNode n)).map idAttr ∧
    ((genStateOf c).planeKids.filter isEdgeNode).map bpmnRef =
      ((genStateOf c).procKids.filter isFlowNode).map idAttr ∧
    (∀ n ∈ (genStateOf c).planeKids, ∀ ref, bpmnRef n = some ref →
      ref = (processIdName c).1 ∨ ∃ m ∈ (genStateOf c).procKids, idAttr m = some ref) := by
  obtain ⟨ns, ss, hpE, hlE, hlenE, hmapE, hnsE, hssE⟩ :=
    createElements_invariant (c.bpmnElements.getD []) ⟨[], [], [], 0⟩
  obtain ⟨fns, es, hpF, hlF, helF, hlenF, hmapF, hfnsF, hesF⟩ :=
    createFlows_invariant (c.seqFlows.getD []) (elemStateOf c)
  have hpe2 : (elemStateOf c).procKids = ns := by
    show (createElements (c.bpmnElements.getD []) ⟨[], [], [], 0⟩).procKids = ns
    rw [hpE]
    rfl
  have hle2 : (elemStateOf c).planeKids = ss := by
    show (createElements (c.bpmnElements.getD []) ⟨[], [], [], 0⟩).planeKids = ss
    rw [hlE]
    rfl
  have hPK : (genStateOf c).procKids = ns ++ fns := by
    show (createFlows (c.seqFlows.getD []) (elemStateOf c)).procKids = _
    rw [hpF, hpe2]
  have hLK : (genStateOf c).planeKids = ss ++ es := by
    show (createFlows (c.seqFlows.getD []) (elemStateOf c)).planeKids = _
    rw [hlF, hle2]
  have hfiltNs : (ns.filter (fun n => !isFlowNode n)) = ns :=
    List.filter_eq_self.mpr (fun n hn => by rw [(hnsE n hn).1]; rfl)
  have hfiltFns : (fns.filter (fun n => !isFlowNode n)) = [] :=
    List.filter_eq_nil.mpr (fun n hn => by rw [(hfnsF n hn).1]; simp)
  have hfiltNs2 : (ns.filter isFlowNode) = [] :=
    List.filter_eq_nil.mpr (fun n hn => by rw [(hnsE n hn).1]; simp)
  have hfiltFns2 : (fns.filter isFlowNode) = fns :=
    List.filter_eq_self.mpr (fun n hn => (hfnsF n hn).1)
  have hfiltSs : (ss.filter isShapeNode) = ss :=
    List.filter_eq_self.mpr (fun n hn => (hssE n hn).1)
  have hfiltEs : (es.filter isShapeNode) = [] :=
    List.filter_eq_nil.mpr (fun n hn => by rw [edge_not_shape n (hesF n hn).1]; simp)
  have hfiltSs2 : (ss.filter isEdgeNode) = [] :=
    List.filter_eq_nil.mpr (fun n hn => by rw [shape_not_flow n (hssE n hn).1]; simp)
  have hfiltEs2 : (es.filter isEdgeNode) = es :=
    List.filter_eq_self.mpr (fun n hn => (hesF n hn).1)
  refine ⟨?_, ?_, ?_, ?_, ?_, ?_⟩
  · have hplane0 : countTagL "process" (genStateOf c).planeKids = 0 := by
      rw [hLK]
      apply countTagL_zero
      intro n hn
      rcases List.mem_append.mp hn with h | h
      · exact (hssE n h).2
      · exact (hesF n h).2
    have hproc0 : countTagL "process" (genStateOf c).procKids = 0 := by
      rw [hPK]
      apply countTagL_zero
      intro n hn
      rcases List.mem_append.mp hn with h | h
      · exact (hnsE n h).2
      · exact (hfnsF n h).2
    rw [generateFromContext_eq]
    simp [countTagN, countTagL, hplane0, hproc0]
  · rw [hPK, List.filter_append, hfiltNs, hfiltFns, List.append_nil]
    exact hlenE
  · rw [hPK, List.filter_append, hfiltNs2, hfiltFns2, List.nil_append]
    exact hlenF
  · rw [hPK, hLK, List.filter_append, List.filter_append, hfiltSs, hfiltEs, hfiltNs, hfiltFns,
      List.append_nil, List.append_nil]
    exact hmapE
  · rw [hPK, hLK, List.filter_append, List.filter_append, hfiltSs2, hfiltEs2, hfiltNs2,
      hfiltFns2, List.nil_append, List.nil_append]
    exact hmapF
  · intro n hn ref href
    right
    rw [hLK] at hn
    rw [hPK]
    rcases List.mem_append.mp hn with h | h
    · have hmem : some ref ∈ ss.map bpmnRef := List.mem_map.mpr ⟨n, h, href⟩
      rw [hmapE] at hmem
      obtain ⟨m, hm, hmeq⟩ := List.mem_map.mp hmem
      exact ⟨m, List.mem_append_left _ hm, hmeq⟩
    · have hmem : some ref ∈ es.map bpmnRef := List.mem_map.mpr ⟨n, h, href⟩
      rw [hmapF] at hmem
      obtain ⟨m, hm, hmeq⟩ := List.mem_map.mp hmem
      exact ⟨m, List.mem_append_right _ hm, hmeq⟩

/-! ## Pipeline state preservation lemmas -/

theorem rget_setCtx_ne (st : PipeState) (k : String) (v : Value) (k2 : String) (h : k ≠ k2) :
    rget (setCtx st k v).ctx k2 = rget st.ctx k2 := rget_rset_ne _ _ _ _ h


theorem lanesLoop_ctx (o : Oracle) (pools : List Value) (i : Nat) (st : PipeState) (k : String)
    (h : k ≠ "lanes") :
    rget (lanesLoop o pools i st).1.ctx k = rget st.ctx k := by
  induction pools generalizing i st with
  | nil => rfl
  | cons pool rest ih =>
      simp only [lanesLoop]
      split
      · rfl
      · rw [ih]
        split
        · rfl
        · exact rget_setCtx_ne _ _ _ _ (fun hc => h hc.symm)

theorem lanesLoop_ctx_pair (o : Oracle) (pools : List Value) (i : Nat) (st st2 : PipeState)
    (b : Bool) (k : String) (h : k ≠ "lanes") (heq : lanesLoop o pools i st = (st2, b)) :
    rget st2.ctx k = rget st.ctx k := by
  have hl := lanesLoop_ctx o pools i st k h
  rw [heq] at hl
  exact hl

theorem stagePoolsLanes_ctx (o : Oracle) (st : PipeState) (k : String)
    (h1 : k ≠ "pools") (h2 : k ≠ "lanes") :
    rget (stagePoolsLanes o st).ctx k = rget st.ctx k := by
  have hin : ∀ (s : PipeState),
      rget (if rhas (if rhas s.ctx "pools" = true then s else setCtx s "pools" (vListOf [])).ctx
          "lanes" = true
        then (if rhas s.ctx "pools" = true then s else setCtx s "pools" (vListOf []))
        else setCtx (if rhas s.ctx "pools" = true then s else setCtx s "pools" (vListOf []))
          "lanes" (vListOf [])).ctx k = rget s.ctx k := by
    intro s
    split
    · split
      · rfl
      · exact rget_setCtx_ne _ _ _ _ (fun hc => h2 hc.symm)
    · split
      · exact rget_setCtx_ne _ _ _ _ (fun hc => h1 hc.symm)
      · rw [rget_setCtx_ne _ _ _ _ (fun hc => h2 hc.symm)]
        exact rget_setCtx_ne _ _ _ _ (fun hc => h1 hc.symm)
  simp only [stagePoolsLanes]
  split
  · rfl
  · split
    · exact hin (bump st)
    · split
      · exact hin (bump st)
      · split
        · rename_i st6 heq
          exact (lanesLoop_ctx_pair _ _ _ _ _ _ _ h2 heq).trans
            ((rget_setCtx_ne _ _ _ _ (fun hc => h1 hc.symm)).trans (hin (bump st)))
        · rename_i st6 heq
          show rget st6.ctx k = rget st.ctx k
          exact (lanesLoop_ctx_pair _ _ _ _ _ _ _ h2 heq).trans
            ((rget_setCtx_ne _ _ _ _ (fun hc => h1 hc.symm)).trans (hin (bump st)))

theorem stagePhases_ctx (o : Oracle) (st : PipeState) (k : String) (h : k ≠ "process_phases") :
    rget (stagePhases o st).1.ctx k = rget st.ctx k := by
  simp only [stagePhases]
  split
  · rfl
  · split
    · rfl
    · exact rget_setCtx_ne _ _ _ _ (fun hc => h hc.symm)

theorem stageProcDefs_ctx (o : Oracle) (st : PipeState) (k : String)
    (h : k ≠ "process_definitions") :
    rget (stageProcDefs o st).1.ctx k = rget st.ctx k := by
  simp only [stageProcDefs]
  split
  · rfl
  · exact rget_setCtx_ne _ _ _ _ (fun hc => h hc.symm)

theorem elemLoop_ctx (o : Oracle) (bs maxB fuel i : Nat) (all : List Value) (st : PipeState)
    (k : String) (h1 : k ≠ "bpmn_elements") (h2 : k ≠ "allElementRows") :
    rget (elemLoop o bs maxB fuel i all st).1.ctx k = rget st.ctx k := by
  induction fuel generalizing i all st with
  | zero => rfl
  | succ fuel ih =>
      simp only [elemLoop]
      split
      · rfl
      · split
        · rfl
        · split
          · rfl
          · split
            · exact (rget_setCtx_ne _ _ _ _ (fun hc => h2 hc.symm)).trans
                (rget_setCtx_ne _ _ _ _ (fun hc => h1 hc.symm))
            · rw [ih]
              exact (rget_setCtx_ne _ _ _ _ (fun hc => h2 hc.symm)).trans
                (rget_setCtx_ne _ _ _ _ (fun hc => h1 hc.symm))

theorem stageElementsRec_ctx (o : Oracle) (bs maxB : Nat) (st : PipeState) (k : String)
    (h1 : k ≠ "bpmn_elements") (h2 : k ≠ "allElementRows") :
    rget (stageElementsRec o bs maxB st).1.ctx k = rget st.ctx k := by
  have hpre : rget (if rhas (bump st).ctx "bpmn_elements" = true then bump st
      else setCtx (bump st) "bpmn_elements" (vListOf [])).ctx k = rget st.ctx k := by
    split
    · rfl
    · exact rget_setCtx_ne _ _ _ _ (fun hc => h1 hc.symm)
  have hloop := elemLoop_ctx o bs maxB maxB 1 []
    (if rhas (bump st).ctx "bpmn_elements" = true then bump st
     else setCtx (bump st) "bpmn_elements" (vListOf [])) k h1 h2
  simp only [stageElementsRec]
  split
  · rfl
  · split
    · rename_i st2 all heq
      show rget (stampTiming _ _ _ st2).ctx k = _
      rw [heq] at hloop
      rw [show (stampTiming o "bpmn_elements" (o.clock st.tick) st2).ctx = st2.ctx from rfl]
      rw [show rget st2.ctx k = rget ((st2, Except.ok (ε := Unit) all)).1.ctx k from rfl]
      rw [hloop]
      exact hpre
    · rename_i st2 e heq
      rw [heq] at hloop
      show rget st2.ctx k = _
      rw [show rget st2.ctx k = rget ((st2, Except.error (α := List Value) e)).1.ctx k from rfl]
      rw [hloop]
      exact hpre

theorem stageFlows_ctx (o : Oracle) (st : PipeState) (k : String)
    (h1 : k ≠ "sequence_flows") (h2 : k ≠ "allFlowRows") :
    rget (stageFlows o st).1.ctx k = rget st.ctx k := by
  simp only [stageFlows]
  split
  · rfl
  · split
    · rfl
    · exact (rget_setCtx_ne _ _ _ _ (fun hc => h2 hc.symm)).trans
        (rget_setCtx_ne _ _ _ _ (fun hc => h1 hc.symm))

theorem stageResources_ctx (o : Oracle) (st : PipeState) (k : String)
    (h : k ≠ "resources") :
    rget (stageResources o st).ctx k = rget st.ctx k := by
  simp only [stageResources]
  split
  · rfl
  · split
    · rfl
    · exact rget_setCtx_ne _ _ _ _ (fun hc => h hc.symm)

theorem stageIntegrity_ctx (o : Oracle) (st : PipeState) (k : String)
    (h : k ≠ "integrity_issues") :
    rget (stageIntegrity o st).ctx k = rget st.ctx k := by
  simp only [stageIntegrity]
  split
  · rfl
  · split
    · rfl
    · exact rget_setCtx_ne _ _ _ _ (fun hc => h hc.symm)

theorem addProductSpecs_ctx (o : Oracle) (desc : String) (st : PipeState) (k : String)
    (h : k ≠ "product_specifications") :
    rget (addProductSpecs o desc st).ctx k = rget st.ctx k := by
  simp only [addProductSpecs]
  split
  · rfl
  · split
    · rfl
    · split
      · split
        · exact rget_setCtx_ne _ _ _ _ (fun hc => h hc.symm)
        · rfl
      · rfl

theorem stagePhases_ctx_pair (o : Oracle) (st st2 : PipeState) (b : Bool) (k : String)
    (h : k ≠ "process_phases") (heq : stagePhases o st = (st2, b)) :
    rget st2.ctx k = rget st.ctx k := by
  have hl := stagePhases_ctx o st k h
  rw [heq] at hl
  exact hl

theorem stageProcDefs_ctx_pair (o : Oracle) (st st2 : PipeState) (b : Bool) (k : String)
    (h : k ≠ "process_definitions") (heq : stageProcDefs o st = (st2, b)) :
    rget st2.ctx k = rget st.ctx k := by
  have hl := stageProcDefs_ctx o st k h
  rw [heq] at hl
  exact hl

theorem stageElementsRec_ctx_pair (o : Oracle) (bs maxB : Nat) (st st2 : PipeState)
    (r : Except Unit (List Value)) (k : String)
    (h1 : k ≠ "bpmn_elements") (h2 : k ≠ "allElementRows")
    (heq : stageElementsRec o bs maxB st = (st2, r)) :
    rget st2.ctx k = rget st.ctx k := by
  have hl := stageElementsRec_ctx o bs maxB st k h1 h2
  rw [heq] at hl
  exact hl

theorem stageFlows_ctx_pair (o : Oracle) (st st2 : PipeState) (b : Bool) (k : String)
    (h1 : k ≠ "sequence_flows") (h2 : k ≠ "allFlowRows")
    (heq : stageFlows o st = (st2, b)) :
    rget st2.ctx k = rget st.ctx k := by
  have hl := stageFlows_ctx o st k h1 h2
  rw [heq] at hl
  exact hl

theorem step1_ctx (o : Oracle) (st : PipeState) (k : String) (h : k ≠ "process_phases") :
    rget (step1 o st).1.ctx k = rget st.ctx k := by
  simp only [step1]
  split <;> (rename_i st1 heq; exact stagePhases_ctx_pair _ _ _ _ _ h heq)

theorem step2_ctx (o : Oracle) (x : PipeFlags) (k : String) (h : k ≠ "process_definitions") :
    rget (step2 o x).1.ctx k = rget x.1.ctx k := by
  obtain ⟨st, sc, dg⟩ := x
  simp only [step2]
  split
  · split <;> (rename_i st2 heq; exact stageProcDefs_ctx_pair _ _ _ _ _ h heq)
  · rfl

theorem step3_ctx (o : Oracle) (bs : BatchSizes) (x : PipeFlags) (k : String)
    (h1 : k ≠ "bpmn_elements") (h2 : k ≠ "allElementRows") :
    rget (step3 o bs x).1.ctx k = rget x.1.ctx k := by
  obtain ⟨st, sc, dg⟩ := x
  simp only [step3]
  split
  · split <;> (rename_i st2 r heq; exact stageElementsRec_ctx_pair _ _ _ _ _ _ _ h1 h2 heq)
  · rfl

theorem step4_ctx (o : Oracle) (x : PipeFlags) (k : String)
    (h1 : k ≠ "pools") (h2 : k ≠ "lanes") :
    rget (step4 o x).1.ctx k = rget x.1.ctx k := by
  obtain ⟨st, sc, dg⟩ := x
  simp only [step4]
  split
  · exact stagePoolsLanes_ctx o st k h1 h2
  · rfl

theorem step5_ctx (o : Oracle) (x : PipeFlags) (k : String)
    (h1 : k ≠ "sequence_flows") (h2 : k ≠ "allFlowRows") :
    rget (step5 o x).1.ctx k = rget x.1.ctx k := by
  obtain ⟨st, sc, dg⟩ := x
  simp only [step5]
  split
  · split <;> (rename_i st2 heq; exact stageFlows_ctx_pair _ _ _ _ _ h1 h2 heq)
  · rfl

theorem step6_ctx (o : Oracle) (bs : BatchSizes) (x : PipeFlags) (k : String)
    (h : k ≠ "resources") :
    rget (step6 o bs x).1.ctx k = rget x.1.ctx k := by
  obtain ⟨st, sc, dg⟩ := x
  simp only [step6]
  split
  · exact stageResources_ctx o st k h
  · rfl

theorem step7_ctx (o : Oracle) (x : PipeFlags) (k : String)
    (h : k ≠ "integrity_issues") :
    rget (step7 o x).1.ctx k = rget x.1.ctx k := by
  obtain ⟨st, sc, dg⟩ := x
  simp only [step7]
  split
  · exact stageIntegrity_ctx o st k h
  · rfl

theorem ctx_before_step3 (o : Oracle) (k : String)
    (hk1 : k ≠ "process_phases") (hk2 : k ≠ "process_definitions") :
    rget (step2 o (step1 o (bump ⟨[], [], [], 0⟩))).1.ctx k = none := by
  rw [step2_ctx o _ k hk2, step1_ctx o _ k hk1]
  rfl

theorem getLast?_append_single {α : Type} (l : List α) (a : α) :
    (l ++ [a]).getLast? = some a := by
  simp

theorem elemLoop_ok_nil (o : Oracle) (bs maxB : Nat) :
    ∀ (fuel i : Nat) (all : List Value) (st st2 : PipeState),
    elemLoop o bs maxB fuel i all st = (st2, Except.ok []) →
    all = [] ∧ rget st2.ctx "bpmn_elements" = rget st.ctx "bpmn_elements" := by
  intro fuel
  induction fuel with
  | zero =>
      intro i all st st2 heq
      simp only [elemLoop] at heq
      injection heq with h1 h2
      injection h2 with h3
      subst h1
      exact ⟨h3, rfl⟩
  | succ fuel ih =>
      intro i all st st2 heq
      simp only [elemLoop] at heq
      split at heq
      · injection heq with h1 h2
        exact Except.noConfusion h2
      · split at heq
        · injection heq with h1 h2
          injection h2 with h3
          subst h1
          exact ⟨h3, rfl⟩
        · split at heq
          · injection heq with h1 h2
            injection h2 with h3
            subst h1
            exact ⟨h3, rfl⟩
          · rename_i hvalid
            split at heq
            · injection heq with h1 h2
              injection h2 with h3
              exact absurd (List.append_eq_nil.mp h3).2 hvalid
            · obtain ⟨h3, _⟩ := ih _ _ _ _ heq
              exact absurd (List.append_eq_nil.mp h3).2 hvalid

theorem stageElementsRec_nil_props (o : Oracle) (bs maxB : Nat) (st st3 : PipeState)
    (hnone : rget st.ctx "bpmn_elements" = none)
    (heq : stageElementsRec o bs maxB st = (st3, Except.ok [])) :
    ctxLen st3 "bpmn_elements" = 0 ∧ ctxTruthy st3 "bpmn_elements" = false := by
  have hrhas : rhas (bump st).ctx "bpmn_elements" = false := by
    show (rget st.ctx "bpmn_elements").isSome = false
    rw [hnone]
    rfl
  simp only [stageElementsRec] at heq
  split at heq
  · injection heq with h1 h2
    rw [← h1]
    refine ⟨?_, ?_⟩
    · show ctxLen st "bpmn_elements" = 0
      simp only [ctxLen]
      rw [hnone]
    · show ctxTruthy st "bpmn_elements" = false
      simp only [ctxTruthy]
      rw [hnone]
  · rw [hrhas] at heq
    simp only [Bool.false_eq_true, if_false] at heq
    split at heq
    · rename_i st2 all heq2
      injection heq with h1 h2
      injection h2 with h3
      subst h3
      obtain ⟨-, hctx⟩ := elemLoop_ok_nil o bs maxB maxB 1 [] _ _ heq2
      have hctx2 : rget st2.ctx "bpmn_elements" = some (vListOf []) :=
        hctx.trans (rget_rset_self _ _ _)
      rw [← h1]
      constructor
      · show ctxLen st2 "bpmn_elements" = 0
        simp only [ctxLen]
        rw [hctx2]
        rfl
      · show ctxTruthy st2 "bpmn_elements" = false
        simp only [ctxTruthy]
        rw [hctx2]
        rfl
    · injection heq with h1 h2
      exact Except.noConfusion h2

theorem mem_saved_save (st : PipeState) (n : String) (d : Value) (a : String × Value)
    (h : a ∈ st.saved) : a ∈ (save st n d).saved :=
  List.mem_append_left _ h

theorem saved_save_self (st : PipeState) (n : String) (d : Value) :
    (n, d) ∈ (save st n d).saved :=
  List.mem_append_right _ (List.mem_singleton_self _)

theorem mem_saved_addProductSpecs (o : Oracle) (desc : String) (st : PipeState)
    (a : String × Value) (h : a ∈ st.saved) : a ∈ (addProductSpecs o desc st).saved := by
  simp only [addProductSpecs]
  split
  · exact h
  · split
    · exact h
    · split
      · split
        · exact List.mem_append_left _ h
        · exact h
      · exact h

theorem ctxLen_addProductSpecs (o : Oracle) (desc : String) (st : PipeState) (k : String)
    (h : k ≠ "product_specifications") :
    ctxLen (addProductSpecs o desc st) k = ctxLen st k := by
  simp only [ctxLen]
  rw [addProductSpecs_ctx o desc st k h]

theorem finalize_elements_count (o : Oracle) (desc : String) (t0 : Int) (st : PipeState)
    (sc dg : Bool) (h0 : ctxLen st "bpmn_elements" = 0) :
    ∃ sum : Record,
      (finalize o desc t0 (st, sc, dg)).1.saved.getLast? =
        some ("generation_summary.json", Value.vDict (VFields.ofRecord sum)) ∧
      rget sum "elements_count" = some (Value.vInt 0) := by
  simp only [finalize]
  refine ⟨_, getLast?_append_single _ _, ?_⟩
  simp [rget]
  rw [ctxLen_addProductSpecs _ _ _ _ (by decide)]
  exact h0

theorem finalize_props (o : Oracle) (desc : String) (t0 : Int) (st : PipeState) (sc dg : Bool) :
    (finalize o desc t0 (st, sc, dg)).2 = (finalize o desc t0 (st, sc, dg)).1.ctx ∧
    ("complete_context.json", Value.vDict (VFields.ofRecord st.ctx))
      ∈ (finalize o desc t0 (st, sc, dg)).1.saved ∧
    (∃ tm : Record, ("performance_metrics.json", Value.vDict (VFields.ofRecord tm))
      ∈ (finalize o desc t0 (st, sc, dg)).1.saved) ∧
    ∃ sum : Record,
      (finalize o desc t0 (st, sc, dg)).1.saved.getLast? =
        some ("generation_summary.json", Value.vDict (VFields.ofRecord sum)) ∧
      rget sum "product_description" = some (Value.vStr desc) ∧
      rget sum "success" = some (Value.vBool (sc && dg)) ∧
      rhas sum "phases_count" = true ∧ rhas sum "processes_count" = true ∧
      rhas sum "elements_count" = true ∧ rhas sum "flows_count" = true ∧
      rhas sum "resources_count" = true ∧ rhas sum "pools_count" = true ∧
      rhas sum "lanes_count" = true ∧
      ∃ t : Int, rget sum "total_runtime_seconds" = some (Value.vInt t) := by
  simp only [finalize]
  refine ⟨by first | trivial | rfl, ?_, ?_, ?_⟩
  · exact mem_saved_save _ _ _ _ (mem_saved_addProductSpecs _ _ _ _
      (mem_saved_save _ _ _ _ (saved_save_self _ _ _)))
  · exact ⟨_, mem_saved_save _ _ _ _ (mem_saved_addProductSpecs _ _ _ _
      (saved_save_self _ _ _))⟩
  · refine ⟨_, getLast?_append_single _ _, ?_, ?_, ?_, ?_, ?_, ?_, ?_, ?_, ?_, ?_⟩ <;>
      simp [rget, rhas]

/-- C4: when the recursive elements stage of the pipeline returns zero
validated records, `_generate_bpmn_elements_recursive`'s empty result clears
the `data_generated` flag, so the gated pools/lanes, flows and resources steps
(and the integrity audit) pass their input state through untouched; the run
still reaches the `finally` finalization, and the persisted generation summary
reports `elements_count = 0`. -/
theorem C4_gating (o : Oracle) (bs : BatchSizes) (desc : String) (hdesc : desc ≠ "")
    (st2 st3 : PipeState)
    (hx2 : step2 o (step1 o (bump ⟨[], [], [], 0⟩)) = (st2, true, true))
    (helems : stageElementsRec o bs.elements bs.maxElementBatches st2 = (st3, Except.ok [])) :
    step3 o bs (step2 o (step1 o (bump ⟨[], [], [], 0⟩))) = (st3, true, false) ∧
    step4 o (st3, true, false) = (st3, true, false) ∧
    step5 o (st3, true, false) = (st3, true, false) ∧
    step6 o bs (st3, true, false) = (st3, true, false) ∧
    step7 o (st3, true, false) = (st3, true, false) ∧
    run o bs desc = Except.ok (runBody o bs desc) ∧
    ∃ sum : Record,
      (runBody o bs desc).1.saved.getLast? =
        some ("generation_summary.json", Value.vDict (VFields.ofRecord sum)) ∧
      rget sum "elements_count" = some (Value.vInt 0) := by
  have h3 : step3 o bs (step2 o (step1 o (bump ⟨[], [], [], 0⟩))) = (st3, true, false) := by
    rw [hx2]
    simp [step3, helems]
  have h4 : step4 o (st3, true, false) = (st3, true, false) := by simp [step4]
  have h5 : step5 o (st3, true, false) = (st3, true, false) := by simp [step5]
  have h6 : step6 o bs (st3, true, false) = (st3, true, false) := by simp [step6]
  have h7 : step7 o (st3, true, false) = (st3, true, false) := by simp [step7]
  have hnone : rget st2.ctx "bpmn_elements" = none := by
    have hc := ctx_before_step3 o "bpmn_elements" (by decide) (by decide)
    rw [hx2] at hc
    exact hc
  have h0 : ctxLen st3 "bpmn_elements" = 0 :=
    (stageElementsRec_nil_props o bs.elements bs.maxElementBatches st2 st3 hnone helems).1
  have hx7 : step7 o (step6 o bs (step5 o (step4 o (step3 o bs (step2 o (step1 o
      (bump ⟨[], [], [], 0⟩))))))) = (st3, true, false) := by
    rw [h3, h4, h5, h6, h7]
  have hrb : runBody o bs desc
      = finalize o desc (o.clock (⟨[], [], [], 0⟩ : PipeState).tick) (st3, true, false) := by
    rw [show runBody o bs desc = finalize o desc (o.clock (⟨[], [], [], 0⟩ : PipeState).tick)
      (step7 o (step6 o bs (step5 o (step4 o (step3 o bs (step2 o (step1 o
      (bump ⟨[], [], [], 0⟩)))))))) from rfl, hx7]
  refine ⟨h3, h4, h5, h6, h7, by simp [run, hdesc], ?_⟩
  obtain ⟨sum, hs1, hs2⟩ := finalize_elements_count o desc
    (o.clock (⟨[], [], [], 0⟩ : PipeState).tick) st3 true false h0
  exact ⟨sum, by rw [hrb]; exact hs1, hs2⟩

def phC4 : Value := .vDict (VFields.ofRecord
  [("phase_id", .vStr "PH_001"), ("phase_name", .vStr "Phase"), ("description", .vStr "D")])

def pdC4 : Value := .vDict (VFields.ofRecord
  [("process_id", .vStr "PROC_001"), ("process_name", .vStr "P"), ("description", .vStr "D")])

def oC4 : Oracle :=
  ⟨.ok [phC4], .ok [pdC4], fun _ => .ok [], .ok [], fun _ => .ok [],
   .ok [], .ok [], .ok .vNull, .ok .vNull, fun _ => 0⟩

def st2C4 : PipeState := (step2 oC4 (step1 oC4 (bump ⟨[], [], [], 0⟩))).1

def st3C4 : PipeState :=
  (stageElementsRec oC4 defaultBatchSizes.elements defaultBatchSizes.maxElementBatches st2C4).1

theorem C4_gating_witness :
    step3 oC4 defaultBatchSizes (step2 oC4 (step1 oC4 (bump ⟨[], [], [], 0⟩)))
      = (st3C4, true, false) ∧
    step4 oC4 (st3C4, true, false) = (st3C4, true, false) ∧
    step5 oC4 (st3C4, true, false) = (st3C4, true, false) ∧
    step6 oC4 defaultBatchSizes (st3C4, true, false) = (st3C4, true, false) ∧
    step7 oC4 (st3C4, true, false) = (st3C4, true, false) ∧
    run oC4 defaultBatchSizes "p" = Except.ok (runBody oC4 defaultBatchSizes "p") ∧
    ∃ sum : Record,
      (runBody oC4 defaultBatchSizes "p").1.saved.getLast? =
        some ("generation_summary.json", Value.vDict (VFields.ofRecord sum)) ∧
      rget sum "elements_count" = some (Value.vInt 0) :=
  C4_gating oC4 defaultBatchSizes "p" (by decide) st2C4 st3C4 rfl rfl

/-- C5: every run of `DataGenerationPipeline.run` with a non-empty product
description returns the final context, and its `finally` block always runs:
the full accumulated context and the timing report are persisted, and the last
save of the run is a generation summary carrying the product description, the
overall success flag, every per-kind count and the total elapsed time — this
holds whatever the stage oracle does (success, hard failure or an exception
inside any stage). -/
theorem C5_alwaysFinalize (o : Oracle) (bs : BatchSizes) (desc : String) (hdesc : desc ≠ "") :
    run o bs desc = Except.ok (runBody o bs desc) ∧
    (runBody o bs desc).2 = (runBody o bs desc).1.ctx ∧
    ("complete_context.json",
      Value.vDict (VFields.ofRecord (step7 o (step6 o bs (step5 o (step4 o (step3 o bs
        (step2 o (step1 o (bump ⟨[], [], [], 0⟩)))))))).1.ctx))
      ∈ (runBody o bs desc).1.saved ∧
    (∃ tm : Record, ("performance_metrics.json", Value.vDict (VFields.ofRecord tm))
      ∈ (runBody o bs desc).1.saved) ∧
    ∃ sum : Record,
      (runBody o bs desc).1.saved.getLast? =
        some ("generation_summary.json", Value.vDict (VFields.ofRecord sum)) ∧
      rget sum "product_description" = some (Value.vStr desc) ∧
      (∃ b : Bool, rget sum "success" = some (Value.vBool b)) ∧
      rhas sum "phases_count" = true ∧ rhas sum "processes_count" = true ∧
      rhas sum "elements_count" = true ∧ rhas sum "flows_count" = true ∧
      rhas sum "resources_count" = true ∧ rhas sum "pools_count" = true ∧
      rhas sum "lanes_count" = true ∧
      ∃ t : Int, rget sum "total_runtime_seconds" = some (Value.vInt t) := by
  rcases hP : step7 o (step6 o bs (step5 o (step4 o (step3 o bs (step2 o (step1 o
      (bump ⟨[], [], [], 0⟩))))))) with ⟨st, sc, dg⟩
  have hrb : runBody o bs desc
      = finalize o desc (o.clock (⟨[], [], [], 0⟩ : PipeState).tick) (st, sc, dg) := by
    rw [show runBody o bs desc = finalize o desc (o.clock (⟨[], [], [], 0⟩ : PipeState).tick)
      (step7 o (step6 o bs (step5 o (step4 o (step3 o bs (step2 o (step1 o
      (bump ⟨[], [], [], 0⟩)))))))) from rfl, hP]
  obtain ⟨hp1, hp2, hp3, sum, hs1, hs2, hs3, h4, h5, h6, h7, h8, h9, h10, t, ht⟩ :=
    finalize_props o desc (o.clock (⟨[], [], [], 0⟩ : PipeState).tick) st sc dg
  refine ⟨by simp [run, hdesc], ?_, ?_, ?_, ?_⟩
  · rw [hrb]
    exact hp1
  · rw [hrb]
    exact hp2
  · rw [hrb]
    exact hp3
  · rw [hrb]
    exact ⟨sum, hs1, hs2, ⟨sc && dg, hs3⟩, h4, h5, h6, h7, h8, h9, h10, t, ht⟩

def oC5 : Oracle :=
  ⟨.error (), .error (), fun _ => .error (), .error (), fun _ => .error (),
   .error (), .error (), .error (), .error (), fun _ => 0⟩

theorem C5_alwaysFinalize_witness :
    run oC5 defaultBatchSizes "p" = Except.ok (runBody oC5 defaultBatchSizes "p") ∧
    (runBody oC5 defaultBatchSizes "p").2 = (runBody oC5 defaultBatchSizes "p").1.ctx ∧
    ("complete_context.json",
      Value.vDict (VFields.ofRecord (step7 oC5 (step6 oC5 defaultBatchSizes (step5 oC5 (step4 oC5
        (step3 oC5 defaultBatchSizes (step2 oC5 (step1 oC5 (bump ⟨[], [], [], 0⟩)))))))).1.ctx))
      ∈ (runBody oC5 defaultBatchSizes "p").1.saved ∧
    (∃ tm : Record, ("performance_metrics.json", Value.vDict (VFields.ofRecord tm))
      ∈ (runBody oC5 defaultBatchSizes "p").1.saved) ∧
    ∃ sum : Record,
      (runBody oC5 defaultBatchSizes "p").1.saved.getLast? =
        some ("generation_summary.json", Value.vDict (VFields.ofRecord sum)) ∧
      rget sum "product_description" = some (Value.vStr "p") ∧
      (∃ b : Bool, rget sum "success" = some (Value.vBool b)) ∧
      rhas sum "phases_count" = true ∧ rhas sum "processes_count" = true ∧
      rhas sum "elements_count" = true ∧ rhas sum "flows_count" = true ∧
      rhas sum "resources_count" = true ∧ rhas sum "pools_count" = true ∧
      rhas sum "lanes_count" = true ∧
      ∃ t : Int, rget sum "total_runtime_seconds" = some (Value.vInt t) :=
  C5_alwaysFinalize oC5 defaultBatchSizes "p" (by decide)

/-! ## Claim C9 — idempotence of `ValidationLayer.validate` -/

def c9pd : Value := Value.vDict (VFields.ofRecord
  [("process_id", .vStr "PROC_001"), ("process_name", .vStr "P"),
   ("description", .vStr "D"), ("creation_date", .vInt 123)])

/-- C9 counterexample: `validate` is not idempotent.  A `process_definitions`
record whose `creation_date` holds the integer `123` is stringified to
`"123"` on the first pass (the conversion branch returns before the
`date-time` check runs), and on the second pass the string `"123"` — lacking
`'T'` and `':'` — is replaced by the sentinel timestamp, so the second output
differs from the first. -/
theorem C9_counterexample :
    validate "process_definitions" (validate "process_definitions" [c9pd] none) none ≠
      validate "process_definitions" [c9pd] none := by decide

theorem dtCheck_sentinel (fmt : Option String) :
    dtCheck fmt (.vStr dtSentinel) = .vStr dtSentinel := by
  show (if fmt = some "date-time" ∧
        ¬(strHasChar dtSentinel 'T' = true ∧ strHasChar dtSentinel ':' = true)
      then Value.vStr dtSentinel else Value.vStr dtSentinel) = Value.vStr dtSentinel
  split <;> rfl

theorem dtCheck_char (fmt : Option String) (v : Value) :
    dtCheck fmt v = v ∨ dtCheck fmt v = .vStr dtSentinel := by
  cases v with
  | vStr s =>
      by_cases hc : fmt = some "date-time" ∧
          ¬(strHasChar s 'T' = true ∧ strHasChar s ':' = true)
      · right
        show (if fmt = some "date-time" ∧
              ¬(strHasChar s 'T' = true ∧ strHasChar s ':' = true)
            then Value.vStr dtSentinel else Value.vStr s) = Value.vStr dtSentinel
        rw [if_pos hc]
      · left
        show (if fmt = some "date-time" ∧
              ¬(strHasChar s 'T' = true ∧ strHasChar s ':' = true)
            then Value.vStr dtSentinel else Value.vStr s) = Value.vStr s
        rw [if_neg hc]
  | vInt n => left; rfl
  | vFloat q => left; rfl
  | vBool b => left; rfl
  | vNull => left; rfl
  | vList xs => left; rfl
  | vDict fs => left; rfl

theorem dtCheck_not_dt (fmt : Option String) (v : Value) (h : fmt ≠ some "date-time") :
    dtCheck fmt v = v := by
  cases v with
  | vStr s =>
      show (if fmt = some "date-time" ∧
            ¬(strHasChar s 'T' = true ∧ strHasChar s ':' = true)
          then Value.vStr dtSentinel else Value.vStr s) = Value.vStr s
      rw [if_neg (fun hc => h hc.1)]
  | vInt n => rfl
  | vFloat q => rfl
  | vBool b => rfl
  | vNull => rfl
  | vList xs => rfl
  | vDict fs => rfl

theorem dtCheck_dtCheck (fmt : Option String) (v : Value) :
    dtCheck fmt (dtCheck fmt v) = dtCheck fmt v := by
  rcases dtCheck_char fmt v with h | h
  · rw [h]
    exact h
  · rw [h]
    exact dtCheck_sentinel fmt

theorem validateTypeSingle_idem (v : Value) (t : String) (fmt : Option String)
    (h : fmt = some "date-time" → ∃ s, v = Value.vStr s) :
    validateTypeSingle (validateTypeSingle v t fmt) t fmt = validateTypeSingle v t fmt := by
  by_cases hs : t = "string"
  · subst hs
    cases v with
    | vStr s =>
        rcases dtCheck_char fmt (.vStr s) with h1 | h1
        · show validateTypeSingle (dtCheck fmt (.vStr s)) "string" fmt = dtCheck fmt (.vStr s)
          rw [h1]
          show dtCheck fmt (.vStr s) = .vStr s
          exact h1
        · show validateTypeSingle (dtCheck fmt (.vStr s)) "string" fmt = dtCheck fmt (.vStr s)
          rw [h1]
          show dtCheck fmt (.vStr dtSentinel) = .vStr dtSentinel
          exact dtCheck_sentinel fmt
    | vInt n =>
        by_cases hf : fmt = some "date-time"
        · obtain ⟨s2, hs2⟩ := h hf
          cases hs2
        · show dtCheck fmt (.vStr (pyStr (Value.vInt n))) = .vStr (pyStr (Value.vInt n))
          exact dtCheck_not_dt fmt _ hf
    | vFloat q =>
        by_cases hf : fmt = some "date-time"
        · obtain ⟨s2, hs2⟩ := h hf
          cases hs2
        · show dtCheck fmt (.vStr (pyStr (Value.vFloat q))) = .vStr (pyStr (Value.vFloat q))
          exact dtCheck_not_dt fmt _ hf
    | vBool b =>
        by_cases hf : fmt = some "date-time"
        · obtain ⟨s2, hs2⟩ := h hf
          cases hs2
        · show dtCheck fmt (.vStr (pyStr (Value.vBool b))) = .vStr (pyStr (Value.vBool b))
          exact dtCheck_not_dt fmt _ hf
    | vNull =>
        by_cases hf : fmt = some "date-time"
        · obtain ⟨s2, hs2⟩ := h hf
          cases hs2
        · show dtCheck fmt (.vStr (pyStr Value.vNull)) = .vStr (pyStr Value.vNull)
          exact dtCheck_not_dt fmt _ hf
    | vList xs =>
        by_cases hf : fmt = some "date-time"
        · obtain ⟨s2, hs2⟩ := h hf
          cases hs2
        · show dtCheck fmt (.vStr (pyStr (Value.vList xs))) = .vStr (pyStr (Value.vList xs))
          exact dtCheck_not_dt fmt _ hf
    | vDict fs =>
        by_cases hf : fmt = some "date-time"
        · obtain ⟨s2, hs2⟩ := h hf
          cases hs2
        · show dtCheck fmt (.vStr (pyStr (Value.vDict fs))) = .vStr (pyStr (Value.vDict fs))
          exact dtCheck_not_dt fmt _ hf
  by_cases hn : t = "number"
  · subst hn
    cases v with
    | vStr s =>
        show validateTypeSingle (match pyToFloat (Value.vStr s) with
          | some q => Value.vFloat q
          | none => Value.vInt 0) "number" fmt
          = (match pyToFloat (Value.vStr s) with
          | some q => Value.vFloat q
          | none => Value.vInt 0)
        cases pyToFloat (Value.vStr s) <;> rfl
    | vInt n => rfl
    | vFloat q => rfl
    | vBool b => rfl
    | vNull => rfl
    | vList xs => rfl
    | vDict fs => rfl
  by_cases hi : t = "integer"
  · subst hi
    cases v with
    | vStr s =>
        show validateTypeSingle (match pyToInt (Value.vStr s) with
          | some m => Value.vInt m
          | none => Value.vInt 0) "integer" fmt
          = (match pyToInt (Value.vStr s) with
          | some m => Value.vInt m
          | none => Value.vInt 0)
        cases pyToInt (Value.vStr s) <;> rfl
    | vInt n => rfl
    | vFloat q => rfl
    | vBool b => rfl
    | vNull => rfl
    | vList xs => rfl
    | vDict fs => rfl
  by_cases hb : t = "boolean"
  · subst hb
    cases v <;> rfl
  by_cases hnul : t = "null"
  · subst hnul
    rfl
  unfold validateTypeSingle
  simp only [if_neg hs, if_neg hn, if_neg hi, if_neg hb, if_neg hnul]
  exact dtCheck_dtCheck fmt v

theorem validateTypeSingle_ne_null (v : Value) (t : String) (fmt : Option String)
    (hv : v ≠ Value.vNull) (ht : t ≠ "null") :
    validateTypeSingle v t fmt ≠ Value.vNull := by
  by_cases hs : t = "string"
  · subst hs
    cases v with
    | vStr s =>
        show dtCheck fmt (.vStr s) ≠ Value.vNull
        rcases dtCheck_char fmt (.vStr s) with h | h <;> rw [h] <;> simp
    | vInt n => show Value.vStr (pyStr (Value.vInt n)) ≠ Value.vNull; simp
    | vFloat q => show Value.vStr (pyStr (Value.vFloat q)) ≠ Value.vNull; simp
    | vBool b => show Value.vStr (pyStr (Value.vBool b)) ≠ Value.vNull; simp
    | vNull => exact absurd rfl hv
    | vList xs => show Value.vStr (pyStr (Value.vList xs)) ≠ Value.vNull; simp
    | vDict fs => show Value.vStr (pyStr (Value.vDict fs)) ≠ Value.vNull; simp
  by_cases hn : t = "number"
  · subst hn
    cases v with
    | vStr s =>
        show (match pyToFloat (Value.vStr s) with
          | some q => Value.vFloat q
          | none => Value.vInt 0) ≠ Value.vNull
        cases pyToFloat (Value.vStr s) <;> simp
    | vInt n => show Value.vInt n ≠ Value.vNull; simp
    | vFloat q => show Value.vFloat q ≠ Value.vNull; simp
    | vBool b => show Value.vBool b ≠ Value.vNull; simp
    | vNull => exact absurd rfl hv
    | vList xs => show Value.vInt 0 ≠ Value.vNull; simp
    | vDict fs => show Value.vInt 0 ≠ Value.vNull; simp
  by_cases hi : t = "integer"
  · subst hi
    cases v with
    | vStr s =>
        show (match pyToInt (Value.vStr s) with
          | some m => Value.vInt m
          | none => Value.vInt 0) ≠ Value.vNull
        cases pyToInt (Value.vStr s) <;> simp
    | vInt n => show Value.vInt n ≠ Value.vNull; simp
    | vFloat q => show Value.vInt (ratTrunc q) ≠ Value.vNull; simp
    | vBool b => show Value.vBool b ≠ Value.vNull; simp
    | vNull => exact absurd rfl hv
    | vList xs => show Value.vInt 0 ≠ Value.vNull; simp
    | vDict fs => show Value.vInt 0 ≠ Value.vNull; simp
  by_cases hb : t = "boolean"
  · subst hb
    cases v with
    | vStr s =>
        show Value.vBool (lowerStr s == "true" || lowerStr s == "yes" || lowerStr s == "1")
          ≠ Value.vNull
        simp
    | vInt n => show Value.vBool (truthy (Value.vInt n)) ≠ Value.vNull; simp
    | vFloat q => show Value.vBool (truthy (Value.vFloat q)) ≠ Value.vNull; simp
    | vBool b => show Value.vBool b ≠ Value.vNull; simp
    | vNull => exact absurd rfl hv
    | vList xs => show Value.vBool (truthy (Value.vList xs)) ≠ Value.vNull; simp
    | vDict fs => show Value.vBool (truthy (Value.vDict fs)) ≠ Value.vNull; simp
  by_cases hnul : t = "null"
  · exact absurd hnul ht
  unfold validateTypeSingle
  simp only [if_neg hs, if_neg hn, if_neg hi, if_neg hb, if_neg hnul]
  rcases dtCheck_char fmt v with h | h <;> rw [h]
  · exact hv
  · simp

theorem validateTypeList_ne_null (v : Value) (ts : List String) (fmt : Option String)
    (hv : v ≠ Value.vNull) : validateTypeList v ts fmt ≠ Value.vNull := by
  induction ts with
  | nil => exact hv
  | cons t rest ih =>
      show (if t = "null" ∧ v ≠ Value.vNull then validateTypeList v rest fmt
        else validateTypeSingle v t fmt) ≠ Value.vNull
      by_cases hc : t = "null" ∧ v ≠ Value.vNull
      · rw [if_pos hc]
        exact ih
      · rw [if_neg hc]
        have ht : t ≠ "null" := fun hteq => hc ⟨hteq, hv⟩
        exact validateTypeSingle_ne_null v t fmt hv ht

theorem validateTypeList_idem (v : Value) (ts : List String) (fmt : Option String)
    (h : fmt = some "date-time" → ∃ s, v = Value.vStr s) :
    validateTypeList (validateTypeList v ts fmt) ts fmt = validateTypeList v ts fmt := by
  induction ts with
  | nil => rfl
  | cons t rest ih =>
      by_cases hc : t = "null" ∧ v ≠ Value.vNull
      · have h1 : validateTypeList v (t :: rest) fmt = validateTypeList v rest fmt := by
          show (if t = "null" ∧ v ≠ Value.vNull then validateTypeList v rest fmt
            else validateTypeSingle v t fmt) = _
          rw [if_pos hc]
        rw [h1]
        have hne : validateTypeList v rest fmt ≠ Value.vNull :=
          validateTypeList_ne_null v rest fmt hc.2
        have h2 : validateTypeList (validateTypeList v rest fmt) (t :: rest) fmt
            = validateTypeList (validateTypeList v rest fmt) rest fmt := by
          show (if t = "null" ∧ validateTypeList v rest fmt ≠ Value.vNull
            then validateTypeList (validateTypeList v rest fmt) rest fmt
            else validateTypeSingle (validateTypeList v rest fmt) t fmt) = _
          rw [if_pos ⟨hc.1, hne⟩]
        rw [h2]
        exact ih
      · have h1 : validateTypeList v (t :: rest) fmt = validateTypeSingle v t fmt := by
          show (if t = "null" ∧ v ≠ Value.vNull then validateTypeList v rest fmt
            else validateTypeSingle v t fmt) = _
          rw [if_neg hc]
        rw [h1]
        by_cases ht : t = "null"
        · have hv : v = Value.vNull := by
            by_contra hvc
            exact hc ⟨ht, hvc⟩
          subst ht
          subst hv
          show (if ("null" : String) = "null" ∧ Value.vNull ≠ Value.vNull
            then validateTypeList Value.vNull rest fmt
            else validateTypeSingle Value.vNull "null" fmt) = Value.vNull
          rw [if_neg (fun hcc => hcc.2 rfl)]
          rfl
        · have h2 : validateTypeList (validateTypeSingle v t fmt) (t :: rest) fmt
              = validateTypeSingle (validateTypeSingle v t fmt) t fmt := by
            show (if t = "null" ∧ validateTypeSingle v t fmt ≠ Value.vNull
              then validateTypeList (validateTypeSingle v t fmt) rest fmt
              else validateTypeSingle (validateTypeSingle v t fmt) t fmt) = _
            rw [if_neg (fun hcc => ht hcc.1)]
          rw [h2]
          exact validateTypeSingle_idem v t fmt h

theorem validateType_idem (v : Value) (ty : SchemaTy) (fmt : Option String)
    (h : fmt = some "date-time" → ∃ s, v = Value.vStr s) :
    validateType (validateType v ty fmt) ty fmt = validateType v ty fmt := by
  cases ty with
  | single t => exact validateTypeSingle_idem v t fmt h
  | options ts => exact validateTypeList_idem v ts fmt h

theorem coerceField_idem (fs : FieldSchema) (v : Value)
    (h : fs.format? = some "date-time" → ∃ s, v = Value.vStr s) :
    coerceField fs (coerceField fs v) = coerceField fs v := by
  unfold coerceField
  cases ht : fs.type? with
  | none => rfl
  | some ty => exact validateType_idem v ty fs.format? h

theorem missingReq_false_of_ok (schema : Schema) (hnd : (schema.map Prod.fst).Nodup) (d : Record)
    (hok : (applySchema schema d).2 = true) : missingReq schema d = false := by
  rw [applySchema_ok schema hnd d] at hok
  cases hmr : missingReq schema d
  · rfl
  · rw [hmr] at hok
    cases hok

theorem required_false_of_ok (schema : Schema) (hnd : (schema.map Prod.fst).Nodup) (d : Record)
    (hok : (applySchema schema d).2 = true) (f : String) (fs : FieldSchema)
    (hmem : (f, fs) ∈ schema) (habs : rget d f = none) (hdef : fs.default? = none) :
    fs.required = false := by
  have hmr := missingReq_false_of_ok schema hnd d hok
  unfold missingReq at hmr
  rw [List.any_eq_false] at hmr
  have hthis := hmr (f, fs) hmem
  simp [rhas, habs, hdef] at hthis
  exact hthis

theorem rget_some_of_ok (schema : Schema) (hnd : (schema.map Prod.fst).Nodup) (d : Record)
    (hok : (applySchema schema d).2 = true) (f : String) (fs : FieldSchema)
    (hmem : (f, fs) ∈ schema) (hreq : fs.required = true) (hdef : fs.default? = none) :
    ∃ v, rget d f = some v := by
  cases hr : rget d f with
  | some v => exact ⟨v, rfl⟩
  | none =>
      have hfalse := required_false_of_ok schema hnd d hok f fs hmem hr hdef
      rw [hfalse] at hreq
      cases hreq

theorem applySchema_idem_of_fix (schema : Schema) (r : Record)
    (hfix : ∀ p ∈ schema,
      (rget r p.1 = none → p.2.default? = none ∧ p.2.required = false) ∧
      (∀ v, rget r p.1 = some v → coerceField p.2 v = v)) :
    applySchema schema r = (r, true) := by
  induction schema with
  | nil => rfl
  | cons p tl ih =>
      obtain ⟨f, fs⟩ := p
      have hp := hfix (f, fs) (List.mem_cons_self _ _)
      dsimp only at hp
      have hq : applyField r f fs = (r, true) := by
        rw [applyField_eq]
        cases hr : rget r f with
        | none =>
            obtain ⟨hd, hreq⟩ := hp.1 hr
            simp [hd, hreq]
        | some v =>
            show (rset r f (coerceField fs v), true) = (r, true)
            rw [hp.2 v hr, rset_eq_of_rget r f v hr]
      show ((applySchema tl (applyField r f fs).1).1,
        (applyField r f fs).2 && (applySchema tl (applyField r f fs).1).2) = (r, true)
      rw [hq]
      show ((applySchema tl r).1, true && (applySchema tl r).2) = (r, true)
      rw [ih (fun q hq2 => hfix q (List.mem_cons_of_mem _ hq2))]
      rfl

theorem coerce_fReq_string_vstr (s : String) :
    coerceField (fReq "string") (.vStr s) = .vStr s := rfl

theorem coerce_fReq_string_any (v0 : Value) :
    ∃ s, coerceField (fReq "string") v0 = .vStr s := by
  cases v0 with
  | vStr s => exact ⟨s, rfl⟩
  | vInt n => exact ⟨_, rfl⟩
  | vFloat q => exact ⟨_, rfl⟩
  | vBool b => exact ⟨_, rfl⟩
  | vNull => exact ⟨_, rfl⟩
  | vList xs => exact ⟨_, rfl⟩
  | vDict fs => exact ⟨_, rfl⟩

theorem pd_pid_field : ∀ p ∈ processDefinitionsSchema, p.1 = "process_id" →
    p.2 = fReq "string" := by decide

theorem fixProcessId_pd_keep (r0 : Record) (s : String)
    (h : rget r0 "process_id" = some (.vStr s)) (hsw : strStartsWith s "PROC_" = true) :
    fixProcessId "process_definitions" r0 = r0 := by
  unfold fixProcessId
  rw [if_pos rfl, h]
  show (if strStartsWith s "PROC_" = true then r0
    else rset r0 "process_id" (.vStr ("PROC_" ++ lastN 3 s))) = r0
  rw [if_pos hsw]

theorem fixProcessId_pd_fix (r0 : Record) (s : String)
    (h : rget r0 "process_id" = some (.vStr s)) (hsw : ¬strStartsWith s "PROC_" = true) :
    fixProcessId "process_definitions" r0
      = rset r0 "process_id" (.vStr ("PROC_" ++ lastN 3 s)) := by
  unfold fixProcessId
  rw [if_pos rfl, h]
  show (if strStartsWith s "PROC_" = true then r0
    else rset r0 "process_id" (.vStr ("PROC_" ++ lastN 3 s)))
    = rset r0 "process_id" (.vStr ("PROC_" ++ lastN 3 s))
  rw [if_neg hsw]

theorem processItem_of_fix (level : String) (schema : Schema) (r : Record)
    (happ : applySchema schema r = (r, true))
    (hfid : fixProcessId level r = r) :
    processItem level schema (Value.vDict (VFields.ofRecord r)) = some r := by
  show (if (applySchema schema (VFields.ofRecord r).toRecord).2 = true
    then some (fixProcessId level (applySchema schema (VFields.ofRecord r).toRecord).1)
    else none) = some r
  rw [VFields.toRecord_ofRecord, happ]
  show some (fixProcessId level r) = some r
  rw [hfid]

theorem validate_out_fix (level : String) (schema : Schema)
    (hs : getSchema level = some schema)
    (hdef : ∀ p ∈ schema, ∀ d0, p.2.default? = some d0 → coerceField p.2 d0 = d0)
    (data : List Value) (ctx : Option Record) (v : Value) (hv : v ∈ validate level data ctx)
    (hdtd : ∀ it ∈ ensureIds level (enrich level data ctx) ctx, ∀ fs, it = Value.vDict fs →
      ∀ p ∈ schema, p.2.format? = some "date-time" →
      ∀ w, rget fs.toRecord p.1 = some w → ∃ s, w = Value.vStr s) :
    ∃ r, processItem level schema v = some r ∧ v = Value.vDict (VFields.ofRecord r) := by
  obtain ⟨it, hit, r, hpi, hveq⟩ := mem_validate level schema data ctx v hs hv
  obtain ⟨fs0, hfs0, hok, hr⟩ := processItem_eq_some level schema it r hpi
  have hnd := getSchema_nodup level schema hs
  have hchar : ∀ (f : String) (fsc : FieldSchema), (f, fsc) ∈ schema →
      rget (applySchema schema fs0.toRecord).1 f
        = (match rget fs0.toRecord f with
           | some w => some (coerceField fsc w)
           | none => fsc.default?) :=
    fun f fsc hm => applySchema_rget_mem schema hnd _ f fsc hm
  have hfix0 : ∀ p ∈ schema,
      (rget (applySchema schema fs0.toRecord).1 p.1 = none →
        p.2.default? = none ∧ p.2.required = false) ∧
      (∀ w, rget (applySchema schema fs0.toRecord).1 p.1 = some w →
        coerceField p.2 w = w) := by
    intro p hm
    have hc := hchar p.1 p.2 hm
    constructor
    · intro hnone
      rw [hc] at hnone
      cases hd : rget fs0.toRecord p.1 with
      | some w0 => rw [hd] at hnone; cases hnone
      | none =>
          rw [hd] at hnone
          refine ⟨hnone, ?_⟩
          exact required_false_of_ok schema hnd _ hok p.1 p.2 hm hd hnone
    · intro w hw
      rw [hc] at hw
      cases hd : rget fs0.toRecord p.1 with
      | some w0 =>
          rw [hd] at hw
          injection hw with hw2
          rw [← hw2]
          exact coerceField_idem p.2 w0
            (fun hfmt => hdtd it hit fs0 hfs0 p hm hfmt w0 hd)
      | none =>
          rw [hd] at hw
          exact hdef p hm w hw
  obtain ⟨r0, hr0eq⟩ : ∃ r0, (applySchema schema fs0.toRecord).1 = r0 := ⟨_, rfl⟩
  rw [hr0eq] at hchar hfix0 hr
  by_cases hlev : level = "process_definitions"
  · subst hlev
    have hschema : schema = processDefinitionsSchema := by
      have h2 : some processDefinitionsSchema = some schema := hs
      injection h2 with h3
      exact h3.symm
    subst hschema
    have hpmem : ("process_id", fReq "string") ∈ processDefinitionsSchema := by decide
    obtain ⟨v0, hv0⟩ := rget_some_of_ok _ hnd _ hok "process_id" (fReq "string") hpmem rfl rfl
    obtain ⟨spid, hspid⟩ := coerce_fReq_string_any v0
    have hr0pid : rget r0 "process_id" = some (.vStr spid) := by
      rw [hchar "process_id" (fReq "string") hpmem, hv0]
      show some (coerceField (fReq "string") v0) = some (.vStr spid)
      rw [hspid]
    have hpair : (∀ f, f ≠ "process_id" → rget r f = rget r0 f) ∧
        ∃ s2, rget r "process_id" = some (Value.vStr s2) ∧ strStartsWith s2 "PROC_" = true := by
      by_cases hsw : strStartsWith spid "PROC_" = true
      · have hrr : r = r0 := by
          rw [hr, fixProcessId_pd_keep r0 spid hr0pid hsw]
        refine ⟨fun f hf => by rw [hrr], ⟨spid, ?_, hsw⟩⟩
        rw [hrr]
        exact hr0pid
      · have hrr : r = rset r0 "process_id" (.vStr ("PROC_" ++ lastN 3 spid)) := by
          rw [hr, fixProcessId_pd_fix r0 spid hr0pid hsw]
        refine ⟨fun f hf => by
            rw [hrr]
            exact rget_rset_ne _ _ _ _ (fun hc => hf hc.symm),
          ⟨"PROC_" ++ lastN 3 spid, ?_, strStartsWith_append _ _⟩⟩
        rw [hrr]
        exact rget_rset_self _ _ _
    obtain ⟨hother, s2, hpid2, hsw2⟩ := hpair
    have hfixr : ∀ p ∈ processDefinitionsSchema,
        (rget r p.1 = none → p.2.default? = none ∧ p.2.required = false) ∧
        (∀ w, rget r p.1 = some w → coerceField p.2 w = w) := by
      intro p hm
      by_cases hp : p.1 = "process_id"
      · constructor
        · intro hnone
          rw [hp, hpid2] at hnone
          cases hnone
        · intro w hw
          rw [hp, hpid2] at hw
          injection hw with hw2
          rw [← hw2, pd_pid_field p hm hp]
          exact coerce_fReq_string_vstr s2
      · have heq := hother p.1 hp
        rw [heq]
        exact hfix0 p hm
    have happ : applySchema processDefinitionsSchema r = (r, true) :=
      applySchema_idem_of_fix _ _ hfixr
    have hfid2 : fixProcessId "process_definitions" r = r :=
      fixProcessId_pd_keep r s2 hpid2 hsw2
    refine ⟨r, ?_, hveq⟩
    rw [hveq]
    exact processItem_of_fix _ _ _ happ hfid2
  · have hrr : r = r0 := by
      rw [hr, fixProcessId_ne _ _ hlev]
    have hfixr : ∀ p ∈ schema,
        (rget r p.1 = none → p.2.default? = none ∧ p.2.required = false) ∧
        (∀ w, rget r p.1 = some w → coerceField p.2 w = w) := by
      rw [hrr]
      exact hfix0
    have happ : applySchema schema r = (r, true) := applySchema_idem_of_fix _ _ hfixr
    refine ⟨r, ?_, hveq⟩
    rw [hveq]
    exact processItem_of_fix _ _ _ happ (by rw [fixProcessId_ne _ _ hlev])

theorem mem_enumFrom_snd {α : Type} (l : List α) : ∀ (n : Nat) (p : Nat × α),
    p ∈ List.enumFrom n l → p.2 ∈ l := by
  induction l with
  | nil => intro n p h; cases h
  | cons a tl ih =>
      intro n p h
      rcases List.mem_cons.mp h with h1 | h1
      · rw [h1]
        exact List.mem_cons_self _ _
      · exact List.mem_cons_of_mem _ (ih _ _ h1)

theorem mem_enum_snd {α : Type} (l : List α) (p : Nat × α) (h : p ∈ l.enum) : p.2 ∈ l :=
  mem_enumFrom_snd l 0 p h

theorem enum_map_self {α : Type} (l : List α) (f : Nat × α → α)
    (h : ∀ p ∈ l.enum, f p = p.2) : l.enum.map f = l :=
  (List.map_congr_left h).trans (List.enum_map_snd l)

theorem fixIdWith_rget_ne (pfx : String) (i : Nat) (d : Record) (k k2 : String) (h : k ≠ k2) :
    rget (fixIdWith pfx i d k) k2 = rget d k2 := by
  unfold fixIdWith
  cases keepableId (rget d k) with
  | none => exact rget_rset_ne _ _ _ _ h
  | some s =>
      show rget (if strStartsWith s pfx = true then d
        else rset d k (.vStr (pfx ++ lastN 3 s))) k2 = rget d k2
      split
      · rfl
      · exact rget_rset_ne _ _ _ _ h

theorem keepableId_some_of_ne (s : String) (h : s ≠ "") :
    keepableId (some (.vStr s)) = some s := by
  show (if s = "" then (none : Option String) else some s) = some s
  rw [if_neg h]

theorem fixIdWith_keep (pfx : String) (i : Nat) (d : Record) (k : String) (s : String)
    (hk : rget d k = some (.vStr s)) (hne : s ≠ "") (hsw : strStartsWith s pfx = true) :
    fixIdWith pfx i d k = d := by
  unfold fixIdWith
  rw [hk, keepableId_some_of_ne s hne]
  show (if strStartsWith s pfx = true then d else rset d k (.vStr (pfx ++ lastN 3 s))) = d
  rw [if_pos hsw]

theorem missingOrFalsey_eq_false (d : Record) (k : String) (v : Value)
    (h : rget d k = some v) (ht : truthy v = true) : missingOrFalsey d k = false := by
  unfold missingOrFalsey
  rw [h]
  show (!truthy v) = false
  rw [ht]
  rfl

theorem missingOrFalsey_false_elim (d : Record) (k : String)
    (h : missingOrFalsey d k = false) : ∃ v, rget d k = some v ∧ truthy v = true := by
  unfold missingOrFalsey at h
  cases hr : rget d k with
  | none =>
      rw [hr] at h
      have h2 : true = false := h
      cases h2
  | some v =>
      rw [hr] at h
      have h2 : (!truthy v) = false := h
      refine ⟨v, rfl, ?_⟩
      cases htv : truthy v
      · rw [htv] at h2
        cases h2
      · rfl

theorem backfillKey_missingOrFalsey (k : String) (pv : Value) (ht : truthy pv = true)
    (l : List Value) (it : Value) (h : it ∈ backfillKey k pv l) (fs : VFields)
    (hfs : it = Value.vDict fs) : missingOrFalsey fs.toRecord k = false := by
  unfold backfillKey at h
  obtain ⟨x, hx, he⟩ := List.mem_map.mp h
  cases hv : x with
  | vDict fs1 =>
      rw [hv] at he
      have he2 : (if missingOrFalsey fs1.toRecord k = true
          then Value.vDict (VFields.ofRecord (rset fs1.toRecord k pv))
          else Value.vDict fs1) = it := he
      by_cases hm : missingOrFalsey fs1.toRecord k = true
      · rw [if_pos hm] at he2
        rw [hfs] at he2
        injection he2 with he3
        rw [← he3, VFields.toRecord_ofRecord]
        exact missingOrFalsey_eq_false _ _ pv (rget_rset_self _ _ _) ht
      · rw [if_neg hm] at he2
        rw [hfs] at he2
        injection he2 with he3
        rw [← he3]
        exact Bool.eq_false_iff.mpr hm
  | vStr s =>
      rw [hv] at he
      have he2 : Value.vStr s = it := he
      rw [hfs] at he2
      cases he2
  | vInt n =>
      rw [hv] at he
      have he2 : Value.vInt n = it := he
      rw [hfs] at he2
      cases he2
  | vFloat q =>
      rw [hv] at he
      have he2 : Value.vFloat q = it := he
      rw [hfs] at he2
      cases he2
  | vBool b =>
      rw [hv] at he
      have he2 : Value.vBool b = it := he
      rw [hfs] at he2
      cases he2
  | vNull =>
      rw [hv] at he
      have he2 : Value.vNull = it := he
      rw [hfs] at he2
      cases he2
  | vList xs =>
      rw [hv] at he
      have he2 : Value.vList xs = it := he
      rw [hfs] at he2
      cases he2

theorem missingOrFalsey_congr (d d2 : Record) (k : String) (h : rget d2 k = rget d k) :
    missingOrFalsey d2 k = missingOrFalsey d k := by
  unfold missingOrFalsey
  rw [h]

theorem fixIdMap_rget_other (pfx k k2 : String) (hne : k ≠ k2) (l : List Value) (it2 : Value)
    (h : it2 ∈ fixIdMap pfx k l) (fs : VFields) (hfs : it2 = .vDict fs) :
    ∃ fs1, Value.vDict fs1 ∈ l ∧ rget fs.toRecord k2 = rget fs1.toRecord k2 := by
  subst hfs
  unfold fixIdMap at h
  obtain ⟨p, hp2, he⟩ := List.mem_map.mp h
  cases hv : p.2 with
  | vDict fs1 =>
      rw [hv] at he
      have he2 : Value.vDict (VFields.ofRecord (fixIdWith pfx p.1 fs1.toRecord k))
          = Value.vDict fs := he
      refine ⟨fs1, ?_, ?_⟩
      · have hm := mem_enum_snd l p hp2
        rw [hv] at hm
        exact hm
      · injection he2 with he3
        rw [← he3, VFields.toRecord_ofRecord]
        exact fixIdWith_rget_ne pfx p.1 fs1.toRecord k k2 hne
  | vStr s => rw [hv] at he; exact Value.noConfusion he
  | vInt n => rw [hv] at he; exact Value.noConfusion he
  | vFloat q => rw [hv] at he; exact Value.noConfusion he
  | vBool b => rw [hv] at he; exact Value.noConfusion he
  | vNull => rw [hv] at he; exact Value.noConfusion he
  | vList xs => rw [hv] at he; exact Value.noConfusion he

theorem ensureElementIds_rget_other (k2 : String) (hne : k2 ≠ "element_id") (l : List Value)
    (it2 : Value) (h : it2 ∈ ensureElementIds l) (fs : VFields) (hfs : it2 = .vDict fs) :
    ∃ fs1, Value.vDict fs1 ∈ l ∧ rget fs.toRecord k2 = rget fs1.toRecord k2 := by
  subst hfs
  unfold ensureElementIds at h
  obtain ⟨p, hp2, he⟩ := List.mem_map.mp h
  cases hv : p.2 with
  | vDict fs1 =>
      rw [hv] at he
      have he2 : (match keepableId (rget fs1.toRecord "element_id") with
          | none => Value.vDict (VFields.ofRecord (rset fs1.toRecord "element_id"
              (.vStr (elementIdPfx fs1.toRecord ++ pad3 (p.1 + 1)))))
          | some _ => Value.vDict fs1) = Value.vDict fs := he
      have hmem : Value.vDict fs1 ∈ l := by
        have hm := mem_enum_snd l p hp2
        rw [hv] at hm
        exact hm
      cases hk : keepableId (rget fs1.toRecord "element_id") with
      | none =>
          rw [hk] at he2
          have he3 : Value.vDict (VFields.ofRecord (rset fs1.toRecord "element_id"
              (.vStr (elementIdPfx fs1.toRecord ++ pad3 (p.1 + 1))))) = Value.vDict fs := he2
          injection he3 with he4
          refine ⟨fs1, hmem, ?_⟩
          rw [← he4, VFields.toRecord_ofRecord]
          exact rget_rset_ne _ _ _ _ (fun hc => hne hc.symm)
      | some s =>
          rw [hk] at he2
          have he3 : Value.vDict fs1 = Value.vDict fs := he2
          injection he3 with he4
          refine ⟨fs1, hmem, ?_⟩
          rw [he4]
  | vStr s => rw [hv] at he; exact Value.noConfusion he
  | vInt n => rw [hv] at he; exact Value.noConfusion he
  | vFloat q => rw [hv] at he; exact Value.noConfusion he
  | vBool b => rw [hv] at he; exact Value.noConfusion he
  | vNull => rw [hv] at he; exact Value.noConfusion he
  | vList xs => rw [hv] at he; exact Value.noConfusion he

theorem ensureLaneIds_mem2 (l : List Value) (poolId? : Option Value) (it2 : Value)
    (h : it2 ∈ ensureLaneIds l poolId?) (fs : VFields) (hfs : it2 = .vDict fs) :
    (∀ pv, poolId? = some pv → truthy pv = true →
       missingOrFalsey fs.toRecord "pool_id" = false) ∧
    (∀ k2, k2 ≠ "lane_id" → k2 ≠ "pool_id" →
       ∃ fs1, Value.vDict fs1 ∈ l ∧ rget fs.toRecord k2 = rget fs1.toRecord k2) := by
  subst hfs
  cases poolId? with
  | none =>
      unfold ensureLaneIds at h
      obtain ⟨p, hp2, he⟩ := List.mem_map.mp h
      cases hv : p.2 with
      | vDict fs1 =>
          rw [hv] at he
          have he2 : Value.vDict (VFields.ofRecord
              (fixIdWith "LANE_" p.1 fs1.toRecord "lane_id")) = Value.vDict fs := he
          injection he2 with he3
          have hmem : Value.vDict fs1 ∈ l := by
            have hm := mem_enum_snd l p hp2
            rw [hv] at hm
            exact hm
          constructor
          · intro pv hpv
            cases hpv
          · intro k2 hk2a hk2b
            refine ⟨fs1, hmem, ?_⟩
            rw [← he3, VFields.toRecord_ofRecord]
            exact fixIdWith_rget_ne _ _ _ _ _ (fun hc => hk2a hc.symm)
      | vStr s => rw [hv] at he; exact Value.noConfusion he
      | vInt n => rw [hv] at he; exact Value.noConfusion he
      | vFloat q => rw [hv] at he; exact Value.noConfusion he
      | vBool b => rw [hv] at he; exact Value.noConfusion he
      | vNull => rw [hv] at he; exact Value.noConfusion he
      | vList xs => rw [hv] at he; exact Value.noConfusion he
  | some pv =>
      unfold ensureLaneIds at h
      obtain ⟨p, hp2, he⟩ := List.mem_map.mp h
      cases hv : p.2 with
      | vDict fs1 =>
          rw [hv] at he
          obtain ⟨d1, hd1⟩ : ∃ d1, fixIdWith "LANE_" p.1 fs1.toRecord "lane_id" = d1 :=
            ⟨_, rfl⟩
          have he2 : Value.vDict (VFields.ofRecord
              (if truthy pv = true ∧ missingOrFalsey d1 "pool_id" = true
               then rset d1 "pool_id" pv else d1)) = Value.vDict fs := by
            rw [← hd1]
            exact he
          have hmem : Value.vDict fs1 ∈ l := by
            have hm := mem_enum_snd l p hp2
            rw [hv] at hm
            exact hm
          have hd1tr : ∀ k2, k2 ≠ "lane_id" → rget d1 k2 = rget fs1.toRecord k2 := by
            intro k2 hk2
            rw [← hd1]
            exact fixIdWith_rget_ne _ _ _ _ _ (fun hc => hk2 hc.symm)
          by_cases hc : truthy pv = true ∧ missingOrFalsey d1 "pool_id" = true
          · rw [if_pos hc] at he2
            injection he2 with he3
            constructor
            · intro pv2 hpv2 ht2
              injection hpv2 with hpv3
              subst hpv3
              rw [← he3, VFields.toRecord_ofRecord]
              exact missingOrFalsey_eq_false _ _ pv (rget_rset_self _ _ _) ht2
            · intro k2 hk2a hk2b
              refine ⟨fs1, hmem, ?_⟩
              rw [← he3, VFields.toRecord_ofRecord,
                rget_rset_ne _ _ _ _ (fun hc2 => hk2b hc2.symm)]
              exact hd1tr k2 hk2a
          · rw [if_neg hc] at he2
            injection he2 with he3
            constructor
            · intro pv2 hpv2 ht2
              injection hpv2 with hpv3
              subst hpv3
              rw [← he3, VFields.toRecord_ofRecord]
              by_cases hm : missingOrFalsey d1 "pool_id" = true
              · exact absurd ⟨ht2, hm⟩ hc
              · exact Bool.eq_false_iff.mpr hm
            · intro k2 hk2a hk2b
              refine ⟨fs1, hmem, ?_⟩
              rw [← he3, VFields.toRecord_ofRecord]
              exact hd1tr k2 hk2a
      | vStr s => rw [hv] at he; exact Value.noConfusion he
      | vInt n => rw [hv] at he; exact Value.noConfusion he
      | vFloat q => rw [hv] at he; exact Value.noConfusion he
      | vBool b => rw [hv] at he; exact Value.noConfusion he
      | vNull => rw [hv] at he; exact Value.noConfusion he
      | vList xs => rw [hv] at he; exact Value.noConfusion he

theorem backstep_missing (d : Record) (k : String) (pv : Value) (ht : truthy pv = true) :
    missingOrFalsey (if truthy pv = true ∧ missingOrFalsey d k = true
      then rset d k pv else d) k = false := by
  by_cases hc : truthy pv = true ∧ missingOrFalsey d k = true
  · rw [if_pos hc]
    exact missingOrFalsey_eq_false _ _ pv (rget_rset_self _ _ _) ht
  · rw [if_neg hc]
    by_cases hm : missingOrFalsey d k = true
    · exact absurd ⟨ht, hm⟩ hc
    · exact Bool.eq_false_iff.mpr hm

theorem backstep_rget_ne (d : Record) (k : String) (pv : Value) (k2 : String) (h : k2 ≠ k) :
    rget (if truthy pv = true ∧ missingOrFalsey d k = true then rset d k pv else d) k2
      = rget d k2 := by
  split
  · exact rget_rset_ne _ _ _ _ (fun hc => h hc.symm)
  · rfl

theorem lanesEnrich_mem (c : Record) (data : List Value) (it2 : Value)
    (h : it2 ∈ lanesEnrich c data) (fs : VFields) (hfs : it2 = .vDict fs) :
    (∀ pv, poolIdFromCtx c = some pv → truthy pv = true →
       missingOrFalsey fs.toRecord "pool_id" = false) ∧
    (∀ pv, procIdFromDefsListOnly c = some pv → truthy pv = true →
       missingOrFalsey fs.toRecord "process_id" = false) ∧
    (∀ k2, k2 ≠ "pool_id" → k2 ≠ "process_id" →
       ∃ fs1, Value.vDict fs1 ∈ data ∧ rget fs.toRecord k2 = rget fs1.toRecord k2) := by
  subst hfs
  unfold lanesEnrich at h
  cases hpid : poolIdFromCtx c with
  | none =>
      rw [hpid] at h
      cases hprid : procIdFromDefsListOnly c with
      | none =>
          rw [hprid] at h
          obtain ⟨x, hx, he⟩ := List.mem_map.mp h
          cases hv : x
          case vDict fs1 =>
            rw [hv] at he
            have he2 : Value.vDict (VFields.ofRecord fs1.toRecord) = Value.vDict fs := he
            injection he2 with he3
            refine ⟨?_, ?_, ?_⟩
            · intro pv hpv
              cases hpv
            · intro pv hpv
              cases hpv
            · intro k2 h1 h2
              refine ⟨fs1, hv ▸ hx, ?_⟩
              rw [← he3, VFields.toRecord_ofRecord]
          all_goals (rw [hv] at he; exact Value.noConfusion he)
      | some pv2 =>
          rw [hprid] at h
          obtain ⟨x, hx, he⟩ := List.mem_map.mp h
          cases hv : x
          case vDict fs1 =>
            rw [hv] at he
            have he2 : Value.vDict (VFields.ofRecord
                (if truthy pv2 = true ∧ missingOrFalsey fs1.toRecord "process_id" = true
                 then rset fs1.toRecord "process_id" pv2 else fs1.toRecord))
                = Value.vDict fs := he
            injection he2 with he3
            refine ⟨?_, ?_, ?_⟩
            · intro pv hpv
              cases hpv
            · intro pv hpv ht
              injection hpv with hpv2
              subst hpv2
              rw [← he3, VFields.toRecord_ofRecord]
              exact backstep_missing _ _ _ ht
            · intro k2 h1 h2
              refine ⟨fs1, hv ▸ hx, ?_⟩
              rw [← he3, VFields.toRecord_ofRecord]
              exact backstep_rget_ne _ _ _ _ h2
          all_goals (rw [hv] at he; exact Value.noConfusion he)
  | some pv =>
      rw [hpid] at h
      cases hprid : procIdFromDefsListOnly c with
      | none =>
          rw [hprid] at h
          obtain ⟨x, hx, he⟩ := List.mem_map.mp h
          cases hv : x
          case vDict fs1 =>
            rw [hv] at he
            have he2 : Value.vDict (VFields.ofRecord
                (if truthy pv = true ∧ missingOrFalsey fs1.toRecord "pool_id" = true
                 then rset fs1.toRecord "pool_id" pv else fs1.toRecord))
                = Value.vDict fs := he
            injection he2 with he3
            refine ⟨?_, ?_, ?_⟩
            · intro pv2 hpv2 ht
              injection hpv2 with hpv3
              subst hpv3
              rw [← he3, VFields.toRecord_ofRecord]
              exact backstep_missing _ _ _ ht
            · intro pv2 hpv2
              cases hpv2
            · intro k2 h1 h2
              refine ⟨fs1, hv ▸ hx, ?_⟩
              rw [← he3, VFields.toRecord_ofRecord]
              exact backstep_rget_ne _ _ _ _ h1
          all_goals (rw [hv] at he; exact Value.noConfusion he)
      | some pv2 =>
          rw [hprid] at h
          obtain ⟨x, hx, he⟩ := List.mem_map.mp h
          cases hv : x
          case vDict fs1 =>
            rw [hv] at he
            obtain ⟨dd, hdd⟩ : ∃ dd,
                (if truthy pv = true ∧ missingOrFalsey fs1.toRecord "pool_id" = true
                 then rset fs1.toRecord "pool_id" pv else fs1.toRecord) = dd := ⟨_, rfl⟩
            have he2 : Value.vDict (VFields.ofRecord
                (if truthy pv2 = true ∧ missingOrFalsey dd "process_id" = true
                 then rset dd "process_id" pv2 else dd)) = Value.vDict fs := by
              rw [← hdd]
              exact he
            injection he2 with he3
            have hddpool : truthy pv = true → missingOrFalsey dd "pool_id" = false := by
              intro ht
              rw [← hdd]
              exact backstep_missing _ _ _ ht
            have hddtr : ∀ k2, k2 ≠ "pool_id" → rget dd k2 = rget fs1.toRecord k2 := by
              intro k2 hk2
              rw [← hdd]
              exact backstep_rget_ne _ _ _ _ hk2
            refine ⟨?_, ?_, ?_⟩
            · intro pv3 hpv3 ht
              injection hpv3 with hpv4
              subst hpv4
              rw [← he3, VFields.toRecord_ofRecord,
                missingOrFalsey_congr dd _ "pool_id" (backstep_rget_ne _ _ _ _ (by decide))]
              exact hddpool ht
            · intro pv3 hpv3 ht
              injection hpv3 with hpv4
              subst hpv4
              rw [← he3, VFields.toRecord_ofRecord]
              exact backstep_missing _ _ _ ht
            · intro k2 h1 h2
              refine ⟨fs1, hv ▸ hx, ?_⟩
              rw [← he3, VFields.toRecord_ofRecord, backstep_rget_ne _ _ _ _ h2]
              exact hddtr k2 h1
          all_goals (rw [hv] at he; exact Value.noConfusion he)

theorem enrich_other (level : String) (data : List Value) (ctx : Option Record)
    (h1 : level ≠ "sequence_flows") (h2 : level ≠ "bpmn_elements")
    (h3 : level ≠ "pools") (h4 : level ≠ "lanes") :
    enrich level data ctx = data := by
  unfold enrich
  repeat' split
  all_goals first
    | rfl
    | (rename_i hcond
       first
        | exact absurd hcond.1 h1
        | exact absurd hcond.1 h2
        | exact absurd hcond.1 h3
        | exact absurd hcond h4)

theorem ensureIds_other (level : String) (data : List Value) (ctx : Option Record)
    (h1 : level ≠ "sequence_flows") (h2 : level ≠ "bpmn_elements")
    (h3 : level ≠ "pools") (h4 : level ≠ "lanes") :
    ensureIds level data ctx = data := by
  unfold ensureIds
  rw [if_neg h1, if_neg h2, if_neg h3, if_neg h4]

theorem enrich_flows_eq (data : List Value) (c : Record) (hc0 : ¬c = [])
    (hrh : rhas c "process_definitions" = true) :
    enrich "sequence_flows" data (some c) = backfillFromDefs (procIdFromDefs c) data := by
  simp [enrich, hc0, hrh]

theorem enrich_elements_eq (data : List Value) (c : Record) (hc0 : ¬c = [])
    (hrh : rhas c "process_definitions" = true) :
    enrich "bpmn_elements" data (some c) = backfillFromDefs (procIdFromDefs c) data := by
  simp [enrich, hc0, hrh]

theorem enrich_pools_eq (data : List Value) (c : Record) (hc0 : ¬c = [])
    (hrh : rhas c "process_definitions" = true) :
    enrich "pools" data (some c) = backfillFromDefs (procIdFromDefsListOnly c) data := by
  simp [enrich, hc0, hrh]

theorem enrich_lanes_eq (data : List Value) (c : Record) (hc0 : ¬c = []) :
    enrich "lanes" data (some c) = lanesEnrich c data := by
  simp [enrich, hc0]

theorem out_key_truthy (schema : Schema) (hnd : (schema.map Prod.fst).Nodup)
    (k : String) (hk : (k, fReq "string") ∈ schema)
    (d : Record) (v0 : Value) (hd : rget d k = some v0) (ht : truthy v0 = true) :
    missingOrFalsey (applySchema schema d).1 k = false := by
  have hr := applySchema_rget_mem schema hnd d k (fReq "string") hk
  rw [hd] at hr
  have hr2 : rget (applySchema schema d).1 k = some (coerceField (fReq "string") v0) := hr
  have ht2 : truthy (coerceField (fReq "string") v0) = true := truthy_coerce_string v0 ht
  exact missingOrFalsey_eq_false _ _ _ hr2 ht2

theorem backfillFromDefs_some (pv? : Option Value) (pv : Value) (hpv : pv? = some pv)
    (ht : truthy pv = true) (data : List Value) :
    backfillFromDefs pv? data = backfillKey "process_id" pv data := by
  rw [hpv]
  simp only [backfillFromDefs]
  rw [if_pos ht]

theorem validate_flows_procId (data : List Value) (c : Record) (pv : Value)
    (hc0 : ¬c = []) (hrh : rhas c "process_definitions" = true)
    (hpv : procIdFromDefs c = some pv) (ht : truthy pv = true)
    (v : Value) (hv : v ∈ validate "sequence_flows" data (some c)) :
    ∃ fs, v = Value.vDict fs ∧ missingOrFalsey fs.toRecord "process_id" = false := by
  obtain ⟨it, hit, r, hpi, hveq⟩ :=
    mem_validate "sequence_flows" sequenceFlowsSchema data (some c) v rfl hv
  obtain ⟨fs0, hfs0, hok, hr⟩ := processItem_eq_some _ _ _ _ hpi
  have hit2 : it ∈ fixIdMap "FLOW_" "flow_id" (enrich "sequence_flows" data (some c)) := hit
  obtain ⟨fs1, hfs1mem, htr⟩ :=
    fixIdMap_rget_other "FLOW_" "flow_id" "process_id" (by decide) _ it hit2 fs0 hfs0
  rw [enrich_flows_eq data c hc0 hrh, backfillFromDefs_some _ pv hpv ht data] at hfs1mem
  have hm1 := backfillKey_missingOrFalsey "process_id" pv ht data _ hfs1mem fs1 rfl
  obtain ⟨v0, hv0, htv0⟩ := missingOrFalsey_false_elim _ _ hm1
  refine ⟨VFields.ofRecord r, hveq, ?_⟩
  rw [VFields.toRecord_ofRecord, hr, fixProcessId_ne _ _ (by decide)]
  exact out_key_truthy sequenceFlowsSchema (getSchema_nodup "sequence_flows" _ rfl)
    "process_id" (by decide) fs0.toRecord v0 (htr.trans hv0) htv0

theorem validate_elements_procId (data : List Value) (c : Record) (pv : Value)
    (hc0 : ¬c = []) (hrh : rhas c "process_definitions" = true)
    (hpv : procIdFromDefs c = some pv) (ht : truthy pv = true)
    (v : Value) (hv : v ∈ validate "bpmn_elements" data (some c)) :
    ∃ fs, v = Value.vDict fs ∧ missingOrFalsey fs.toRecord "process_id" = false := by
  obtain ⟨it, hit, r, hpi, hveq⟩ :=
    mem_validate "bpmn_elements" bpmnElementsSchema data (some c) v rfl hv
  obtain ⟨fs0, hfs0, hok, hr⟩ := processItem_eq_some _ _ _ _ hpi
  have hit2 : it ∈ ensureElementIds (enrich "bpmn_elements" data (some c)) := hit
  obtain ⟨fs1, hfs1mem, htr⟩ :=
    ensureElementIds_rget_other "process_id" (by decide) _ it hit2 fs0 hfs0
  rw [enrich_elements_eq data c hc0 hrh, backfillFromDefs_some _ pv hpv ht data] at hfs1mem
  have hm1 := backfillKey_missingOrFalsey "process_id" pv ht data _ hfs1mem fs1 rfl
  obtain ⟨v0, hv0, htv0⟩ := missingOrFalsey_false_elim _ _ hm1
  refine ⟨VFields.ofRecord r, hveq, ?_⟩
  rw [VFields.toRecord_ofRecord, hr, fixProcessId_ne _ _ (by decide)]
  exact out_key_truthy bpmnElementsSchema (getSchema_nodup "bpmn_elements" _ rfl)
    "process_id" (by decide) fs0.toRecord v0 (htr.trans hv0) htv0

theorem validate_pools_procId (data : List Value) (c : Record) (pv : Value)
    (hc0 : ¬c = []) (hrh : rhas c "process_definitions" = true)
    (hpv : procIdFromDefsListOnly c = some pv) (ht : truthy pv = true)
    (v : Value) (hv : v ∈ validate "pools" data (some c)) :
    ∃ fs, v = Value.vDict fs ∧ missingOrFalsey fs.toRecord "process_id" = false := by
  obtain ⟨it, hit, r, hpi, hveq⟩ := mem_validate "pools" poolsSchema data (some c) v rfl hv
  obtain ⟨fs0, hfs0, hok, hr⟩ := processItem_eq_some _ _ _ _ hpi
  have hit2 : it ∈ fixIdMap "POOL_" "pool_id" (enrich "pools" data (some c)) := hit
  obtain ⟨fs1, hfs1mem, htr⟩ :=
    fixIdMap_rget_other "POOL_" "pool_id" "process_id" (by decide) _ it hit2 fs0 hfs0
  rw [enrich_pools_eq data c hc0 hrh, backfillFromDefs_some _ pv hpv ht data] at hfs1mem
  have hm1 := backfillKey_missingOrFalsey "process_id" pv ht data _ hfs1mem fs1 rfl
  obtain ⟨v0, hv0, htv0⟩ := missingOrFalsey_false_elim _ _ hm1
  refine ⟨VFields.ofRecord r, hveq, ?_⟩
  rw [VFields.toRecord_ofRecord, hr, fixProcessId_ne _ _ (by decide)]
  exact out_key_truthy poolsSchema (getSchema_nodup "pools" _ rfl)
    "process_id" (by decide) fs0.toRecord v0 (htr.trans hv0) htv0

theorem validate_lanes_poolId (data : List Value) (ctx : Option Record) (pv : Value)
    (hpp : lanePoolIdParam ctx = some pv) (ht : truthy pv = true)
    (v : Value) (hv : v ∈ validate "lanes" data ctx) :
    ∃ fs, v = Value.vDict fs ∧ missingOrFalsey fs.toRecord "pool_id" = false := by
  obtain ⟨it, hit, r, hpi, hveq⟩ := mem_validate "lanes" lanesSchema data ctx v rfl hv
  obtain ⟨fs0, hfs0, hok, hr⟩ := processItem_eq_some _ _ _ _ hpi
  have hit2 : it ∈ ensureLaneIds (enrich "lanes" data ctx) (lanePoolIdParam ctx) := hit
  have hfacts := ensureLaneIds_mem2 _ _ it hit2 fs0 hfs0
  have hm1 := hfacts.1 pv hpp ht
  obtain ⟨v0, hv0, htv0⟩ := missingOrFalsey_false_elim _ _ hm1
  refine ⟨VFields.ofRecord r, hveq, ?_⟩
  rw [VFields.toRecord_ofRecord, hr, fixProcessId_ne _ _ (by decide)]
  exact out_key_truthy lanesSchema (getSchema_nodup "lanes" _ rfl)
    "pool_id" (by decide) fs0.toRecord v0 hv0 htv0

theorem validate_lanes_procId (data : List Value) (c : Record) (pv : Value)
    (hc0 : ¬c = [])
    (hpv : procIdFromDefsListOnly c = some pv) (ht : truthy pv = true)
    (v : Value) (hv : v ∈ validate "lanes" data (some c)) :
    ∃ fs, v = Value.vDict fs ∧ missingOrFalsey fs.toRecord "process_id" = false := by
  obtain ⟨it, hit, r, hpi, hveq⟩ := mem_validate "lanes" lanesSchema data (some c) v rfl hv
  obtain ⟨fs0, hfs0, hok, hr⟩ := processItem_eq_some _ _ _ _ hpi
  have hit2 : it ∈ ensureLaneIds (enrich "lanes" data (some c))
      (lanePoolIdParam (some c)) := hit
  have hfacts := ensureLaneIds_mem2 _ _ it hit2 fs0 hfs0
  obtain ⟨fs1, hfs1mem, htr⟩ := hfacts.2 "process_id" (by decide) (by decide)
  rw [enrich_lanes_eq data c hc0] at hfs1mem
  have hlf := lanesEnrich_mem c data _ hfs1mem fs1 rfl
  have hm1 := hlf.2.1 pv hpv ht
  obtain ⟨v0, hv0, htv0⟩ := missingOrFalsey_false_elim _ _ hm1
  refine ⟨VFields.ofRecord r, hveq, ?_⟩
  rw [VFields.toRecord_ofRecord, hr, fixProcessId_ne _ _ (by decide)]
  exact out_key_truthy lanesSchema (getSchema_nodup "lanes" _ rfl)
    "process_id" (by decide) fs0.toRecord v0 (htr.trans hv0) htv0

theorem pass2_enrich_flows (data : List Value) (ctx : Option Record) :
    enrich "sequence_flows" (validate "sequence_flows" data ctx) ctx
      = validate "sequence_flows" data ctx := by
  cases ctx with
  | none => rfl
  | some c =>
      by_cases hc0 : c = []
      · simp [enrich, hc0]
      by_cases hrh : rhas c "process_definitions" = true
      · rw [enrich_flows_eq _ c hc0 hrh]
        cases hpv : procIdFromDefs c with
        | none => rfl
        | some pv =>
            by_cases ht : truthy pv = true
            · rw [backfillFromDefs_some _ pv rfl ht]
              unfold backfillKey
              apply list_map_self
              intro x hx
              obtain ⟨fs, hfs, hm⟩ := validate_flows_procId data c pv hc0 hrh hpv ht x hx
              rw [hfs]
              show (if missingOrFalsey fs.toRecord "process_id" = true
                then Value.vDict (VFields.ofRecord (rset fs.toRecord "process_id" pv))
                else Value.vDict fs) = Value.vDict fs
              rw [hm, if_neg Bool.false_ne_true]
            · simp only [backfillFromDefs]
              rw [if_neg ht]
      · simp [enrich, hc0, hrh]

theorem pass2_enrich_elements (data : List Value) (ctx : Option Record) :
    enrich "bpmn_elements" (validate "bpmn_elements" data ctx) ctx
      = validate "bpmn_elements" data ctx := by
  cases ctx with
  | none => rfl
  | some c =>
      by_cases hc0 : c = []
      · simp [enrich, hc0]
      by_cases hrh : rhas c "process_definitions" = true
      · rw [enrich_elements_eq _ c hc0 hrh]
        cases hpv : procIdFromDefs c with
        | none => rfl
        | some pv =>
            by_cases ht : truthy pv = true
            · rw [backfillFromDefs_some _ pv rfl ht]
              unfold backfillKey
              apply list_map_self
              intro x hx
              obtain ⟨fs, hfs, hm⟩ := validate_elements_procId data c pv hc0 hrh hpv ht x hx
              rw [hfs]
              show (if missingOrFalsey fs.toRecord "process_id" = true
                then Value.vDict (VFields.ofRecord (rset fs.toRecord "process_id" pv))
                else Value.vDict fs) = Value.vDict fs
              rw [hm, if_neg Bool.false_ne_true]
            · simp only [backfillFromDefs]
              rw [if_neg ht]
      · simp [enrich, hc0, hrh]

theorem pass2_enrich_pools (data : List Value) (ctx : Option Record) :
    enrich "pools" (validate "pools" data ctx) ctx = validate "pools" data ctx := by
  cases ctx with
  | none => rfl
  | some c =>
      by_cases hc0 : c = []
      · simp [enrich, hc0]
      by_cases hrh : rhas c "process_definitions" = true
      · rw [enrich_pools_eq _ c hc0 hrh]
        cases hpv : procIdFromDefsListOnly c with
        | none => rfl
        | some pv =>
            by_cases ht : truthy pv = true
            · rw [backfillFromDefs_some _ pv rfl ht]
              unfold backfillKey
              apply list_map_self
              intro x hx
              obtain ⟨fs, hfs, hm⟩ := validate_pools_procId data c pv hc0 hrh hpv ht x hx
              rw [hfs]
              show (if missingOrFalsey fs.toRecord "process_id" = true
                then Value.vDict (VFields.ofRecord (rset fs.toRecord "process_id" pv))
                else Value.vDict fs) = Value.vDict fs
              rw [hm, if_neg Bool.false_ne_true]
            · simp only [backfillFromDefs]
              rw [if_neg ht]
      · simp [enrich, hc0, hrh]

theorem pass2_enrich_lanes (data : List Value) (ctx : Option Record) :
    enrich "lanes" (validate "lanes" data ctx) ctx = validate "lanes" data ctx := by
  cases ctx with
  | none => rfl
  | some c =>
      by_cases hc0 : c = []
      · simp [enrich, hc0]
      rw [enrich_lanes_eq _ c hc0]
      unfold lanesEnrich
      cases hpid : poolIdFromCtx c with
      | none =>
          cases hprid : procIdFromDefsListOnly c with
          | none =>
              apply list_map_self
              intro x hx
              obtain ⟨fs, s, hfs, hid, hne, hsw⟩ := validate_lanes_ids data (some c) x hx
              rw [hfs]
              show Value.vDict (VFields.ofRecord fs.toRecord) = Value.vDict fs
              rw [VFields.ofRecord_toRecord]
          | some pv2 =>
              apply list_map_self
              intro x hx
              obtain ⟨fs, s, hfs, hid, hne, hsw⟩ := validate_lanes_ids data (some c) x hx
              rw [hfs]
              show Value.vDict (VFields.ofRecord
                (if truthy pv2 = true ∧ missingOrFalsey fs.toRecord "process_id" = true
                 then rset fs.toRecord "process_id" pv2 else fs.toRecord)) = Value.vDict fs
              by_cases ht2 : truthy pv2 = true
              · obtain ⟨fs2, hfs2, hm⟩ := validate_lanes_procId data c pv2 hc0 hprid ht2 x hx
                rw [hfs] at hfs2
                injection hfs2 with hfs3
                rw [← hfs3] at hm
                rw [hm, if_neg (fun hcc => Bool.false_ne_true hcc.2),
                  VFields.ofRecord_toRecord]
              · rw [if_neg (fun hcc => ht2 hcc.1), VFields.ofRecord_toRecord]
      | some pv =>
          have hpp : lanePoolIdParam (some c) = some pv := by
            simp [lanePoolIdParam, hc0, hpid]
          cases hprid : procIdFromDefsListOnly c with
          | none =>
              apply list_map_self
              intro x hx
              obtain ⟨fs, s, hfs, hid, hne, hsw⟩ := validate_lanes_ids data (some c) x hx
              rw [hfs]
              show Value.vDict (VFields.ofRecord
                (if truthy pv = true ∧ missingOrFalsey fs.toRecord "pool_id" = true
                 then rset fs.toRecord "pool_id" pv else fs.toRecord)) = Value.vDict fs
              by_cases ht : truthy pv = true
              · obtain ⟨fs2, hfs2, hm⟩ := validate_lanes_poolId data (some c) pv hpp ht x hx
                rw [hfs] at hfs2
                injection hfs2 with hfs3
                rw [← hfs3] at hm
                rw [hm, if_neg (fun hcc => Bool.false_ne_true hcc.2),
                  VFields.ofRecord_toRecord]
              · rw [if_neg (fun hcc => ht hcc.1), VFields.ofRecord_toRecord]
          | some pv2 =>
              apply list_map_self
              intro x hx
              obtain ⟨fs, s, hfs, hid, hne, hsw⟩ := validate_lanes_ids data (some c) x hx
              rw [hfs]
              have hD1 : (if truthy pv = true ∧ missingOrFalsey fs.toRecord "pool_id" = true
                  then rset fs.toRecord "pool_id" pv else fs.toRecord) = fs.toRecord := by
                by_cases ht : truthy pv = true
                · obtain ⟨fs2, hfs2, hm⟩ := validate_lanes_poolId data (some c) pv hpp ht x hx
                  rw [hfs] at hfs2
                  injection hfs2 with hfs3
                  rw [← hfs3] at hm
                  exact if_neg (fun hcc => Bool.false_ne_true (hm ▸ hcc.2))
                · exact if_neg (fun hcc => ht hcc.1)
              show Value.vDict (VFields.ofRecord
                (if truthy pv2 = true ∧ missingOrFalsey
                    (if truthy pv = true ∧ missingOrFalsey fs.toRecord "pool_id" = true
                     then rset fs.toRecord "pool_id" pv else fs.toRecord) "process_id" = true
                 then rset (if truthy pv = true ∧ missingOrFalsey fs.toRecord "pool_id" = true
                     then rset fs.toRecord "pool_id" pv else fs.toRecord) "process_id" pv2
                 else (if truthy pv = true ∧ missingOrFalsey fs.toRecord "pool_id" = true
                     then rset fs.toRecord "pool_id" pv else fs.toRecord))) = Value.vDict fs
              rw [hD1]
              by_cases ht2 : truthy pv2 = true
              · obtain ⟨fs2, hfs2, hm⟩ := validate_lanes_procId data c pv2 hc0 hprid ht2 x hx
                rw [hfs] at hfs2
                injection hfs2 with hfs3
                rw [← hfs3] at hm
                rw [hm, if_neg (fun hcc => Bool.false_ne_true hcc.2),
                  VFields.ofRecord_toRecord]
              · rw [if_neg (fun hcc => ht2 hcc.1), VFields.ofRecord_toRecord]

theorem pass2_ensure_flows (data : List Value) (ctx : Option Record) :
    ensureIds "sequence_flows" (validate "sequence_flows" data ctx) ctx
      = validate "sequence_flows" data ctx := by
  show ensureFlowIds (validate "sequence_flows" data ctx) = _
  rw [ensureFlowIds_eq_fixIdMap]
  unfold fixIdMap
  apply enum_map_self
  intro p hp
  obtain ⟨i, x⟩ := p
  have hmem : x ∈ validate "sequence_flows" data ctx := mem_enum_snd _ (i, x) hp
  obtain ⟨fs, s, hfs, hid, hne, hsw⟩ := validate_flows_ids data ctx x hmem
  subst hfs
  show Value.vDict (VFields.ofRecord (fixIdWith "FLOW_" i fs.toRecord "flow_id"))
    = Value.vDict fs
  rw [fixIdWith_keep _ _ _ _ s hid hne hsw, VFields.ofRecord_toRecord]

theorem pass2_ensure_pools (data : List Value) (ctx : Option Record) :
    ensureIds "pools" (validate "pools" data ctx) ctx = validate "pools" data ctx := by
  show ensurePoolIds (validate "pools" data ctx) = _
  rw [ensurePoolIds_eq_fixIdMap]
  unfold fixIdMap
  apply enum_map_self
  intro p hp
  obtain ⟨i, x⟩ := p
  have hmem : x ∈ validate "pools" data ctx := mem_enum_snd _ (i, x) hp
  obtain ⟨fs, s, hfs, hid, hne, hsw⟩ := validate_pools_ids data ctx x hmem
  subst hfs
  show Value.vDict (VFields.ofRecord (fixIdWith "POOL_" i fs.toRecord "pool_id"))
    = Value.vDict fs
  rw [fixIdWith_keep _ _ _ _ s hid hne hsw, VFields.ofRecord_toRecord]

theorem ensureElementIds_length (l : List Value) :
    (ensureElementIds l).length = l.length := by
  unfold ensureElementIds
  rw [List.length_map, List.enum_length]

theorem pass2_ensure_elements (data : List Value) (ctx : Option Record) :
    ensureIds "bpmn_elements" (validate "bpmn_elements" data ctx) ctx
      = validate "bpmn_elements" data ctx := by
  show ensureElementIds (validate "bpmn_elements" data ctx) = _
  apply List.ext_get?
  intro i
  cases hx : (validate "bpmn_elements" data ctx).get? i with
  | none =>
      rw [List.get?_eq_none, ensureElementIds_length]
      exact List.get?_eq_none.mp hx
  | some x =>
      have hmem : x ∈ validate "bpmn_elements" data ctx := List.get?_mem hx
      obtain ⟨fs, s, hfs, hid, hne⟩ := validate_elements_ids data ctx x hmem
      subst hfs
      have hk : keepableId (rget fs.toRecord "element_id") = some s := by
        rw [hid]
        exact keepableId_some_of_ne s hne
      rw [ensureElementIds_keep _ i fs s hx hk]

theorem pass2_ensure_lanes (data : List Value) (ctx : Option Record) :
    ensureIds "lanes" (validate "lanes" data ctx) ctx = validate "lanes" data ctx := by
  show ensureLaneIds (validate "lanes" data ctx) (lanePoolIdParam ctx) = _
  unfold ensureLaneIds
  cases hpp : lanePoolIdParam ctx with
  | none =>
      apply enum_map_self
      intro p hp
      obtain ⟨i, x⟩ := p
      have hmem : x ∈ validate "lanes" data ctx := mem_enum_snd _ (i, x) hp
      obtain ⟨fs, s, hfs, hid, hne, hsw⟩ := validate_lanes_ids data ctx x hmem
      subst hfs
      show Value.vDict (VFields.ofRecord (fixIdWith "LANE_" i fs.toRecord "lane_id"))
        = Value.vDict fs
      rw [fixIdWith_keep _ _ _ _ s hid hne hsw, VFields.ofRecord_toRecord]
  | some pv =>
      apply enum_map_self
      intro p hp
      obtain ⟨i, x⟩ := p
      have hmem : x ∈ validate "lanes" data ctx := mem_enum_snd _ (i, x) hp
      obtain ⟨fs, s, hfs, hid, hne, hsw⟩ := validate_lanes_ids data ctx x hmem
      subst hfs
      show Value.vDict (VFields.ofRecord
        (if truthy pv = true ∧
            missingOrFalsey (fixIdWith "LANE_" i fs.toRecord "lane_id") "pool_id" = true
         then rset (fixIdWith "LANE_" i fs.toRecord "lane_id") "pool_id" pv
         else fixIdWith "LANE_" i fs.toRecord "lane_id")) = Value.vDict fs
      rw [fixIdWith_keep _ _ _ _ s hid hne hsw]
      by_cases ht : truthy pv = true
      · obtain ⟨fs2, hfs2, hm⟩ := validate_lanes_poolId data ctx pv hpp ht _ hmem
        injection hfs2 with hfs3
        rw [← hfs3] at hm
        rw [hm, if_neg (fun hcc => Bool.false_ne_true hcc.2), VFields.ofRecord_toRecord]
      · rw [if_neg (fun hcc => ht hcc.1), VFields.ofRecord_toRecord]

theorem getSchema_levels (level : String) (schema : Schema) (h : getSchema level = some schema) :
    level = "process_phases" ∨ level = "process_definitions" ∨ level = "bpmn_elements" ∨
    level = "sequence_flows" ∨ level = "resources" ∨ level = "pools" ∨ level = "lanes" ∨
    level = "modules" ∨ level = "parts" ∨ level = "subparts" := by
  unfold getSchema at h
  by_cases hp : level = "process_phases"
  · exact Or.inl hp
  · rw [if_neg hp] at h
    have hm := lookupStr_mem _ _ _ h
    have hfact : ∀ p ∈ schemasCatalog, p.1 = "process_definitions" ∨ p.1 = "bpmn_elements" ∨
        p.1 = "sequence_flows" ∨ p.1 = "resources" ∨ p.1 = "pools" ∨ p.1 = "lanes" ∨
        p.1 = "modules" ∨ p.1 = "parts" ∨ p.1 = "subparts" := by decide
    exact Or.inr (hfact (level, schema) hm)

def isStrOpt : Option Value → Bool
  | some (.vStr _) => true
  | some _ => false
  | none => true

/-- The per-record side condition under which `validate` is idempotent: every
value the record holds at a `date-time`-formatted schema field is already a
string (non-dict items satisfy it vacuously — they are dropped anyway). -/
def dtOkItem (schema : Schema) : Value → Bool
  | .vDict fs => schema.all (fun p =>
      if p.2.format? = some "date-time" then isStrOpt (rget fs.toRecord p.1) else true)
  | _ => true

theorem dtOk_elim (schema : Schema) (it : Value) (h : dtOkItem schema it = true)
    (fs : VFields) (hfs : it = .vDict fs) (p : String × FieldSchema) (hp : p ∈ schema)
    (hfmt : p.2.format? = some "date-time") (w : Value)
    (hw : rget fs.toRecord p.1 = some w) : ∃ s, w = Value.vStr s := by
  subst hfs
  have h2 : schema.all (fun p => if p.2.format? = some "date-time"
      then isStrOpt (rget fs.toRecord p.1) else true) = true := h
  have h3 := List.all_eq_true.mp h2 p hp
  rw [if_pos hfmt, hw] at h3
  cases w with
  | vStr s => exact ⟨s, rfl⟩
  | vInt n => cases (h3 : false = true)
  | vFloat q => cases (h3 : false = true)
  | vBool b => cases (h3 : false = true)
  | vNull => cases (h3 : false = true)
  | vList xs => cases (h3 : false = true)
  | vDict fs2 => cases (h3 : false = true)

theorem hdef_of_all (schema : Schema)
    (h : schema.all (fun p => match p.2.default? with
      | some d0 => coerceField p.2 d0 == d0
      | none => true) = true) :
    ∀ p ∈ schema, ∀ d0, p.2.default? = some d0 → coerceField p.2 d0 = d0 := by
  intro p hp d0 hd0
  have h2 := List.all_eq_true.mp h p hp
  rw [hd0] at h2
  have h3 : (coerceField p.2 d0 == d0) = true := h2
  exact eq_of_beq h3

theorem validate_eq (level : String) (schema : Schema) (data : List Value)
    (ctx : Option Record) (hd : ¬data = []) (hs : getSchema level = some schema) :
    validate level data ctx = (ensureIds level (enrich level data ctx) ctx).filterMap
      (fun it => (processItem level schema it).map
        (fun r => Value.vDict (VFields.ofRecord r))) := by
  unfold validate
  rw [if_neg hd, hs]

theorem validate_idem_core (level : String) (schema : Schema)
    (hsch : getSchema level = some schema)
    (data : List Value) (ctx : Option Record)
    (hout0 : ¬validate level data ctx = [])
    (henr : enrich level (validate level data ctx) ctx = validate level data ctx)
    (hens : ensureIds level (validate level data ctx) ctx = validate level data ctx)
    (hdef : ∀ p ∈ schema, ∀ d0, p.2.default? = some d0 → coerceField p.2 d0 = d0)
    (hdtd : ∀ it ∈ ensureIds level (enrich level data ctx) ctx, ∀ fs, it = Value.vDict fs →
      ∀ p ∈ schema, p.2.format? = some "date-time" →
      ∀ w, rget fs.toRecord p.1 = some w → ∃ s, w = Value.vStr s) :
    validate level (validate level data ctx) ctx = validate level data ctx := by
  rw [validate_eq level schema (validate level data ctx) ctx hout0 hsch, henr, hens]
  apply list_filterMap_self
  intro x hx
  obtain ⟨r, hpi, hxeq⟩ := validate_out_fix level schema hsch hdef data ctx x hx hdtd
  show (processItem level schema x).map (fun r2 => Value.vDict (VFields.ofRecord r2)) = some x
  rw [hpi]
  show some (Value.vDict (VFields.ofRecord r)) = some x
  rw [hxeq]

/-- C9 (amended): `ValidationLayer.validate` is not idempotent in general
(see the counterexample: a non-string value at a `date-time`-formatted field
is stringified on the first pass and replaced by the sentinel timestamp on
the second), but it is idempotent on every batch whose records hold only
string values at the `date-time`-formatted fields of their level's schema —
in particular for every level other than `process_definitions`, whose schemas
declare no `date-time` format, the hypothesis is vacuous and a second
`validate` always returns the first output unchanged. -/
theorem C9_datesIdempotent (level : String) (data : List Value) (ctx : Option Record)
    (h : data.all (dtOkItem ((getSchema level).getD [])) = true) :
    validate level (validate level data ctx) ctx = validate level data ctx := by
  by_cases hd : data = []
  · subst hd
    rfl
  cases hsch : getSchema level with
  | none =>
      have hout : validate level data ctx = data := by
        unfold validate
        rw [if_neg hd, hsch]
      rw [hout]
      exact hout
  | some schema =>
      by_cases hout0 : validate level data ctx = []
      · rw [hout0]
        rfl
      have hnodtOf : (∀ p ∈ schema, ¬p.2.format? = some "date-time") →
          ∀ it ∈ ensureIds level (enrich level data ctx) ctx, ∀ fs, it = Value.vDict fs →
          ∀ p ∈ schema, p.2.format? = some "date-time" →
          ∀ w, rget fs.toRecord p.1 = some w → ∃ s, w = Value.vStr s :=
        fun hnodt it _ fs _ p hp hfmt => absurd hfmt (hnodt p hp)
      rcases getSchema_levels level schema hsch with hl|hl|hl|hl|hl|hl|hl|hl|hl|hl <;> subst hl
      · have hschema : schema = processPhasesSchema := by
          have h2 : some processPhasesSchema = some schema := hsch
          injection h2 with h3
          exact h3.symm
        subst hschema
        exact validate_idem_core _ _ hsch data ctx hout0
          (enrich_other _ _ _ (by decide) (by decide) (by decide) (by decide))
          (ensureIds_other _ _ _ (by decide) (by decide) (by decide) (by decide))
          (hdef_of_all _ (by decide)) (hnodtOf (by decide))
      · have hschema : schema = processDefinitionsSchema := by
          have h2 : some processDefinitionsSchema = some schema := hsch
          injection h2 with h3
          exact h3.symm
        subst hschema
        refine validate_idem_core _ _ hsch data ctx hout0
          (enrich_other _ _ _ (by decide) (by decide) (by decide) (by decide))
          (ensureIds_other _ _ _ (by decide) (by decide) (by decide) (by decide))
          (hdef_of_all _ (by decide)) ?_
        intro it hit fs hfs p hp hfmt w hw
        rw [ensureIds_other _ _ _ (by decide) (by decide) (by decide) (by decide),
          enrich_other _ _ _ (by decide) (by decide) (by decide) (by decide)] at hit
        have hall := List.all_eq_true.mp h it hit
        exact dtOk_elim processDefinitionsSchema it hall fs hfs p hp hfmt w hw
      · have hschema : schema = bpmnElementsSchema := by
          have h2 : some bpmnElementsSchema = some schema := hsch
          injection h2 with h3
          exact h3.symm
        subst hschema
        exact validate_idem_core _ _ hsch data ctx hout0
          (pass2_enrich_elements data ctx) (pass2_ensure_elements data ctx)
          (hdef_of_all _ (by decide)) (hnodtOf (by decide))
      · have hschema : schema = sequenceFlowsSchema := by
          have h2 : some sequenceFlowsSchema = some schema := hsch
          injection h2 with h3
          exact h3.symm
        subst hschema
        exact validate_idem_core _ _ hsch data ctx hout0
          (pass2_enrich_flows data ctx) (pass2_ensure_flows data ctx)
          (hdef_of_all _ (by decide)) (hnodtOf (by decide))
      · have hschema : schema = resourcesSchema := by
          have h2 : some resourcesSchema = some schema := hsch
          injection h2 with h3
          exact h3.symm
        subst hschema
        exact validate_idem_core _ _ hsch data ctx hout0
          (enrich_other _ _ _ (by decide) (by decide) (by decide) (by decide))
          (ensureIds_other _ _ _ (by decide) (by decide) (by decide) (by decide))
          (hdef_of_all _ (by decide)) (hnodtOf (by decide))
      · have hschema : schema = poolsSchema := by
          have h2 : some poolsSchema = some schema := hsch
          injection h2 with h3
          exact h3.symm
        subst hschema
        exact validate_idem_core _ _ hsch data ctx hout0
          (pass2_enrich_pools data ctx) (pass2_ensure_pools data ctx)
          (hdef_of_all _ (by decide)) (hnodtOf (by decide))
      · have hschema : schema = lanesSchema := by
          have h2 : some lanesSchema = some schema := hsch
          injection h2 with h3
          exact h3.symm
        subst hschema
        exact validate_idem_core _ _ hsch data ctx hout0
          (pass2_enrich_lanes data ctx) (pass2_ensure_lanes data ctx)
          (hdef_of_all _ (by decide)) (hnodtOf (by decide))
      · have hschema : schema = modulesSchema := by
          have h2 : some modulesSchema = some schema := hsch
          injection h2 with h3
          exact h3.symm
        subst hschema
        exact validate_idem_core _ _ hsch data ctx hout0
          (enrich_other _ _ _ (by decide) (by decide) (by decide) (by decide))
          (ensureIds_other _ _ _ (by decide) (by decide) (by decide) (by decide))
          (hdef_of_all _ (by decide)) (hnodtOf (by decide))
      · have hschema : schema = partsSchema := by
          have h2 : some partsSchema = some schema := hsch
          injection h2 with h3
          exact h3.symm
        subst hschema
        exact validate_idem_core _ _ hsch data ctx hout0
          (enrich_other _ _ _ (by decide) (by decide) (by decide) (by decide))
          (ensureIds_other _ _ _ (by decide) (by decide) (by decide) (by decide))
          (hdef_of_all _ (by decide)) (hnodtOf (by decide))
      · have hschema : schema = subpartsSchema := by
          have h2 : some subpartsSchema = some schema := hsch
          injection h2 with h3
          exact h3.symm
        subst hschema
        exact validate_idem_core _ _ hsch data ctx hout0
          (enrich_other _ _ _ (by decide) (by decide) (by decide) (by decide))
          (ensureIds_other _ _ _ (by decide) (by decide) (by decide) (by decide))
          (hdef_of_all _ (by decide)) (hnodtOf (by decide))

def c9pdW : Value := Value.vDict (VFields.ofRecord
  [("process_id", .vStr "PROC_001"), ("process_name", .vStr "P"),
   ("description", .vStr "D"), ("creation_date", .vStr "2025-01-01T00:00:00Z")])

theorem C9_datesIdempotent_witness :
    [c9pdW].all (dtOkItem ((getSchema "process_definitions").getD [])) = true ∧
    validate "process_definitions" (validate "process_definitions" [c9pdW] none) none
      = validate "process_definitions" [c9pdW] none :=
  ⟨by decide, C9_datesIdempotent "process_definitions" [c9pdW] none (by decide)⟩
